import Mathlib

/-!
Shallow embedding of the pyIRTS versioned metadata store and its callers.

Sources embedded here:
- `src/core/metadata.py` (`MetadataManager.save_source_data`, `save_value`,
  `save_values`, `_mark_extra_metadata_as_deleted`)
- `src/core/database.py` (row/insert/update/query semantics of the sqlite layer)
- `src/harvesters/base.py` (`BaseHarvester.add_to_process`,
  `_check_existing_records`, `_generate_new_id`)

Modelling conventions:
- The `metadata` and `sourceData` tables are lists of rows kept in insertion
  order; `rowID` is the sqlite autoincrement id (`cursor.lastrowid`), modelled
  by a `nextRowID` counter.  `SELECT`s without `ORDER BY` scan in rowid order,
  which coincides with the list order because rows are only ever appended.
- `datetime.now()` is modelled by an explicit timestamp argument `t : Nat`;
  only the nullness of `deleted` matters to the claims.
- Python values reaching `save_value` are `None`, `str` or `bool`; they are
  modelled by `EVal`.  Stored values are nullable text (`Option String`).
-/

namespace Irts

/-- Status strings returned by `MetadataManager.save_value`
    ('new' / 'updated' / 'unchanged'). -/
inductive Status where
  | new
  | updated
  | unchanged
deriving DecidableEq, Repr

/-- Record type strings returned by `MetadataManager.save_source_data`
    ('new' / 'modified' / 'unchanged'). -/
inductive RecordType where
  | new
  | modified
  | unchanged
deriving DecidableEq, Repr

/-- A Python value passed to `save_value`: `None`, a `str`, or a `bool`. -/
inductive EVal where
  | vnone
  | vstr (s : String)
  | vbool (b : Bool)
deriving DecidableEq, Repr

/-- Python `str.strip()`: drop leading and trailing whitespace.  (Stated over
    the character list so that it evaluates by structural recursion.) -/
def pyStrip (s : String) : String :=
  String.mk (((s.data.dropWhile Char.isWhitespace).reverse.dropWhile
    Char.isWhitespace).reverse)

/-- Value normalization performed at the top of `save_value`: booleans become
    the literals 'TRUE'/'FALSE', strings are stripped of surrounding
    whitespace, `None` is stored as SQL NULL. -/
def normVal : EVal → Option String
  | .vnone => none
  | .vstr s => some (pyStrip s)
  | .vbool b => some (if b then "TRUE" else "FALSE")

/-- One row of the `metadata` table. -/
structure Row where
  rowID : Nat
  source : String
  idInSource : String
  parentRowID : Option Nat
  field : String
  place : Nat
  value : Option String
  added : Nat
  deleted : Option Nat
  replacedByRowID : Option Nat
deriving DecidableEq, Repr

/-- One row of the `sourceData` table. -/
structure SRow where
  rowID : Nat
  source : String
  idInSource : String
  sourceData : String
  format : String
  added : Nat
  deleted : Option Nat
  replacedByRowID : Option Nat
deriving DecidableEq, Repr

/-- The persistent state: both tables plus their autoincrement counters. -/
structure Store where
  rows : List Row
  nextRowID : Nat
  srows : List SRow
  nextSRowID : Nat
deriving DecidableEq, Repr

/-- The WHERE clause of the current-row lookup in `save_value`:
    source/idInSource/parentRowID/field/place match and `deleted IS NULL`
    (`parentRowID IS NULL` when the parent argument is `None`). -/
def rowMatches (src idS : String) (parent : Option Nat) (field : String)
    (place : Nat) (r : Row) : Bool :=
  r.source == src && r.idInSource == idS && r.parentRowID == parent &&
    r.field == field && r.place == place && r.deleted == none

/-- The `query_one` lookup of the current row for a value key
    (first match in rowid order). -/
def findCurrent (src idS : String) (parent : Option Nat) (field : String)
    (place : Nat) (st : Store) : Option Row :=
  st.rows.find? (rowMatches src idS parent field place)

/-- The row built by `db.insert('metadata', ...)`. -/
def newRow (src idS : String) (parent : Option Nat) (field : String)
    (place : Nat) (value : Option String) (t rid : Nat) : Row :=
  { rowID := rid, source := src, idInSource := idS, parentRowID := parent,
    field := field, place := place, value := value, added := t,
    deleted := none, replacedByRowID := none }

/-- Model of `db.insert('metadata', ...)`: append the row, return `lastrowid`. -/
def insertMeta (src idS : String) (parent : Option Nat) (field : String)
    (place : Nat) (value : Option String) (t : Nat) (st : Store) :
    Nat × Store :=
  (st.nextRowID,
   { st with
     rows := st.rows ++ [newRow src idS parent field place value t st.nextRowID],
     nextRowID := st.nextRowID + 1 })

/-- Model of `db.update('metadata', {'deleted': now, 'replacedByRowID': nid}, {'rowID': rid})`. -/
def supersedeRow (rid nid t : Nat) (st : Store) : Store :=
  { st with
    rows := st.rows.map fun r =>
      if r.rowID == rid then { r with deleted := some t, replacedByRowID := some nid }
      else r }

/-- An `UPDATE metadata SET deleted = now WHERE ...` statement. -/
def deleteWhere (p : Row → Bool) (t : Nat) (st : Store) : Store :=
  { st with
    rows := st.rows.map fun r => if p r then { r with deleted := some t } else r }

/-- Model of `MetadataManager._mark_extra_metadata_as_deleted` (metadata.py:252-305).

    Branch 1 (`if field:`): soft-delete current rows of that (parent, field)
    with `place > last_place`.
    Branch 2 (`elif current_fields:`): soft-delete current rows of that parent
    whose field is not in `current_fields`.
    Branch 3 (`elif parent_row_id is not None:`): soft-delete every current
    child of the parent.
    The Python call sites pass `last_place = ''` when `field` is empty; the
    argument is unused there, so it is typed `Nat` here. -/
def markExtraMetadataAsDeleted (src idS : String) (parent : Option Nat)
    (field : String) (lastPlace : Nat) (currentFields : List String)
    (t : Nat) (st : Store) : Store :=
  if field ≠ "" then
    deleteWhere
      (fun r => r.source == src && r.idInSource == idS && r.parentRowID == parent &&
        r.field == field && decide (lastPlace < r.place) && r.deleted == none)
      t st
  else if currentFields ≠ [] then
    deleteWhere
      (fun r => r.source == src && r.idInSource == idS && r.parentRowID == parent &&
        !(currentFields.contains r.field) && r.deleted == none)
      t st
  else
    match parent with
    | some pid =>
        deleteWhere
          (fun r => r.source == src && r.idInSource == idS &&
            r.parentRowID == some pid && r.deleted == none)
          t st
    | none => st

/-- Result dictionary of `save_value`: `{'rowID': ..., 'status': ...}`. -/
structure SaveResult where
  rowID : Nat
  status : Status
deriving DecidableEq, Repr

/-- Model of `MetadataManager.save_value` (metadata.py:81-170).

    Looks up the current row for the key; inserts when absent ('new');
    when present with a differing value, inserts a replacement, marks the old
    row deleted with `replacedByRowID`, and cascade-deletes the old row's
    current children via `_mark_extra_metadata_as_deleted(source, id,
    existing_row_id, '', '', [])`; otherwise returns the existing row
    unchanged. -/
def save_value (src idS field : String) (place : Nat) (value : EVal)
    (parent : Option Nat) (t : Nat) (st : Store) : SaveResult × Store :=
  let v := normVal value
  match findCurrent src idS parent field place st with
  | none =>
      let (rid, st1) := insertMeta src idS parent field place v t st
      (⟨rid, .new⟩, st1)
  | some ex =>
      if ex.value ≠ v then
        let (nid, st1) := insertMeta src idS parent field place v t st
        let st2 := supersedeRow ex.rowID nid t st1
        let st3 := markExtraMetadataAsDeleted src idS (some ex.rowID) "" 0 [] t st2
        (⟨nid, .updated⟩, st3)
      else
        (⟨ex.rowID, .unchanged⟩, st)

/-- The row built by `db.insert('sourceData', ...)`. -/
def newSRow (src idS data format : String) (t rid : Nat) : SRow :=
  { rowID := rid, source := src, idInSource := idS, sourceData := data,
    format := format, added := t, deleted := none, replacedByRowID := none }

/-- Model of `MetadataManager.save_source_data` (metadata.py:22-79). -/
def save_source_data (src idS data format : String) (t : Nat) (st : Store) :
    RecordType × Store :=
  match st.srows.find? (fun r => r.source == src && r.idInSource == idS && r.deleted == none) with
  | none =>
      (.new,
       { st with
         srows := st.srows ++ [newSRow src idS data format t st.nextSRowID],
         nextSRowID := st.nextSRowID + 1 })
  | some ex =>
      if ex.sourceData ≠ data then
        let nid := st.nextSRowID
        let st1 :=
          { st with
            srows := st.srows ++ [newSRow src idS data format t nid],
            nextSRowID := nid + 1 }
        (.modified,
         { st1 with
           srows := st1.srows.map fun r =>
             if r.rowID == ex.rowID then { r with deleted := some t, replacedByRowID := some nid }
             else r })
      else
        (.unchanged, st)

/-!
Nested records.  `save_values` consumes a dict mapping field names to lists of
value dicts; a value dict carries `'value'` and optionally `'children'` (a
nested dict of the same shape).  Python dict iteration order is insertion
order, so a record is modelled as an ordered list of (field, entries) pairs.
A missing `'value'` key, a `None` value and an empty entry dict all take the
same `continue` branch, so they are all modelled by `EVal.vnone`.  A missing
`'children'` key and a present-but-empty children dict behave identically
(`if 'children' in value_dict and value_dict['children']:`), so both are
modelled by an empty child record.  The string / single-dict coercions at
metadata.py:202-207 normalize untyped input into exactly this shape. -/

mutual
/-- A nested record: an ordered association list from field names to entry
    lists, as consumed by `save_values`. -/
inductive Rcd where
  | nil : Rcd
  | fcons (field : String) (es : Ents) (rest : Rcd) : Rcd
deriving DecidableEq, Repr

/-- An ordered list of value entries for one field; each entry carries its
    scalar value and its (possibly empty) child record. -/
inductive Ents where
  | enil : Ents
  | econs (v : EVal) (children : Rcd) (rest : Ents) : Ents
deriving DecidableEq, Repr
end

/-- Length of an entry list (`len(values)` in `save_values`). -/
def entsLen : Ents → Nat
  | .enil => 0
  | .econs _ _ rest => entsLen rest + 1

/-- The skip condition of the entry loop in `save_values`
    (metadata.py:210-216): no value, `None`, or a blank string. -/
def skipEntry : EVal → Bool
  | .vnone => true
  | .vstr s => pyStrip s == ""
  | .vbool _ => false

/-- One line of the report built by `save_values`
    (`f"{source} {id_in_source}: {field} {place} child of {parent_row_id} - {status}"`),
    kept structured together with the rowID returned by `save_value`. -/
structure RItem where
  field : String
  place : Nat
  parent : Option Nat
  status : Status
  rowID : Nat
deriving DecidableEq, Repr

mutual
/-- The field loop of `save_values` (metadata.py:198-239): process each
    field's entries, then prune places beyond the last supplied index.
    Returns the report, the accumulated `current_fields`, and the store.
    The complete-record pruning after the loop lives in `save_values`. -/
def saveFields (src idS : String) (t : Nat) :
    Rcd → Option Nat → Store → (List RItem × List String × Store)
  | .nil, _, st => ([], [], st)
  | .fcons field es rest, parent, st =>
      let (rep1, st1) := saveEntries src idS t field es 0 parent st
      let st2 :=
        if entsLen es ≠ 0 then
          markExtraMetadataAsDeleted src idS parent field (entsLen es - 1) [] t st1
        else st1
      let (rep2, fs, st3) := saveFields src idS t rest parent st2
      (rep1 ++ rep2, field :: fs, st3)

/-- The entry loop of `save_values` (metadata.py:209-232): skip empty values,
    call `save_value`, and recurse into non-empty children with
    `parent_row_id = rowID` and `complete_record = False` — the recursive call
    `self.save_values(source, id_in_source, value_dict['children'], row_id,
    None, False)` is `saveFields` because `complete_record=False` skips the
    final pruning. -/
def saveEntries (src idS : String) (t : Nat) (field : String) :
    Ents → Nat → Option Nat → Store → (List RItem × Store)
  | .enil, _, _, st => ([], st)
  | .econs v cs rest, place, parent, st =>
      if skipEntry v then saveEntries src idS t field rest (place + 1) parent st
      else
        let (res, st1) := save_value src idS field place v parent t st
        let (crep, st2) :=
          match cs with
          | .nil => ([], st1)
          | c =>
              let (cr, _, cst) := saveFields src idS t c (some res.rowID) st1
              (cr, cst)
        let (rrep, st3) := saveEntries src idS t field rest (place + 1) parent st2
        (⟨field, place, parent, res.status, res.rowID⟩ :: (crep ++ rrep), st3)
end

/-- Model of `MetadataManager.save_values` (metadata.py:172-250): run the field loop,
    then, when `complete_record` is set, soft-delete current rows of the
    parent whose fields were neither supplied nor listed in
    `existing_fields_to_ignore`. -/
def save_values (src idS : String) (record : Rcd) (parent : Option Nat)
    (ignore : List String) (complete : Bool) (t : Nat) (st : Store) :
    List RItem × Store :=
  let (rep, fields, st1) := saveFields src idS t record parent st
  let st2 :=
    if complete then
      markExtraMetadataAsDeleted src idS parent "" 0 (fields ++ ignore) t st1
    else st1
  (rep, st2)

/-!
The Identity Resolution / Admission layer (`src/harvesters/base.py`).
-/

/-- Python truthiness of an optional string (`if doi:` etc.): present and
    non-empty. -/
def truthy : Option String → Bool
  | none => false
  | some s => s ≠ ""

/-- A `db.get_values(..., single_value=True)` lookup of the first current
    value of a field for (source, idInSource) (base.py:81-119); `LIMIT 1`
    with no ORDER BY takes the first row in rowid order.  A row whose value
    is NULL and an absent row both yield `None`. -/
def getFirstValue (st : Store) (src idS field : String) : Option String :=
  match st.rows.find? (fun r => r.source == src && r.idInSource == idS &&
      r.field == field && r.deleted == none) with
  | some r => r.value
  | none => none

/-- Model of `BaseHarvester._check_existing_records` (base.py:204-216): any current
    row of the given source with the given field and value. -/
def check_existing_records (st : Store) (value field source : String) : Bool :=
  st.rows.any fun r =>
    r.source == source && r.field == field && r.value == some value &&
      r.deleted == none

/-- The first disjunct of the existing-IRTS-entry query (base.py:163-168):
    a current `irts.source` row whose value is the harvester's source and
    whose rowID appears as the parentRowID of a current `irts.idInSource`
    row carrying the item's idInSource. -/
def irtsPointerMatch (st : Store) (src idS : String) : Bool :=
  st.rows.any fun r =>
    r.source == "irts" && r.field == "irts.source" && r.value == some src &&
      r.deleted == none &&
      st.rows.any fun c =>
        c.source == "irts" && c.field == "irts.idInSource" &&
          c.value == some idS && c.deleted == none &&
          c.parentRowID == some r.rowID

/-- The second disjunct of the existing-IRTS-entry query (base.py:169):
    a current irts row whose field is the id-field carrying the idInSource. -/
def irtsFieldMatch (st : Store) (idField idS : String) : Bool :=
  st.rows.any fun r =>
    r.source == "irts" && r.field == idField && r.value == some idS &&
      r.deleted == none

/-- The existing-IRTS-entry query of `add_to_process` (base.py:160-171):
    the two disjuncts of its WHERE clause, both under `source = 'irts'`. -/
def checkIrtsEntry (st : Store) (src idS idField : String) : Bool :=
  irtsPointerMatch st src idS || irtsFieldMatch st idField idS

/-- Numeric-prefix parse of a character list with accumulator, modelling
    SQLite's CAST to the NUMERIC affinity ("UNSIGNED" names no real sqlite
    type): the longest leading digit run is parsed, anything else yields the
    accumulator (0 at top level).  Generated tracking ids only ever have pure
    digit suffixes, so fractional/exponent forms are not modelled. -/
def parseDigits : List Char → Nat → Nat
  | [], acc => acc
  | c :: cs, acc =>
      if c.isDigit then parseDigits cs (acc * 10 + (c.toNat - 48)) else acc

/-- Model of `CAST(s AS UNSIGNED)` on a text operand. -/
def castUnsigned (s : String) : Nat :=
  parseDigits s.data 0

/-- Model of `idInSource LIKE '{source}_%'`: in SQL LIKE, `_` matches any single
    character and `%` any run, so this requires at least one character beyond
    the pattern prefix; SQLite LIKE is ASCII-case-insensitive by default. -/
def likeMatch (pat v : String) : Bool :=
  decide (pat.length + 1 ≤ v.length) &&
    (pat.data.map Char.toLower).isPrefixOf (v.data.map Char.toLower)

/-- Model of `SUBSTRING(s, n+1)` (SQL substring is 1-indexed, so `SUBSTRING(idInSource,
    LENGTH(source) + 2)` drops `LENGTH(source) + 1` characters). -/
def substringFrom (s : String) (n : Nat) : String :=
  String.mk (s.data.drop n)

/-- Model of `BaseHarvester._generate_new_id` (base.py:218-233): take the MAX of
    `CAST(SUBSTRING(idInSource, LENGTH(source) + 2) AS UNSIGNED)` over all
    irts rows whose idInSource is LIKE '{source}_%', then `{source}_{n}` with
    n = max + 1; `if result and result['max_id']:` sends both NULL (no rows)
    and 0 to `next_id = 1`. -/
def generate_new_id (src : String) (st : Store) : String :=
  let vals := st.rows.filterMap fun r =>
    if r.source == "irts" && likeMatch src r.idInSource then
      some (castUnsigned (substringFrom r.idInSource (src.length + 1)))
    else none
  let maxId := vals.foldr max 0
  let nextId := if maxId ≠ 0 then maxId + 1 else 1
  src ++ "_" ++ toString nextId

/-- Result dictionary of `add_to_process`: `{'status': ..., 'idInIRTS': ...}`. -/
structure AddResult where
  status : String
  idInIRTS : String
deriving DecidableEq, Repr

/-- Values read back from the store are optional strings; `save_value`
    receives the corresponding Python value (`None` or `str`). -/
def optEVal : Option String → EVal
  | some s => .vstr s
  | none => .vnone

/-- The admission writes of `add_to_process` (base.py:175-196): the
    cross-source record is written through individual `save_value` calls,
    each with `place = 1`; `irts.idInSource` is parented under the
    `irts.source` row, everything else is top-level. -/
def admissionWrites (selfSource idInIrts idInSource idField : String)
    (typeValue title dateIssued doi harvestBasis : Option String)
    (t : Nat) (st : Store) : Store :=
  let (res, st1) := save_value "irts" idInIrts "irts.source" 1 (.vstr selfSource) none t st
  let st2 := (save_value "irts" idInIrts "irts.idInSource" 1 (.vstr idInSource) (some res.rowID) t st1).2
  let st3 := (save_value "irts" idInIrts "dc.type" 1 (optEVal typeValue) none t st2).2
  let st4 := (save_value "irts" idInIrts "irts.status" 1 (.vstr "inProcess") none t st3).2
  let st5 := (save_value "irts" idInIrts idField 1 (.vstr idInSource) none t st4).2
  let st6 := (save_value "irts" idInIrts "dc.title" 1 (optEVal title) none t st5).2
  let st7 := (save_value "irts" idInIrts "dc.date.issued" 1 (optEVal dateIssued) none t st6).2
  let st8 :=
    if truthy doi && idField ≠ "dc.identifier.doi" then
      (save_value "irts" idInIrts "dc.identifier.doi" 1 (optEVal doi) none t st7).2
    else st7
  if truthy harvestBasis then
    (save_value "irts" idInIrts "irts.harvest.basis" 1 (optEVal harvestBasis) none t st8).2
  else st8

/-- Model of `BaseHarvester.add_to_process` (base.py:61-202).

    Reads the item's type/doi/title/date from its own source rows, then runs
    the already-tracked checks in order, clearing the admission flag on any
    match; on admission it allocates `generate_new_id` and performs the
    `admissionWrites`.

    The title-dedup branch (base.py:141-157) is guarded by
    `if not doi and title and type_value:`; its first statement
    `self.db.connect().escape_string(title)` calls `escape_string` on the raw
    `sqlite3.Connection` returned by `connect()`, an attribute that class
    does not have, so the branch raises `AttributeError` (the
    `DatabaseConnection.escape_string` method exists but is not what is
    called).  That branch is therefore modelled as an error outcome and the
    title-match query below it is unreachable. -/
def add_to_process (selfSource idInSource idField : String)
    (harvestBasis : Option String) (t : Nat) (st : Store) :
    Except Unit (AddResult × Store) :=
  let typeValue := getFirstValue st selfSource idInSource "dc.type"
  let doi := getFirstValue st selfSource idInSource "dc.identifier.doi"
  let title := getFirstValue st selfSource idInSource "dc.title"
  let dateIssued := getFirstValue st selfSource idInSource "dc.date.issued"
  let add1 := !(check_existing_records st idInSource idField "repository")
  let add2 :=
    if truthy doi && idField ≠ "dc.identifier.doi" then
      add1 && !(check_existing_records st (doi.getD "") "dc.identifier.doi" "repository") &&
        !(check_existing_records st (doi.getD "") "dc.identifier.doi" "irts")
    else add1
  if !(truthy doi) && truthy title && truthy typeValue then
    .error ()
  else
    let add3 := add2 && !(checkIrtsEntry st selfSource idInSource idField)
    if add3 then
      let idInIrts := generate_new_id selfSource st
      let st' := admissionWrites selfSource idInIrts idInSource idField
        typeValue title dateIssued doi harvestBasis t st
      .ok (⟨"inProcess", idInIrts⟩, st')
    else
      .ok (⟨"existing", ""⟩, st)

/-!
Invariants and basic machinery.
-/

/-- The version-chain key of a metadata row:
    (source, idInSource, parentRowID, field, place). -/
def keyOf (r : Row) : String × String × Option Nat × String × Nat :=
  (r.source, r.idInSource, r.parentRowID, r.field, r.place)

/-- Lookup of a row by its rowID. -/
def rowByID (st : Store) (rid : Nat) : Option Row :=
  st.rows.find? (fun r => r.rowID == rid)

/-- Structural well-formedness of a store: rowIDs are below the autoincrement
    counter, pairwise distinct, and parent pointers reference strictly older
    rows. -/
def WF (st : Store) : Prop :=
  (∀ r ∈ st.rows, r.rowID < st.nextRowID) ∧
  (st.rows.map Row.rowID).Nodup ∧
  (∀ r ∈ st.rows, ∀ p ∈ r.parentRowID, p < r.rowID)

/-- The version-chain invariant: at most one current row per key. -/
def Uniq (st : Store) : Prop :=
  ∀ r1 ∈ st.rows, ∀ r2 ∈ st.rows,
    r1.deleted = none → r2.deleted = none → keyOf r1 = keyOf r2 → r1 = r2

/-- Combined store invariant. -/
def Inv (st : Store) : Prop := WF st ∧ Uniq st

theorem rowMatches_iff {src idS : String} {parent : Option Nat} {field : String}
    {place : Nat} {r : Row} :
    rowMatches src idS parent field place r = true ↔
      (r.source = src ∧ r.idInSource = idS ∧ r.parentRowID = parent ∧
        r.field = field ∧ r.place = place ∧ r.deleted = none) := by
  simp [rowMatches, Bool.and_eq_true, beq_iff_eq, and_assoc]

/-- Soft-deleting leaves every column but `deleted` / `replacedByRowID`
    untouched; it applies only to rows that were current. -/
def shadowsRow (r' r : Row) : Prop :=
  r.deleted = none ∧ r'.deleted ≠ none ∧
    r' = { r with deleted := r'.deleted, replacedByRowID := r'.replacedByRowID }

theorem shadowsRow.stable {r' r : Row} (h : shadowsRow r' r) :
    r'.rowID = r.rowID ∧ r'.source = r.source ∧ r'.idInSource = r.idInSource ∧
      r'.parentRowID = r.parentRowID ∧ r'.field = r.field ∧ r'.place = r.place ∧
      r'.value = r.value ∧ r'.added = r.added := by
  obtain ⟨-, -, h⟩ := h
  rw [h]
  simp

theorem shadowsRow.not_rowMatches {r' r : Row} (h : shadowsRow r' r)
    {src idS : String} {parent : Option Nat} {field : String} {place : Nat} :
    rowMatches src idS parent field place r' = false := by
  rcases h with ⟨-, hdel, h⟩
  rw [Bool.eq_false_iff]
  intro hc
  exact hdel (rowMatches_iff.mp hc).2.2.2.2.2

/-- Evolution frame between two stores: old rows persist in order, each either
    untouched or soft-deleted (with the deleted ones satisfying `D`); new rows
    are appended with fresh rowIDs and satisfy `N`. -/
def Evolves (D N : Row → Prop) (st st' : Store) : Prop :=
  st.nextRowID ≤ st'.nextRowID ∧
  ∃ u tail, st'.rows = st.rows.map u ++ tail ∧
    (∀ r ∈ st.rows, u r = r ∨ (shadowsRow (u r) r ∧ D r)) ∧
    ∀ y ∈ tail, N y ∧ st.nextRowID ≤ y.rowID

theorem Evolves.refl (D N : Row → Prop) (st : Store) : Evolves D N st st :=
  ⟨le_rfl, id, [], by simp, fun r _ => Or.inl rfl, by simp⟩

theorem Evolves.mono {D N D' N' : Row → Prop} {st st' : Store}
    (h : Evolves D N st st') (hD : ∀ r, D r → D' r) (hN : ∀ r, N r → N' r) :
    Evolves D' N' st st' := by
  obtain ⟨hn, u, tail, hrows, hu, ht⟩ := h
  exact ⟨hn, u, tail, hrows, fun r hr => (hu r hr).imp id (fun h => ⟨h.1, hD r h.2⟩),
    fun y hy => ⟨hN y ((ht y hy).1), (ht y hy).2⟩⟩

theorem Evolves.comp {D1 N1 D2 N2 : Row → Prop} {st1 st2 st3 : Store}
    (h1 : Evolves D1 N1 st1 st2) (h2 : Evolves D2 N2 st2 st3)
    (hN1 : ∀ r r', shadowsRow r' r → N1 r → N1 r') :
    Evolves (fun r => D1 r ∨ D2 r) (fun y => N1 y ∨ N2 y) st1 st3 := by
  obtain ⟨hn1, u1, tail1, hrows1, hu1, ht1⟩ := h1
  obtain ⟨hn2, u2, tail2, hrows2, hu2, ht2⟩ := h2
  refine ⟨le_trans hn1 hn2, fun r => u2 (u1 r), tail1.map u2 ++ tail2, ?_, ?_, ?_⟩
  · rw [hrows2, hrows1]
    rw [List.map_append, List.map_map, List.append_assoc]
    rfl
  · intro r hr
    dsimp only
    have hmem1 : u1 r ∈ st2.rows := by
      rw [hrows1]
      exact List.mem_append_left _ (List.mem_map_of_mem u1 hr)
    rcases hu1 r hr with h1r | ⟨hsh1, hD1⟩
    · rw [h1r] at hmem1 ⊢
      rcases hu2 r hmem1 with h2r | ⟨hsh2, hD2⟩
      · exact Or.inl h2r
      · exact Or.inr ⟨hsh2, Or.inr hD2⟩
    · rcases hu2 (u1 r) hmem1 with h2r | ⟨hsh2, hD2⟩
      · rw [h2r]
        exact Or.inr ⟨hsh1, Or.inl hD1⟩
      · exact absurd hsh2.1 hsh1.2.1
  · intro y hy
    dsimp only
    rcases List.mem_append.mp hy with hy1 | hy2
    · obtain ⟨x, hx, hxy⟩ := List.mem_map.mp hy1
      obtain ⟨hN1x, hid⟩ := ht1 x hx
      have hmem : x ∈ st2.rows := by
        rw [hrows1]
        exact List.mem_append_right _ hx
      subst hxy
      rcases hu2 x hmem with h2x | ⟨hsh2, _⟩
      · rw [h2x]
        exact ⟨Or.inl hN1x, hid⟩
      · exact ⟨Or.inl (hN1 x (u2 x) hsh2 hN1x), hsh2.stable.1 ▸ hid⟩
    · obtain ⟨hN2y, hid⟩ := ht2 y hy2
      exact ⟨Or.inr hN2y, le_trans hn1 hid⟩

theorem find?_map_append_stable {l tail : List Row} {u : Row → Row}
    {src idS : String} {parent : Option Nat} {field : String} {place : Nat} {r : Row}
    (hu : ∀ x ∈ l, u x = x ∨ shadowsRow (u x) x)
    (hfind : l.find? (rowMatches src idS parent field place) = some r)
    (hur : u r = r) :
    (l.map u ++ tail).find? (rowMatches src idS parent field place) = some r := by
  induction l with
  | nil => simp at hfind
  | cons x xs ih =>
      by_cases hx : rowMatches src idS parent field place x = true
      · rw [List.find?_cons_of_pos _ hx] at hfind
        obtain rfl : x = r := by injection hfind
        rw [List.map_cons, List.cons_append, hur, List.find?_cons_of_pos _ hx]
      · rw [List.find?_cons_of_neg _ hx] at hfind
        have hux : ¬ rowMatches src idS parent field place (u x) = true := by
          rcases hu x (List.mem_cons_self x xs) with h | h
          · rw [h]
            exact hx
          · rw [h.not_rowMatches]
            simp
        rw [List.map_cons, List.cons_append, List.find?_cons_of_neg _ hux]
        exact ih (fun y hy => hu y (List.mem_cons_of_mem x hy)) hfind

/-- A current-row lookup is unaffected by any evolution that does not delete
    the found row. -/
theorem findCurrent_stable {D N : Row → Prop} {st st' : Store}
    {src idS : String} {parent : Option Nat} {field : String} {place : Nat} {r : Row}
    (h : Evolves D N st st')
    (hfind : findCurrent src idS parent field place st = some r)
    (hD : ¬ D r) :
    findCurrent src idS parent field place st' = some r := by
  obtain ⟨-, u, tail, hrows, hu, -⟩ := h
  have hr : r ∈ st.rows := List.mem_of_find?_eq_some hfind
  have hur : u r = r := by
    rcases hu r hr with h | ⟨-, hDr⟩
    · exact h
    · exact absurd hDr hD
  rw [findCurrent, hrows]
  exact find?_map_append_stable (fun x hx => (hu x hx).imp id And.left) hfind hur

/-!
Frame and invariant lemmas for the primitive store operations.
-/

theorem findCurrent_spec {src idS : String} {parent : Option Nat} {field : String}
    {place : Nat} {st : Store} {ex : Row}
    (h : findCurrent src idS parent field place st = some ex) :
    ex ∈ st.rows ∧ ex.source = src ∧ ex.idInSource = idS ∧ ex.parentRowID = parent ∧
      ex.field = field ∧ ex.place = place ∧ ex.deleted = none := by
  have hm := List.mem_of_find?_eq_some h
  have hp := rowMatches_iff.mp (List.find?_some h)
  exact ⟨hm, hp⟩

theorem findCurrent_none {src idS : String} {parent : Option Nat} {field : String}
    {place : Nat} {st : Store}
    (h : findCurrent src idS parent field place st = none) :
    ∀ r ∈ st.rows, ¬(r.source = src ∧ r.idInSource = idS ∧ r.parentRowID = parent ∧
      r.field = field ∧ r.place = place ∧ r.deleted = none) := by
  intro r hr hc
  have := List.find?_eq_none.mp h r hr
  exact this (rowMatches_iff.mpr hc)

theorem nodup_rowID_inj {st : Store} (hwf : WF st) {r1 r2 : Row}
    (h1 : r1 ∈ st.rows) (h2 : r2 ∈ st.rows) (h : r1.rowID = r2.rowID) : r1 = r2 :=
  List.inj_on_of_nodup_map hwf.2.1 h1 h2 h

theorem deleteWhere_evolves {p : Row → Bool} {D : Row → Prop} {t : Nat} {st : Store}
    (hp : ∀ r ∈ st.rows, p r = true → r.deleted = none ∧ D r) :
    Evolves D (fun _ => False) st (deleteWhere p t st) := by
  refine ⟨le_rfl, fun r => if p r then { r with deleted := some t } else r, [],
    by simp [deleteWhere], ?_, by simp⟩
  intro r hr
  dsimp only
  by_cases h : p r = true
  · right
    rw [if_pos h]
    exact ⟨⟨(hp r hr h).1, by simp, by simp⟩, (hp r hr h).2⟩
  · left
    rw [if_neg h]

theorem insertMeta_evolves (src idS : String) (parent : Option Nat) (field : String)
    (place : Nat) (v : Option String) (t : Nat) (st : Store) :
    Evolves (fun _ => False)
      (fun y => y = newRow src idS parent field place v t st.nextRowID)
      st (insertMeta src idS parent field place v t st).2 :=
  ⟨Nat.le_succ _, id, [newRow src idS parent field place v t st.nextRowID],
    by simp [insertMeta], fun r _ => Or.inl rfl, by simp [newRow]⟩

theorem supersedeRow_evolves {rid : Nat} (nid t : Nat) {st : Store}
    (hcur : ∀ r ∈ st.rows, r.rowID = rid → r.deleted = none) :
    Evolves (fun r => r.rowID = rid) (fun _ => False) st (supersedeRow rid nid t st) := by
  refine ⟨le_rfl,
    fun r => if r.rowID == rid then { r with deleted := some t, replacedByRowID := some nid } else r,
    [], by simp [supersedeRow], ?_, by simp⟩
  intro r hr
  dsimp only
  by_cases h : r.rowID = rid
  · right
    rw [if_pos (by simpa using h)]
    exact ⟨⟨hcur r hr h, by simp, by simp⟩, h⟩
  · left
    rw [if_neg (by simpa using h)]

theorem WF_deleteWhere {p : Row → Bool} {t : Nat} {st : Store} (hwf : WF st) :
    WF (deleteWhere p t st) := by
  obtain ⟨hlt, hnd, hpl⟩ := hwf
  have hmap : ∀ r : Row,
      ((if p r then { r with deleted := some t } else r) : Row).rowID = r.rowID ∧
      ((if p r then { r with deleted := some t } else r) : Row).parentRowID = r.parentRowID := by
    intro r
    by_cases h : p r = true <;> simp [h]
  refine ⟨?_, ?_, ?_⟩
  · intro r hr
    obtain ⟨x, hx, rfl⟩ := List.mem_map.mp hr
    rw [(hmap x).1]
    exact hlt x hx
  · show ((st.rows.map _).map Row.rowID).Nodup
    rw [List.map_map]
    have : (Row.rowID ∘ fun r => if p r then { r with deleted := some t } else r) =
        fun r : Row => r.rowID := by
      funext r
      exact (hmap r).1
    rw [this]
    exact hnd
  · intro r hr q hq
    obtain ⟨x, hx, rfl⟩ := List.mem_map.mp hr
    rw [(hmap x).1]
    rw [(hmap x).2] at hq
    exact hpl x hx q hq

theorem WF_supersedeRow {rid nid t : Nat} {st : Store} (hwf : WF st) :
    WF (supersedeRow rid nid t st) := by
  obtain ⟨hlt, hnd, hpl⟩ := hwf
  have hmap : ∀ r : Row,
      ((if r.rowID == rid then { r with deleted := some t, replacedByRowID := some nid } else r) : Row).rowID = r.rowID ∧
      ((if r.rowID == rid then { r with deleted := some t, replacedByRowID := some nid } else r) : Row).parentRowID = r.parentRowID := by
    intro r
    by_cases h : r.rowID == rid <;> simp [h]
  refine ⟨?_, ?_, ?_⟩
  · intro r hr
    obtain ⟨x, hx, rfl⟩ := List.mem_map.mp hr
    rw [(hmap x).1]
    exact hlt x hx
  · show ((st.rows.map _).map Row.rowID).Nodup
    rw [List.map_map]
    have : (Row.rowID ∘ fun r : Row =>
        if r.rowID == rid then { r with deleted := some t, replacedByRowID := some nid } else r) =
        fun r : Row => r.rowID := by
      funext r
      exact (hmap r).1
    rw [this]
    exact hnd
  · intro r hr q hq
    obtain ⟨x, hx, rfl⟩ := List.mem_map.mp hr
    rw [(hmap x).1]
    rw [(hmap x).2] at hq
    exact hpl x hx q hq

/-- Parent references passed to an insert must point below the autoincrement
    counter for well-formedness to be preserved. -/
def ParentBound (parent : Option Nat) (st : Store) : Prop :=
  ∀ p ∈ parent, p < st.nextRowID

theorem WF_insertMeta {src idS : String} {parent : Option Nat} {field : String}
    {place : Nat} {v : Option String} {t : Nat} {st : Store}
    (hwf : WF st) (hpb : ParentBound parent st) :
    WF (insertMeta src idS parent field place v t st).2 := by
  obtain ⟨hlt, hnd, hpl⟩ := hwf
  refine ⟨?_, ?_, ?_⟩
  · intro r hr
    rcases List.mem_append.mp hr with h | h
    · exact Nat.lt_succ_of_lt (hlt r h)
    · rw [List.mem_singleton.mp h]
      exact Nat.lt_succ_self _
  · show ((st.rows ++ [newRow src idS parent field place v t st.nextRowID]).map Row.rowID).Nodup
    rw [List.map_append]
    refine List.Nodup.append hnd (by simp) ?_
    intro a ha hb
    simp only [List.map_cons, List.map_nil, List.mem_singleton, newRow] at hb
    obtain ⟨x, hx, rfl⟩ := List.mem_map.mp ha
    exact absurd hb (Nat.ne_of_lt (hlt x hx))
  · intro r hr q hq
    rcases List.mem_append.mp hr with h | h
    · exact hpl r h q hq
    · rw [List.mem_singleton.mp h] at hq ⊢
      simp only [newRow] at hq ⊢
      exact hpb q hq

theorem Uniq_deleteWhere {p : Row → Bool} {t : Nat} {st : Store} (hu : Uniq st) :
    Uniq (deleteWhere p t st) := by
  intro r1 h1 r2 h2 hd1 hd2 hk
  obtain ⟨x1, hx1, rfl⟩ := List.mem_map.mp h1
  obtain ⟨x2, hx2, rfl⟩ := List.mem_map.mp h2
  have e1 : (if p x1 then ({ x1 with deleted := some t } : Row) else x1) = x1 := by
    by_cases h : p x1 = true
    · rw [if_pos h] at hd1
      simp at hd1
    · rw [if_neg h]
  have e2 : (if p x2 then ({ x2 with deleted := some t } : Row) else x2) = x2 := by
    by_cases h : p x2 = true
    · rw [if_pos h] at hd2
      simp at hd2
    · rw [if_neg h]
  rw [e1] at hd1 hk ⊢
  rw [e2] at hd2 hk ⊢
  exact hu x1 hx1 x2 hx2 hd1 hd2 hk

theorem keyOf_newRow {src idS : String} {parent : Option Nat} {field : String}
    {place : Nat} {v : Option String} {t rid : Nat} :
    keyOf (newRow src idS parent field place v t rid) = (src, idS, parent, field, place) := rfl

theorem Uniq_insertMeta {src idS : String} {parent : Option Nat} {field : String}
    {place : Nat} {v : Option String} {t : Nat} {st : Store} (hu : Uniq st)
    (hnone : findCurrent src idS parent field place st = none) :
    Uniq (insertMeta src idS parent field place v t st).2 := by
  intro r1 h1 r2 h2 hd1 hd2 hk
  have hold : ∀ r ∈ st.rows, r.deleted = none →
      keyOf r ≠ (src, idS, parent, field, place) := by
    intro r hr hd hkey
    refine findCurrent_none hnone r hr ?_
    simp only [keyOf, Prod.mk.injEq] at hkey
    exact ⟨hkey.1, hkey.2.1, hkey.2.2.1, hkey.2.2.2.1, hkey.2.2.2.2, hd⟩
  rcases List.mem_append.mp h1 with ho1 | hn1 <;>
    rcases List.mem_append.mp h2 with ho2 | hn2
  · exact hu r1 ho1 r2 ho2 hd1 hd2 hk
  · rw [List.mem_singleton.mp hn2] at hk
    rw [keyOf_newRow] at hk
    exact absurd hk (hold r1 ho1 hd1)
  · rw [List.mem_singleton.mp hn1] at hk
    rw [keyOf_newRow] at hk
    exact absurd hk.symm (hold r2 ho2 hd2)
  · rw [List.mem_singleton.mp hn1, List.mem_singleton.mp hn2]

/-!
Branch equations of `save_value`.
-/

theorem save_value_eq_new {src idS field : String} {place : Nat} {value : EVal}
    {parent : Option Nat} {t : Nat} {st : Store}
    (h : findCurrent src idS parent field place st = none) :
    save_value src idS field place value parent t st =
      (⟨st.nextRowID, .new⟩,
       { st with
         rows := st.rows ++ [newRow src idS parent field place (normVal value) t st.nextRowID],
         nextRowID := st.nextRowID + 1 }) := by
  simp [save_value, h, insertMeta]

theorem save_value_eq_unchanged {src idS field : String} {place : Nat} {value : EVal}
    {parent : Option Nat} {t : Nat} {st : Store} {ex : Row}
    (h : findCurrent src idS parent field place st = some ex)
    (hv : ex.value = normVal value) :
    save_value src idS field place value parent t st = (⟨ex.rowID, .unchanged⟩, st) := by
  simp [save_value, h, hv]

/-- Row transformer effected by the updated branch of `save_value` on the
    pre-existing rows: the superseded row gets `deleted`/`replacedByRowID`,
    its current children (of the same source/idInSource) get `deleted`. -/
def updMap (src idS : String) (exID nid t : Nat) (r : Row) : Row :=
  if r.rowID = exID then { r with deleted := some t, replacedByRowID := some nid }
  else if r.source = src ∧ r.idInSource = idS ∧ r.parentRowID = some exID ∧ r.deleted = none then
    { r with deleted := some t }
  else r

theorem save_value_eq_updated {src idS field : String} {place : Nat} {value : EVal}
    {parent : Option Nat} {t : Nat} {st : Store} {ex : Row}
    (hwf : WF st)
    (h : findCurrent src idS parent field place st = some ex)
    (hv : ex.value ≠ normVal value) :
    save_value src idS field place value parent t st =
      (⟨st.nextRowID, .updated⟩,
       { st with
         rows := st.rows.map (updMap src idS ex.rowID st.nextRowID t) ++
           [newRow src idS parent field place (normVal value) t st.nextRowID],
         nextRowID := st.nextRowID + 1 }) := by
  obtain ⟨hmem, hsrc, hid, hpar, hfld, hplc, hdel⟩ := findCurrent_spec h
  have hexlt : ex.rowID < st.nextRowID := hwf.1 ex hmem
  have hexpar : parent ≠ some ex.rowID := by
    intro hc
    have := hwf.2.2 ex hmem ex.rowID (hpar.trans hc)
    exact lt_irrefl _ this
  simp only [save_value, h, if_pos hv, insertMeta, supersedeRow, markExtraMetadataAsDeleted,
    deleteWhere]
  simp only [ne_eq, not_true_eq_false, if_false, reduceIte, List.map_append, List.map_map,
    List.map_cons, List.map_nil]
  refine congrArg (Prod.mk _) ?_
  refine congrArg₂ (fun a b => Store.mk (a ++ b) (st.nextRowID + 1) st.srows st.nextSRowID) ?_ ?_
  · refine List.map_congr_left ?_
    intro r _
    simp only [Function.comp]
    by_cases h1 : r.rowID = ex.rowID
    · rw [updMap, if_pos h1]
      have : (r.rowID == ex.rowID) = true := by simpa using h1
      rw [this]
      simp
    · have hbeq : (r.rowID == ex.rowID) = false := by simpa using h1
      rw [updMap, if_neg h1, hbeq]
      simp only [Bool.false_eq_true, if_false]
      by_cases h2 : r.source = src ∧ r.idInSource = idS ∧ r.parentRowID = some ex.rowID ∧
          r.deleted = none
      · rw [if_pos h2]
        have : (r.source == src && (r.idInSource == idS) && (r.parentRowID == some ex.rowID) &&
            (r.deleted == none)) = true := by
          simp [h2.1, h2.2.1, h2.2.2.1, h2.2.2.2]
        rw [this]
        simp
      · rw [if_neg h2]
        have : (r.source == src && (r.idInSource == idS) && (r.parentRowID == some ex.rowID) &&
            (r.deleted == none)) = false := by
          rw [Bool.eq_false_iff]
          intro hc
          simp only [Bool.and_eq_true, beq_iff_eq] at hc
          exact h2 ⟨hc.1.1.1, hc.1.1.2, hc.1.2, hc.2⟩
        rw [this]
        simp
  · have h1 : (st.nextRowID == ex.rowID) = false := by
      simp only [beq_eq_false_iff_ne, ne_eq]
      exact fun hc => absurd (hc ▸ hexlt) (lt_irrefl _)
    have h2 : ((newRow src idS parent field place (normVal value) t st.nextRowID).parentRowID ==
        some ex.rowID) = false := by
      simp only [newRow, beq_eq_false_iff_ne, ne_eq]
      exact hexpar
    simp [newRow, h1, h2]
    exact hexpar

theorem WF_map_append_new {st : Store} (hwf : WF st) {u : Row → Row}
    (hu : ∀ r, (u r).rowID = r.rowID ∧ (u r).parentRowID = r.parentRowID)
    {nr : Row} (hnr : nr.rowID = st.nextRowID) (hnp : ∀ p ∈ nr.parentRowID, p < nr.rowID) :
    WF { st with rows := st.rows.map u ++ [nr], nextRowID := st.nextRowID + 1 } := by
  obtain ⟨hlt, hnd, hpl⟩ := hwf
  refine ⟨?_, ?_, ?_⟩
  · intro r hr
    rcases List.mem_append.mp hr with h | h
    · obtain ⟨x, hx, rfl⟩ := List.mem_map.mp h
      rw [(hu x).1]
      exact Nat.lt_succ_of_lt (hlt x hx)
    · rw [List.mem_singleton.mp h, hnr]
      exact Nat.lt_succ_self _
  · show (((st.rows.map u) ++ [nr]).map Row.rowID).Nodup
    rw [List.map_append, List.map_map]
    have : (Row.rowID ∘ u) = fun r : Row => r.rowID := funext fun r => (hu r).1
    rw [this]
    refine List.Nodup.append hnd (by simp) ?_
    intro a ha hb
    simp only [List.map_cons, List.map_nil, List.mem_singleton] at hb
    obtain ⟨x, hx, rfl⟩ := List.mem_map.mp ha
    rw [hnr] at hb
    exact absurd hb (Nat.ne_of_lt (hlt x hx))
  · intro r hr q hq
    rcases List.mem_append.mp hr with h | h
    · obtain ⟨x, hx, rfl⟩ := List.mem_map.mp h
      rw [(hu x).1]
      rw [(hu x).2] at hq
      exact hpl x hx q hq
    · rw [List.mem_singleton.mp h] at hq ⊢
      exact hnp q hq

theorem updMap_stable (src idS : String) (exID nid t : Nat) (r : Row) :
    (updMap src idS exID nid t r).rowID = r.rowID ∧
      (updMap src idS exID nid t r).parentRowID = r.parentRowID := by
  rw [updMap]
  by_cases h1 : r.rowID = exID
  · rw [if_pos h1]
    simp
  · rw [if_neg h1]
    by_cases h2 : r.source = src ∧ r.idInSource = idS ∧ r.parentRowID = some exID ∧
        r.deleted = none
    · rw [if_pos h2]
      simp
    · rw [if_neg h2]
      simp

/-- Combined postcondition of `save_value`: the invariant is preserved, the
    store evolves within the value's key (deletions limited to the superseded
    row and its children, the only new row carries the key), the returned
    rowID is in range, and afterwards the key's current row carries the
    normalized value and the returned rowID. -/
theorem save_value_main {src idS field : String} {place : Nat} {value : EVal}
    {parent : Option Nat} {t : Nat} {st : Store} {res : SaveResult} {st' : Store}
    (hinv : Inv st) (hpb : ParentBound parent st)
    (heq : save_value src idS field place value parent t st = (res, st')) :
    Inv st' ∧
    Evolves
      (fun r => r.source = src ∧ r.idInSource = idS ∧
        ((r.parentRowID = parent ∧ r.field = field ∧ r.place = place) ∨
         (∃ ex, findCurrent src idS parent field place st = some ex ∧
           r.parentRowID = some ex.rowID)))
      (fun y => y.source = src ∧ y.idInSource = idS ∧ y.parentRowID = parent ∧
        y.field = field ∧ y.place = place)
      st st' ∧
    res.rowID < st'.nextRowID ∧
    (∃ rr, findCurrent src idS parent field place st' = some rr ∧
      rr.rowID = res.rowID ∧ rr.value = normVal value) := by
  obtain ⟨hwf, hun⟩ := hinv
  match hfc : findCurrent src idS parent field place st with
  | none =>
      rw [save_value_eq_new hfc] at heq
      injection heq with h1 h2
      subst h1
      subst h2
      refine ⟨⟨?_, ?_⟩, ?_, ?_, ?_⟩
      · exact @WF_insertMeta src idS parent field place (normVal value) t st hwf hpb
      · exact Uniq_insertMeta hun hfc
      · refine (insertMeta_evolves src idS parent field place (normVal value) t st).mono
          (fun r h => h.elim) ?_
        intro y hy
        rw [hy, newRow]
        exact ⟨rfl, rfl, rfl, rfl, rfl⟩
      · exact Nat.lt_succ_self _
      · refine ⟨newRow src idS parent field place (normVal value) t st.nextRowID, ?_, rfl, rfl⟩
        show ((st.rows ++ _).find? _) = _
        rw [List.find?_append]
        rw [show st.rows.find? (rowMatches src idS parent field place) = none from hfc]
        simp [rowMatches, newRow]
  | some ex =>
      by_cases hv : ex.value = normVal value
      · rw [save_value_eq_unchanged hfc hv] at heq
        injection heq with h1 h2
        subst h1
        subst h2
        refine ⟨⟨hwf, hun⟩, Evolves.refl _ _ _, ?_, ex, hfc, rfl, hv⟩
        exact hwf.1 ex (findCurrent_spec hfc).1
      · rw [save_value_eq_updated hwf hfc hv] at heq
        injection heq with h1 h2
        subst h1
        subst h2
        obtain ⟨hmem, hsrc, hid, hpar, hfld, hplc, hdel⟩ := findCurrent_spec hfc
        have hexlt : ex.rowID < st.nextRowID := hwf.1 ex hmem
        refine ⟨⟨?_, ?_⟩, ?_, Nat.lt_succ_self _, ?_⟩
        · refine WF_map_append_new hwf (updMap_stable src idS ex.rowID st.nextRowID t) rfl ?_
          intro p hp
          simp only [newRow] at hp ⊢
          have := hwf.2.2 ex hmem p (hpar ▸ hp)
          exact lt_trans this hexlt
        · intro r1 h1 r2 h2 hd1 hd2 hk
          rcases List.mem_append.mp h1 with ho1 | hn1 <;>
            rcases List.mem_append.mp h2 with ho2 | hn2
          · obtain ⟨x1, hx1, rfl⟩ := List.mem_map.mp ho1
            obtain ⟨x2, hx2, rfl⟩ := List.mem_map.mp ho2
            have e1 : updMap src idS ex.rowID st.nextRowID t x1 = x1 := by
              rw [updMap] at hd1 ⊢
              by_cases hc1 : x1.rowID = ex.rowID
              · rw [if_pos hc1] at hd1
                simp at hd1
              · rw [if_neg hc1] at hd1 ⊢
                by_cases hc2 : x1.source = src ∧ x1.idInSource = idS ∧
                    x1.parentRowID = some ex.rowID ∧ x1.deleted = none
                · rw [if_pos hc2] at hd1
                  simp at hd1
                · rw [if_neg hc2]
            have e2 : updMap src idS ex.rowID st.nextRowID t x2 = x2 := by
              rw [updMap] at hd2 ⊢
              by_cases hc1 : x2.rowID = ex.rowID
              · rw [if_pos hc1] at hd2
                simp at hd2
              · rw [if_neg hc1] at hd2 ⊢
                by_cases hc2 : x2.source = src ∧ x2.idInSource = idS ∧
                    x2.parentRowID = some ex.rowID ∧ x2.deleted = none
                · rw [if_pos hc2] at hd2
                  simp at hd2
                · rw [if_neg hc2]
            rw [e1] at hd1 hk ⊢
            rw [e2] at hd2 hk ⊢
            exact hun x1 hx1 x2 hx2 hd1 hd2 hk
          · exfalso
            obtain ⟨x1, hx1, rfl⟩ := List.mem_map.mp ho1
            rw [List.mem_singleton.mp hn2, keyOf_newRow] at hk
            have e1 : updMap src idS ex.rowID st.nextRowID t x1 = x1 := by
              rw [updMap] at hd1 ⊢
              by_cases hc1 : x1.rowID = ex.rowID
              · rw [if_pos hc1] at hd1
                simp at hd1
              · rw [if_neg hc1] at hd1 ⊢
                by_cases hc2 : x1.source = src ∧ x1.idInSource = idS ∧
                    x1.parentRowID = some ex.rowID ∧ x1.deleted = none
                · rw [if_pos hc2] at hd1
                  simp at hd1
                · rw [if_neg hc2]
            rw [e1] at hd1 hk
            simp only [keyOf, Prod.mk.injEq] at hk
            have hx1ex : x1 = ex := by
              refine hun x1 hx1 ex hmem hd1 hdel ?_
              simp only [keyOf, Prod.mk.injEq]
              exact ⟨hk.1.trans hsrc.symm, hk.2.1.trans hid.symm, hk.2.2.1.trans hpar.symm,
                hk.2.2.2.1.trans hfld.symm, hk.2.2.2.2.trans hplc.symm⟩
            have : updMap src idS ex.rowID st.nextRowID t x1 ≠ x1 := by
              rw [hx1ex, updMap, if_pos rfl]
              intro hc
              have := congrArg Row.deleted hc
              simp only at this
              rw [hdel] at this
              exact Option.noConfusion this
            exact this e1
          · exfalso
            obtain ⟨x2, hx2, rfl⟩ := List.mem_map.mp ho2
            rw [List.mem_singleton.mp hn1, keyOf_newRow] at hk
            have e2 : updMap src idS ex.rowID st.nextRowID t x2 = x2 := by
              rw [updMap] at hd2 ⊢
              by_cases hc1 : x2.rowID = ex.rowID
              · rw [if_pos hc1] at hd2
                simp at hd2
              · rw [if_neg hc1] at hd2 ⊢
                by_cases hc2 : x2.source = src ∧ x2.idInSource = idS ∧
                    x2.parentRowID = some ex.rowID ∧ x2.deleted = none
                · rw [if_pos hc2] at hd2
                  simp at hd2
                · rw [if_neg hc2]
            rw [e2] at hd2 hk
            simp only [keyOf, Prod.mk.injEq] at hk
            have hx2ex : x2 = ex := by
              refine hun x2 hx2 ex hmem hd2 hdel ?_
              simp only [keyOf, Prod.mk.injEq]
              exact ⟨hk.1.symm.trans hsrc.symm, hk.2.1.symm.trans hid.symm,
                hk.2.2.1.symm.trans hpar.symm, hk.2.2.2.1.symm.trans hfld.symm,
                hk.2.2.2.2.symm.trans hplc.symm⟩
            have : updMap src idS ex.rowID st.nextRowID t x2 ≠ x2 := by
              rw [hx2ex, updMap, if_pos rfl]
              intro hc
              have := congrArg Row.deleted hc
              simp only at this
              rw [hdel] at this
              exact Option.noConfusion this
            exact this e2
          · rw [List.mem_singleton.mp hn1, List.mem_singleton.mp hn2]
        · refine ⟨Nat.le_succ _, updMap src idS ex.rowID st.nextRowID t,
            [newRow src idS parent field place (normVal value) t st.nextRowID], rfl, ?_, ?_⟩
          · intro r hr
            rw [updMap]
            by_cases hc1 : r.rowID = ex.rowID
            · have hrex : r = ex := nodup_rowID_inj ⟨hwf.1, hwf.2.1, hwf.2.2⟩ hr hmem hc1
              right
              rw [if_pos hc1]
              subst hrex
              refine ⟨⟨hdel, by simp, by simp⟩, hsrc, hid, Or.inl ⟨hpar, hfld, hplc⟩⟩
            · rw [if_neg hc1]
              by_cases hc2 : r.source = src ∧ r.idInSource = idS ∧
                  r.parentRowID = some ex.rowID ∧ r.deleted = none
              · right
                rw [if_pos hc2]
                exact ⟨⟨hc2.2.2.2, by simp, by simp⟩, hc2.1, hc2.2.1,
                  Or.inr ⟨ex, rfl, hc2.2.2.1⟩⟩
              · left
                rw [if_neg hc2]
          · intro y hy
            rw [List.mem_singleton.mp hy, newRow]
            exact ⟨⟨rfl, rfl, rfl, rfl, rfl⟩, le_rfl⟩
        · refine ⟨newRow src idS parent field place (normVal value) t st.nextRowID, ?_, rfl, rfl⟩
          show ((st.rows.map _ ++ _).find? _) = _
          rw [List.find?_append]
          have hnone : (st.rows.map (updMap src idS ex.rowID st.nextRowID t)).find?
              (rowMatches src idS parent field place) = none := by
            rw [List.find?_eq_none]
            intro y hy hcy
            obtain ⟨x, hx, rfl⟩ := List.mem_map.mp hy
            obtain ⟨hys, hyi, hyp, hyf, hypl, hyd⟩ := rowMatches_iff.mp hcy
            have hstab := updMap_stable src idS ex.rowID st.nextRowID t x
            by_cases hc1 : x.rowID = ex.rowID
            · have : updMap src idS ex.rowID st.nextRowID t x =
                  { x with deleted := some t, replacedByRowID := some st.nextRowID } := by
                rw [updMap, if_pos hc1]
              rw [this] at hyd
              exact Option.noConfusion hyd
            · by_cases hc2 : x.source = src ∧ x.idInSource = idS ∧
                  x.parentRowID = some ex.rowID ∧ x.deleted = none
              · have : updMap src idS ex.rowID st.nextRowID t x =
                    { x with deleted := some t } := by
                  rw [updMap, if_neg hc1, if_pos hc2]
                rw [this] at hyd
                exact Option.noConfusion hyd
              · have hxx : updMap src idS ex.rowID st.nextRowID t x = x := by
                  rw [updMap, if_neg hc1, if_neg hc2]
                rw [hxx] at hys hyi hyp hyf hypl hyd
                have hxex : x = ex := by
                  refine hun x hx ex hmem hyd hdel ?_
                  simp only [keyOf, Prod.mk.injEq]
                  exact ⟨hys.trans hsrc.symm, hyi.trans hid.symm, hyp.trans hpar.symm,
                    hyf.trans hfld.symm, hypl.trans hplc.symm⟩
                exact hc1 (hxex ▸ rfl)
          rw [hnone]
          simp [rowMatches, newRow]

/-!
Lemmas about `_mark_extra_metadata_as_deleted` and `deleteWhere`.
-/

theorem deleteWhere_id {p : Row → Bool} {t : Nat} {st : Store}
    (h : ∀ r ∈ st.rows, p r = false) : deleteWhere p t st = st := by
  show Store.mk _ _ _ _ = st
  have : st.rows.map (fun r => if p r then { r with deleted := some t } else r) = st.rows := by
    rw [List.map_congr_left ?_, List.map_id]
    intro r hr
    rw [h r hr]
    simp
  rw [this]

theorem deleteWhere_mem {p : Row → Bool} {t : Nat} {st : Store} {r' : Row}
    (h : r' ∈ (deleteWhere p t st).rows) :
    ∃ r ∈ st.rows, (p r = false ∧ r' = r) ∨ (p r = true ∧ r' = { r with deleted := some t }) := by
  obtain ⟨r, hr, rfl⟩ := List.mem_map.mp h
  refine ⟨r, hr, ?_⟩
  by_cases hp : p r = true
  · right
    rw [if_pos hp]
    exact ⟨hp, rfl⟩
  · left
    rw [if_neg hp]
    exact ⟨Bool.eq_false_iff.mpr hp, rfl⟩

/-- Deletion bound of `_mark_extra_metadata_as_deleted`: every row it deletes
    belongs to the call's (source, idInSource), and falls under the branch
    that ran. -/
def markExtraD (src idS : String) (parent : Option Nat) (field : String)
    (lastPlace : Nat) (fields : List String) (r : Row) : Prop :=
  r.source = src ∧ r.idInSource = idS ∧ r.parentRowID = parent ∧
    ((field ≠ "" ∧ r.field = field ∧ lastPlace < r.place) ∨
     (field = "" ∧ fields ≠ [] ∧ r.field ∉ fields) ∨
     (field = "" ∧ fields = [] ∧ parent ≠ none))

theorem markExtra_evolves (src idS : String) (parent : Option Nat) (field : String)
    (lastPlace : Nat) (fields : List String) (t : Nat) (st : Store) :
    Evolves (markExtraD src idS parent field lastPlace fields) (fun _ => False) st
      (markExtraMetadataAsDeleted src idS parent field lastPlace fields t st) := by
  rw [markExtraMetadataAsDeleted.eq_def]
  by_cases hf : field ≠ ""
  · rw [if_pos hf]
    refine deleteWhere_evolves ?_
    intro r _ hp
    simp only [Bool.and_eq_true, beq_iff_eq, decide_eq_true_eq] at hp
    exact ⟨hp.2, hp.1.1.1.1.1, hp.1.1.1.1.2, hp.1.1.1.2, Or.inl ⟨hf, hp.1.1.2, hp.1.2⟩⟩
  · rw [if_neg hf]
    push_neg at hf
    by_cases hfs : fields ≠ []
    · rw [if_pos hfs]
      refine deleteWhere_evolves ?_
      intro r _ hp
      simp only [Bool.and_eq_true, beq_iff_eq, Bool.not_eq_true'] at hp
      refine ⟨hp.2, hp.1.1.1.1, hp.1.1.1.2, hp.1.1.2, Or.inr (Or.inl ⟨hf, hfs, ?_⟩)⟩
      intro hc
      have hcont : fields.contains r.field = true := List.elem_eq_true_of_mem hc
      rw [hp.1.2] at hcont
      exact Bool.noConfusion hcont
    · rw [if_neg hfs]
      push_neg at hfs
      match parent with
      | some pid =>
          refine deleteWhere_evolves ?_
          intro r _ hp
          simp only [Bool.and_eq_true, beq_iff_eq] at hp
          exact ⟨hp.2, hp.1.1.1, hp.1.1.2, hp.1.2,
            Or.inr (Or.inr ⟨hf, hfs, Option.noConfusion⟩)⟩
      | none => exact Evolves.refl _ _ _

theorem WF_markExtra {src idS : String} {parent : Option Nat} {field : String}
    {lastPlace : Nat} {fields : List String} {t : Nat} {st : Store} (hwf : WF st) :
    WF (markExtraMetadataAsDeleted src idS parent field lastPlace fields t st) := by
  rw [markExtraMetadataAsDeleted.eq_def]
  by_cases hf : field ≠ ""
  · rw [if_pos hf]
    exact WF_deleteWhere hwf
  · rw [if_neg hf]
    by_cases hfs : fields ≠ []
    · rw [if_pos hfs]
      exact WF_deleteWhere hwf
    · rw [if_neg hfs]
      match parent with
      | some pid => exact WF_deleteWhere hwf
      | none => exact hwf

theorem Uniq_markExtra {src idS : String} {parent : Option Nat} {field : String}
    {lastPlace : Nat} {fields : List String} {t : Nat} {st : Store} (hu : Uniq st) :
    Uniq (markExtraMetadataAsDeleted src idS parent field lastPlace fields t st) := by
  rw [markExtraMetadataAsDeleted.eq_def]
  by_cases hf : field ≠ ""
  · rw [if_pos hf]
    exact Uniq_deleteWhere hu
  · rw [if_neg hf]
    by_cases hfs : fields ≠ []
    · rw [if_pos hfs]
      exact Uniq_deleteWhere hu
    · rw [if_neg hfs]
      match parent with
      | some pid => exact Uniq_deleteWhere hu
      | none => exact hu

theorem rowByID_of_mem {st : Store} (hwf : WF st) {r : Row} (hr : r ∈ st.rows) :
    rowByID st r.rowID = some r := by
  rw [rowByID]
  match hfind : st.rows.find? (fun x => x.rowID == r.rowID) with
  | none =>
      exact absurd (List.find?_eq_none.mp hfind r hr) (by simp)
  | some x =>
      have hx := List.mem_of_find?_eq_some hfind
      have hxe : x.rowID = r.rowID := by simpa using List.find?_some hfind
      exact (nodup_rowID_inj hwf hx hr hxe) ▸ hfind

/-!
Parent-pointer chains.  `RootedAt rows parent F r` says that following the
(unique, by rowID-nodup and parent-monotonicity) parent chain of `r` upward
through `rows` reaches a row sitting directly at scope `parent` whose field
and place satisfy `F`.  Chains are stable under evolution because rows are
never physically removed and their key columns never change.
-/

inductive RootedAt (rows : List Row) (parent : Option Nat) (F : String → Nat → Prop) :
    Row → Prop where
  | direct (r : Row) (hp : r.parentRowID = parent) (hf : F r.field r.place) :
      RootedAt rows parent F r
  | step (r a : Row) (ha : a ∈ rows) (hp : r.parentRowID = some a.rowID)
      (h : RootedAt rows parent F a) : RootedAt rows parent F r

theorem RootedAt.congr {rows : List Row} {parent : Option Nat}
    {F : String → Nat → Prop} {r r' : Row}
    (h : RootedAt rows parent F r) (hp : r'.parentRowID = r.parentRowID)
    (hf : r'.field = r.field) (hpl : r'.place = r.place) :
    RootedAt rows parent F r' := by
  cases h with
  | direct _ hpp hff => exact .direct r' (hp.trans hpp) (hf ▸ hpl ▸ hff)
  | step _ a ha hpp hh => exact .step r' a ha (hp.trans hpp) hh

theorem RootedAt.mono_F {rows : List Row} {parent : Option Nat}
    {F G : String → Nat → Prop} {r : Row}
    (h : RootedAt rows parent F r) (hFG : ∀ f pl, F f pl → G f pl) :
    RootedAt rows parent G r := by
  induction h with
  | direct r hp hf => exact .direct r hp (hFG _ _ hf)
  | step r a ha hp _ ih => exact .step r a ha hp ih

theorem RootedAt.evolves {D N : Row → Prop} {st st' : Store} {parent : Option Nat}
    {F : String → Nat → Prop} {r : Row}
    (hev : Evolves D N st st') (h : RootedAt st.rows parent F r) :
    RootedAt st'.rows parent F r := by
  obtain ⟨-, u, tail, hrows, hu, -⟩ := hev
  induction h with
  | direct r hp hf => exact .direct r hp hf
  | step r a ha hp _ ih =>
      have hstab : (u a).parentRowID = a.parentRowID ∧ (u a).field = a.field ∧
          (u a).place = a.place ∧ (u a).rowID = a.rowID := by
        rcases hu a ha with h1 | ⟨h1, -⟩
        · rw [h1]
          exact ⟨rfl, rfl, rfl, rfl⟩
        · obtain ⟨hid, -, -, hpar, hfld, hplc, -, -⟩ := h1.stable
          exact ⟨hpar, hfld, hplc, hid⟩
      have hmem : u a ∈ st'.rows := by
        rw [hrows]
        exact List.mem_append_left _ (List.mem_map_of_mem u ha)
      refine .step r (u a) hmem (by rw [hstab.2.2.2, ← hp]) ?_
      exact ih.congr hstab.1 hstab.2.1 hstab.2.2.1

/-- A chain rooted under scope `some q` from a row whose own parent pointer is
    monotone descends strictly: `q` is below the row's id. -/
theorem RootedAt.some_lt {rows : List Row} {q : Nat} {F : String → Nat → Prop} {r : Row}
    (hpl : ∀ x ∈ rows, ∀ p ∈ x.parentRowID, p < x.rowID)
    (hplr : ∀ p ∈ r.parentRowID, p < r.rowID)
    (h : RootedAt rows (some q) F r) : q < r.rowID := by
  induction h with
  | direct r hp _ => exact hplr q (by rw [hp]; rfl)
  | step r a ha hp _ ih =>
      exact lt_trans (ih (hpl a ha)) (hplr a.rowID (by rw [hp]; rfl))

/-- Two rootings of the same row reach the same direct row, so their filters
    must overlap somewhere. -/
theorem RootedAt.disjoint {rows : List Row} {parent : Option Nat}
    {F1 F2 : String → Nat → Prop} {r : Row}
    (hnd : (rows.map Row.rowID).Nodup)
    (hpl : ∀ x ∈ rows, ∀ p ∈ x.parentRowID, p < x.rowID)
    (hF : ∀ f pl, F1 f pl → F2 f pl → False)
    (h1 : RootedAt rows parent F1 r) (h2 : RootedAt rows parent F2 r) : False := by
  induction h1 with
  | direct r hp hf =>
      cases h2 with
      | direct _ hp2 hf2 => exact hF _ _ hf hf2
      | step _ a2 ha2 hp2 hsub2 =>
          have hq : parent = some a2.rowID := hp ▸ hp2
          have := RootedAt.some_lt hpl (hpl a2 ha2) (hq ▸ hsub2)
          exact lt_irrefl _ this
  | step r a1 ha1 hp1 hsub1 ih =>
      cases h2 with
      | direct _ hp2 hf2 =>
          have hq : parent = some a1.rowID := hp2 ▸ hp1
          have := RootedAt.some_lt hpl (hpl a1 ha1) (hq ▸ hsub1)
          exact lt_irrefl _ this
      | step _ a2 ha2 hp2 hsub2 =>
          have : a2 = a1 := by
            refine List.inj_on_of_nodup_map hnd ha2 ha1 ?_
            have h12 := hp1 ▸ hp2
            injection h12 with h12
            exact h12.symm
          exact ih (this ▸ hsub2)

/-- Extend a chain rooted at a child scope through the scope row itself. -/
theorem RootedAt.through {rows : List Row} {parent : Option Nat} {rid : Nat}
    {F G : String → Nat → Prop} {r rr : Row}
    (hmem : rr ∈ rows) (hrid : rr.rowID = rid) (hrp : rr.parentRowID = parent)
    (hrf : F rr.field rr.place)
    (h : RootedAt rows (some rid) G r) : RootedAt rows parent F r := by
  induction h with
  | direct r hp _ =>
      exact .step r rr hmem (by rw [hp, hrid]) (.direct rr hrp hrf)
  | step r a ha hp _ ih => exact .step r a ha hp ih

/-- A row sitting directly at the scope can only be rooted through its own
    field and place. -/
theorem RootedAt.direct_field {rows : List Row} {parent : Option Nat}
    {F : String → Nat → Prop} {r : Row}
    (hpl : ∀ x ∈ rows, ∀ p ∈ x.parentRowID, p < x.rowID)
    (hdir : r.parentRowID = parent)
    (h : RootedAt rows parent F r) : F r.field r.place := by
  cases h with
  | direct _ _ hf => exact hf
  | step _ a ha hp hsub =>
      have hq : parent = some a.rowID := hdir ▸ hp
      have := RootedAt.some_lt hpl (hpl a ha) (hq ▸ hsub)
      exact absurd this (lt_irrefl _)

/-!
Structural measures and well-formedness of records, and the predicate of a
fully-stored record (each supplied entry's key holds its normalized value as
the current row, recursively for children, with no current rows beyond the
supplied places).  `StoredRep` additionally pins the report that a run over
the stored record produces: every value Unchanged, with the stored rowIDs.
-/

mutual
def rsize : Rcd → Nat
  | .nil => 1
  | .fcons _ es rest => 1 + esize es + rsize rest

def esize : Ents → Nat
  | .enil => 1
  | .econs _ cs rest => 1 + rsize cs + esize rest
end

def fieldsOf : Rcd → List String
  | .nil => []
  | .fcons f _ rest => f :: fieldsOf rest

mutual
/-- Well-formed record: the field names at each nesting level are non-empty
    namespaced names (the spec's data model, section 3) and pairwise distinct
    (Python dict keys).  Non-emptiness also matters operationally: the
    branches of `_mark_extra_metadata_as_deleted` dispatch on the truthiness
    of the field name. -/
def wfRcd : Rcd → Bool
  | .nil => true
  | .fcons f es rest =>
      !(f == "") && !((fieldsOf rest).contains f) && wfEnts es && wfRcd rest

def wfEnts : Ents → Bool
  | .enil => true
  | .econs _ cs rest => wfRcd cs && wfEnts rest
end

/-- Status stamp applied to a report item by an idempotent re-run. -/
def stampUnchanged (it : RItem) : RItem := { it with status := .unchanged }

mutual
/-- The record is stored in `st` under `parent` and `rep` is the
    all-Unchanged report of a run over it. -/
def StoredRep (src idS : String) : Rcd → Option Nat → Store → List RItem → Prop
  | .nil, _, _, rep => rep = []
  | .fcons field es rest, parent, st, rep =>
      ∃ rep1 rep2, rep = rep1 ++ rep2 ∧
        StoredEntsRep src idS field es 0 parent st rep1 ∧
        (entsLen es ≠ 0 →
          ∀ r ∈ st.rows, r.source = src → r.idInSource = idS → r.parentRowID = parent →
            r.field = field → r.deleted = none → r.place ≤ entsLen es - 1) ∧
        StoredRep src idS rest parent st rep2

def StoredEntsRep (src idS field : String) :
    Ents → Nat → Option Nat → Store → List RItem → Prop
  | .enil, _, _, _, rep => rep = []
  | .econs v cs rest, place, parent, st, rep =>
      if skipEntry v then StoredEntsRep src idS field rest (place + 1) parent st rep
      else
        ∃ r crep rrep,
          rep = ⟨field, place, parent, .unchanged, r.rowID⟩ :: (crep ++ rrep) ∧
          findCurrent src idS parent field place st = some r ∧
          r.value = normVal v ∧
          (match cs with
           | .nil => crep = []
           | c => StoredRep src idS c (some r.rowID) st crep) ∧
          StoredEntsRep src idS field rest (place + 1) parent st rrep
end

mutual
/-- Frame clause for entries whose value is unchanged and whose children key
    is absent: every previously-current child row of the entry's current row
    is still present, untouched, in the final store. -/
def UntRcd (src idS : String) : Rcd → Option Nat → Store → Store → Prop
  | .nil, _, _, _ => True
  | .fcons field es rest, parent, st, stF =>
      UntEnts src idS field es 0 parent st stF ∧ UntRcd src idS rest parent st stF

def UntEnts (src idS field : String) : Ents → Nat → Option Nat → Store → Store → Prop
  | .enil, _, _, _, _ => True
  | .econs v cs rest, place, parent, st, stF =>
      (skipEntry v = false → cs = .nil →
        ∀ r, findCurrent src idS parent field place st = some r → r.value = normVal v →
          ∀ c ∈ st.rows, c.deleted = none → c.parentRowID = some r.rowID →
            rowByID stF c.rowID = some c) ∧
      UntEnts src idS field rest (place + 1) parent st stF
end

theorem rsize_pos (rec : Rcd) : 0 < rsize rec := by
  cases rec <;> simp [rsize]

theorem esize_pos (es : Ents) : 0 < esize es := by
  cases es <;> simp [esize]

theorem Evolves.mem_untouched {D N : Row → Prop} {st st' : Store} {r : Row}
    (h : Evolves D N st st') (hr : r ∈ st.rows)
    (hsafe : ¬ D r ∨ r.deleted ≠ none) : r ∈ st'.rows := by
  obtain ⟨-, u, tail, hrows, hu, -⟩ := h
  have hur : u r = r := by
    rcases hu r hr with h1 | ⟨hsh, hD⟩
    · exact h1
    · rcases hsafe with h2 | h2
      · exact absurd hD h2
      · exact absurd hsh.1 h2
  rw [hrows]
  exact List.mem_append_left _ (hur ▸ List.mem_map_of_mem u hr)

theorem Evolves.mem_cases {D N : Row → Prop} {st st' : Store} {r' : Row}
    (h : Evolves D N st st') (hr' : r' ∈ st'.rows) :
    (∃ r ∈ st.rows, r' = r ∨ (shadowsRow r' r ∧ D r)) ∨
      (N r' ∧ st.nextRowID ≤ r'.rowID) := by
  obtain ⟨-, u, tail, hrows, hu, ht⟩ := h
  rw [hrows] at hr'
  rcases List.mem_append.mp hr' with h1 | h1
  · obtain ⟨x, hx, rfl⟩ := List.mem_map.mp h1
    left
    exact ⟨x, hx, hu x hx⟩
  · right
    exact ht r' h1

/-- Root filter: direct rows of one field within a place range. -/
def entRange (field : String) (place len : Nat) : String → Nat → Prop :=
  fun f pl => f = field ∧ place ≤ pl ∧ pl < place + len

theorem StoredRep_mono (src idS : String) : ∀ n : Nat,
    (∀ rec parent st2 st3 D N rep, rsize rec ≤ n →
      StoredRep src idS rec parent st2 rep →
      Evolves D N st2 st3 →
      (∀ r ∈ st2.rows, r.deleted = none →
        RootedAt st3.rows parent (fun f _ => f ∈ fieldsOf rec) r → ¬ D r) →
      (∀ y, N y → ¬ RootedAt st3.rows parent (fun f _ => f ∈ fieldsOf rec) y) →
      StoredRep src idS rec parent st3 rep) ∧
    (∀ es place parent st2 st3 D N field rep, esize es ≤ n →
      StoredEntsRep src idS field es place parent st2 rep →
      Evolves D N st2 st3 →
      (∀ r ∈ st2.rows, r.deleted = none →
        RootedAt st3.rows parent (entRange field place (entsLen es)) r → ¬ D r) →
      (∀ y, N y → ¬ RootedAt st3.rows parent (entRange field place (entsLen es)) y) →
      StoredEntsRep src idS field es place parent st3 rep) := by
  intro n
  induction n using Nat.strong_induction_on with
  | _ n ih =>
  constructor
  · intro rec parent st2 st3 D N rep hsz hst hev hD hN
    match rec with
    | .nil => exact hst
    | .fcons field es rest =>
        obtain ⟨rep1, rep2, hrepeq, hents, hclean, hrest⟩ := hst
        have hszE : esize es < n := by
          have := rsize_pos rest
          simp only [rsize] at hsz
          omega
        have hszR : rsize rest < n := by
          have := esize_pos es
          simp only [rsize] at hsz
          omega
        refine ⟨rep1, rep2, hrepeq, ?_, ?_, ?_⟩
        · refine (ih (esize es) hszE).2 es 0 parent st2 st3 D N field rep1 le_rfl hents hev ?_ ?_
          · intro r hr hd hroot
            refine hD r hr hd (hroot.mono_F ?_)
            intro f pl hf
            rw [hf.1, fieldsOf]
            exact List.mem_cons_self _ _
          · intro y hy hroot
            refine hN y hy (hroot.mono_F ?_)
            intro f pl hf
            rw [hf.1, fieldsOf]
            exact List.mem_cons_self _ _
        · intro hne r' hr' hs hi hp hf hd
          rcases hev.mem_cases hr' with ⟨x, hx, hcase⟩ | ⟨hNy, -⟩
          · rcases hcase with rfl | ⟨hsh, -⟩
            · exact hclean hne r' hx hs hi hp hf hd
            · exact absurd hd hsh.2.1
          · exfalso
            refine hN r' hNy (.direct r' hp ?_)
            rw [hf, fieldsOf]
            exact List.mem_cons_self _ _
        · refine (ih (rsize rest) hszR).1 rest parent st2 st3 D N rep2 le_rfl hrest hev ?_ ?_
          · intro r hr hd hroot
            refine hD r hr hd (hroot.mono_F ?_)
            intro f pl hf
            rw [fieldsOf]
            exact List.mem_cons_of_mem _ hf
          · intro y hy hroot
            refine hN y hy (hroot.mono_F ?_)
            intro f pl hf
            rw [fieldsOf]
            exact List.mem_cons_of_mem _ hf
  · intro es place parent st2 st3 D N field rep hsz hst hev hD hN
    match es with
    | .enil => exact hst
    | .econs v cs rest =>
        have hszC : rsize cs < n := by
          have := esize_pos rest
          simp only [esize] at hsz
          omega
        have hszR : esize rest < n := by
          have := rsize_pos cs
          simp only [esize] at hsz
          omega
        have hlen : entsLen (Ents.econs v cs rest) = entsLen rest + 1 := rfl
        have hmonoRest : ∀ x, RootedAt st3.rows parent
            (entRange field (place + 1) (entsLen rest)) x →
            RootedAt st3.rows parent (entRange field place (entsLen (Ents.econs v cs rest))) x := by
          intro x hx
          refine hx.mono_F ?_
          intro f pl hf
          obtain ⟨h1, h2, h3⟩ := hf
          exact ⟨h1, by omega, by rw [hlen]; omega⟩
        by_cases hskip : skipEntry v = true
        · rw [StoredEntsRep, if_pos hskip] at hst ⊢
          exact (ih (esize rest) hszR).2 rest (place + 1) parent st2 st3 D N field rep le_rfl
            hst hev (fun r hr hd hroot => hD r hr hd (hmonoRest r hroot))
            (fun y hy hroot => hN y hy (hmonoRest y hroot))
        · rw [StoredEntsRep, if_neg hskip] at hst ⊢
          obtain ⟨r, crep, rrep, hrepeq, hfind, hval, hcs, hrest⟩ := hst
          obtain ⟨hrmem, hrs, hri, hrp, hrf, hrpl, hrd⟩ := findCurrent_spec hfind
          have hroot_r : RootedAt st3.rows parent
              (entRange field place (entsLen (Ents.econs v cs rest))) r :=
            .direct r hrp (by rw [hrf, hrpl]; exact ⟨rfl, le_rfl, by rw [hlen]; omega⟩)
          have hDr : ¬ D r := hD r hrmem hrd hroot_r
          have hfind3 : findCurrent src idS parent field place st3 = some r :=
            findCurrent_stable hev hfind hDr
          have hrmem3 : r ∈ st3.rows := hev.mem_untouched hrmem (Or.inl hDr)
          refine ⟨r, crep, rrep, hrepeq, hfind3, hval, ?_, ?_⟩
          · match cs, hcs with
            | .nil, hcs => exact hcs
            | .fcons cf ces crest, hcs =>
                refine (ih (rsize (Rcd.fcons cf ces crest)) hszC).1 _ (some r.rowID) st2 st3
                  D N crep le_rfl hcs hev ?_ ?_
                · intro x hx hd hroot
                  refine hD x hx hd ?_
                  exact RootedAt.through hrmem3 rfl hrp
                    (by rw [hrf, hrpl]; exact ⟨rfl, le_rfl, by rw [hlen]; omega⟩) hroot
                · intro y hy hroot
                  refine hN y hy ?_
                  exact RootedAt.through hrmem3 rfl hrp
                    (by rw [hrf, hrpl]; exact ⟨rfl, le_rfl, by rw [hlen]; omega⟩) hroot
          · exact (ih (esize rest) hszR).2 rest (place + 1) parent st2 st3 D N field rrep le_rfl
              hrest hev (fun x hx hd hroot => hD x hx hd (hmonoRest x hroot))
              (fun y hy hroot => hN y hy (hmonoRest y hroot))

/-- Re-running `saveFields` over a record that is already fully stored is a
    no-op: no store mutation and the pinned all-Unchanged report. -/
theorem stored_run (src idS : String) (t : Nat) : ∀ n : Nat,
    (∀ rec parent st rep, rsize rec ≤ n → wfRcd rec = true →
      StoredRep src idS rec parent st rep →
      saveFields src idS t rec parent st = (rep, fieldsOf rec, st)) ∧
    (∀ es place parent st field rep, esize es ≤ n → wfEnts es = true →
      StoredEntsRep src idS field es place parent st rep →
      saveEntries src idS t field es place parent st = (rep, st)) := by
  intro n
  induction n using Nat.strong_induction_on with
  | _ n ih =>
  constructor
  · intro rec parent st rep hsz hwf hst
    match rec with
    | .nil =>
        rw [hst]
        rfl
    | .fcons field es rest =>
        obtain ⟨rep1, rep2, hrepeq, hents, hclean, hrest⟩ := hst
        simp only [wfRcd, Bool.and_eq_true, Bool.not_eq_true', beq_eq_false_iff_ne,
          ne_eq] at hwf
        have hszE : esize es < n := by
          have := rsize_pos rest
          simp only [rsize] at hsz
          omega
        have hszR : rsize rest < n := by
          have := esize_pos es
          simp only [rsize] at hsz
          omega
        have hrun1 := (ih (esize es) hszE).2 es 0 parent st field rep1 le_rfl hwf.1.2 hents
        have hprune : (if entsLen es ≠ 0 then
            markExtraMetadataAsDeleted src idS parent field (entsLen es - 1) [] t st
          else st) = st := by
          by_cases hne : entsLen es ≠ 0
          · rw [if_pos hne, markExtraMetadataAsDeleted.eq_def,
              if_pos (show field ≠ "" from hwf.1.1.1)]
            refine deleteWhere_id ?_
            intro r hr
            rw [Bool.eq_false_iff]
            intro hc
            simp only [Bool.and_eq_true, beq_iff_eq, decide_eq_true_eq] at hc
            have := hclean hne r hr hc.1.1.1.1.1 hc.1.1.1.1.2 hc.1.1.1.2 hc.1.1.2 hc.2
            omega
          · rw [if_neg hne]
        have hrun2 := (ih (rsize rest) hszR).1 rest parent st rep2 le_rfl hwf.2 hrest
        rw [saveFields, hrun1]
        dsimp only
        rw [hprune, hrun2]
        dsimp only
        rw [hrepeq, fieldsOf]
  · intro es place parent st field rep hsz hwf hst
    match es with
    | .enil =>
        rw [hst]
        rfl
    | .econs v cs rest =>
        simp only [wfEnts, Bool.and_eq_true] at hwf
        have hszC : rsize cs < n := by
          have := esize_pos rest
          simp only [esize] at hsz
          omega
        have hszR : esize rest < n := by
          have := rsize_pos cs
          simp only [esize] at hsz
          omega
        by_cases hskip : skipEntry v = true
        · rw [StoredEntsRep, if_pos hskip] at hst
          have hrun := (ih (esize rest) hszR).2 rest (place + 1) parent st field rep le_rfl
            hwf.2 hst
          rw [saveEntries, if_pos hskip]
          exact hrun
        · rw [StoredEntsRep, if_neg hskip] at hst
          obtain ⟨r, crep, rrep, hrepeq, hfind, hval, hcs, hrest⟩ := hst
          have hrun3 := (ih (esize rest) hszR).2 rest (place + 1) parent st field rrep le_rfl
            hwf.2 hrest
          rw [saveEntries, if_neg hskip, save_value_eq_unchanged hfind hval]
          dsimp only
          match cs, hcs with
          | .nil, hcs =>
              dsimp only at hcs ⊢
              rw [hrun3]
              dsimp only
              rw [hrepeq, hcs]
          | .fcons cf ces crest, hcs =>
              dsimp only at hcs ⊢
              have hrunC := (ih (rsize (Rcd.fcons cf ces crest)) hszC).1 _ (some r.rowID) st
                crep le_rfl hwf.1 hcs
              rw [hrunC]
              dsimp only
              rw [hrun3]
              dsimp only
              rw [hrepeq]

/-!
Transfer lemmas for the unchanged-children frame clause: move the reference
store of the clause backward along a stable prefix, or its target store
forward along an evolution that leaves the children in place.
-/

theorem UntEnts_transfer {src idS field : String} :
    ∀ (n : Nat) (es : Ents) (place : Nat) (parent : Option Nat) (st st2 stF : Store),
    esize es ≤ n →
    UntEnts src idS field es place parent st2 stF →
    (∀ pl, place ≤ pl → ∀ r, findCurrent src idS parent field pl st = some r →
      findCurrent src idS parent field pl st2 = some r ∧
      ∀ c ∈ st.rows, c.deleted = none → c.parentRowID = some r.rowID → c ∈ st2.rows) →
    UntEnts src idS field es place parent st stF := by
  intro n
  induction n using Nat.strong_induction_on with
  | _ n ih =>
  intro es place parent st st2 stF hsz h hstep
  match es with
  | .enil => exact h
  | .econs v cs rest =>
      obtain ⟨hcl, hrest⟩ := h
      have hszR : esize rest < n := by
        have := rsize_pos cs
        simp only [esize] at hsz
        omega
      refine ⟨?_, ?_⟩
      · intro hskip hcs r hfind hval c hc hcd hcp
        obtain ⟨hfind2, hmem2⟩ := hstep place le_rfl r hfind
        exact hcl hskip hcs r hfind2 hval c (hmem2 c hc hcd hcp) hcd hcp
      · exact ih (esize rest) hszR rest (place + 1) parent st st2 stF le_rfl hrest
          (fun pl hpl => hstep pl (Nat.le_of_succ_le hpl))

theorem UntEnts_lift {src idS field : String} :
    ∀ (n : Nat) (es : Ents) (place : Nat) (parent : Option Nat) (st stA stF : Store),
    esize es ≤ n →
    UntEnts src idS field es place parent st stA →
    (∀ pl, place ≤ pl → ∀ r, findCurrent src idS parent field pl st = some r →
      ∀ c ∈ st.rows, c.deleted = none → c.parentRowID = some r.rowID →
        rowByID stA c.rowID = some c → rowByID stF c.rowID = some c) →
    UntEnts src idS field es place parent st stF := by
  intro n
  induction n using Nat.strong_induction_on with
  | _ n ih =>
  intro es place parent st stA stF hsz h hlift
  match es with
  | .enil => exact h
  | .econs v cs rest =>
      obtain ⟨hcl, hrest⟩ := h
      have hszR : esize rest < n := by
        have := rsize_pos cs
        simp only [esize] at hsz
        omega
      refine ⟨?_, ?_⟩
      · intro hskip hcs r hfind hval c hc hcd hcp
        exact hlift place le_rfl r hfind c hc hcd hcp
          (hcl hskip hcs r hfind hval c hc hcd hcp)
      · exact ih (esize rest) hszR rest (place + 1) parent st stA stF le_rfl hrest
          (fun pl hpl => hlift pl (Nat.le_of_succ_le hpl))

theorem UntRcd_transfer {src idS : String} :
    ∀ (n : Nat) (rec : Rcd) (parent : Option Nat) (st st2 stF : Store),
    rsize rec ≤ n →
    UntRcd src idS rec parent st2 stF →
    (∀ f, f ∈ fieldsOf rec → ∀ pl r, findCurrent src idS parent f pl st = some r →
      findCurrent src idS parent f pl st2 = some r ∧
      ∀ c ∈ st.rows, c.deleted = none → c.parentRowID = some r.rowID → c ∈ st2.rows) →
    UntRcd src idS rec parent st stF := by
  intro n
  induction n using Nat.strong_induction_on with
  | _ n ih =>
  intro rec parent st st2 stF hsz h hstep
  match rec with
  | .nil => exact h
  | .fcons field es rest =>
      obtain ⟨hents, hrest⟩ := h
      have hszE : esize es ≤ esize es := le_rfl
      have hszR : rsize rest < n := by
        have := esize_pos es
        simp only [rsize] at hsz
        omega
      refine ⟨?_, ?_⟩
      · exact UntEnts_transfer (esize es) es 0 parent st st2 stF le_rfl hents
          (fun pl _ => hstep field (List.mem_cons_self _ _) pl)
      · exact ih (rsize rest) hszR rest parent st st2 stF le_rfl hrest
          (fun f hf => hstep f (List.mem_cons_of_mem _ hf))

theorem UntRcd_lift {src idS : String} :
    ∀ (n : Nat) (rec : Rcd) (parent : Option Nat) (st stA stF : Store),
    rsize rec ≤ n →
    UntRcd src idS rec parent st stA →
    (∀ f, f ∈ fieldsOf rec → ∀ pl r, findCurrent src idS parent f pl st = some r →
      ∀ c ∈ st.rows, c.deleted = none → c.parentRowID = some r.rowID →
        rowByID stA c.rowID = some c → rowByID stF c.rowID = some c) →
    UntRcd src idS rec parent st stF := by
  intro n
  induction n using Nat.strong_induction_on with
  | _ n ih =>
  intro rec parent st stA stF hsz h hlift
  match rec with
  | .nil => exact h
  | .fcons field es rest =>
      obtain ⟨hents, hrest⟩ := h
      have hszR : rsize rest < n := by
        have := esize_pos es
        simp only [rsize] at hsz
        omega
      refine ⟨?_, ?_⟩
      · exact UntEnts_lift (esize es) es 0 parent st stA stF le_rfl hents
          (fun pl _ => hlift field (List.mem_cons_self _ _) pl)
      · exact ih (rsize rest) hszR rest parent st stA stF le_rfl hrest
          (fun f hf => hlift f (List.mem_cons_of_mem _ hf))

/-!
Helper lemmas feeding the disjointness arguments of the main induction.
-/

theorem WF.nodup {st : Store} (hwf : WF st) : (st.rows.map Row.rowID).Nodup := hwf.2.1

theorem WF.parentLt {st : Store} (hwf : WF st) :
    ∀ x ∈ st.rows, ∀ p ∈ x.parentRowID, p < x.rowID := hwf.2.2

theorem not_rooted_direct {rows : List Row} {parent : Option Nat}
    {F : String → Nat → Prop} {r : Row}
    (hpl : ∀ x ∈ rows, ∀ p ∈ x.parentRowID, p < x.rowID)
    (hdir : r.parentRowID = parent) (hF : ¬ F r.field r.place) :
    ¬ RootedAt rows parent F r :=
  fun h => hF (h.direct_field hpl hdir)

theorem not_rooted_child {rows : List Row} {parent : Option Nat}
    {F : String → Nat → Prop} {c rr : Row}
    (hnd : (rows.map Row.rowID).Nodup)
    (hpl : ∀ x ∈ rows, ∀ p ∈ x.parentRowID, p < x.rowID)
    (hmem : rr ∈ rows) (hrrp : rr.parentRowID = parent)
    (hcp : c.parentRowID = some rr.rowID)
    (hF : ¬ F rr.field rr.place) :
    ¬ RootedAt rows parent F c := by
  intro h
  refine @RootedAt.disjoint rows parent (fun f pl => f = rr.field ∧ pl = rr.place)
    F c hnd hpl ?_
    (RootedAt.step c rr hmem hcp (RootedAt.direct rr hrrp ⟨rfl, rfl⟩)) h
  intro f pl hf1 hf2
  rw [hf1.1, hf1.2] at hf2
  exact hF hf2

theorem rooted_not_scope_self {rows : List Row} {F : String → Nat → Prop} {r : Row}
    (hpl : ∀ x ∈ rows, ∀ p ∈ x.parentRowID, p < x.rowID)
    (hplr : ∀ p ∈ r.parentRowID, p < r.rowID)
    (h : RootedAt rows (some r.rowID) F r) : False :=
  absurd (h.some_lt hpl hplr) (lt_irrefl _)

theorem Evolves.image {D N : Row → Prop} {st st' : Store} {r : Row}
    (h : Evolves D N st st') (hr : r ∈ st.rows) :
    ∃ r', r' ∈ st'.rows ∧ r'.rowID = r.rowID ∧ r'.source = r.source ∧
      r'.idInSource = r.idInSource ∧ r'.parentRowID = r.parentRowID ∧
      r'.field = r.field ∧ r'.place = r.place := by
  obtain ⟨-, u, tail, hrows, hu, -⟩ := h
  have hmem : u r ∈ st'.rows := by
    rw [hrows]
    exact List.mem_append_left _ (List.mem_map_of_mem u hr)
  rcases hu r hr with h1 | ⟨hsh, -⟩
  · exact ⟨u r, hmem, by rw [h1], by rw [h1], by rw [h1], by rw [h1], by rw [h1], by rw [h1]⟩
  · obtain ⟨h1, h2, h3, h4, h5, h6, -, -⟩ := hsh.stable
    exact ⟨u r, hmem, h1, h2, h3, h4, h5, h6⟩

theorem Evolves.nextLe {D N : Row → Prop} {st st' : Store} (h : Evolves D N st st') :
    st.nextRowID ≤ st'.nextRowID := h.1

theorem ParentBound.relax {parent : Option Nat} {st st' : Store}
    (h : ParentBound parent st) (hle : st.nextRowID ≤ st'.nextRowID) :
    ParentBound parent st' :=
  fun p hp => lt_of_lt_of_le (h p hp) hle

/-- Root filter: direct rows of any of the given fields. -/
def fieldSet (fields : List String) : String → Nat → Prop :=
  fun f _ => f ∈ fields

/-- Main induction over a `save_values` run: the store invariant is
    preserved, all effects (deletions and insertions) stay inside the parent
    chains rooted at the supplied fields (resp. the supplied place range of
    one field), afterwards the record is fully stored with the run's report
    stamped Unchanged, and previously-current children of entries that were
    supplied unchanged without a children key are untouched. -/
theorem grand (src idS : String) (t : Nat) : ∀ n : Nat,
    (∀ rec parent st rep fs st', rsize rec ≤ n →
      saveFields src idS t rec parent st = (rep, fs, st') →
      Inv st → wfRcd rec = true → ParentBound parent st →
      fs = fieldsOf rec ∧ Inv st' ∧
      Evolves (fun r => RootedAt st'.rows parent (fieldSet (fieldsOf rec)) r)
              (fun y => RootedAt st'.rows parent (fieldSet (fieldsOf rec)) y) st st' ∧
      StoredRep src idS rec parent st' (rep.map stampUnchanged) ∧
      UntRcd src idS rec parent st st') ∧
    (∀ es place parent st field rep st', esize es ≤ n →
      saveEntries src idS t field es place parent st = (rep, st') →
      Inv st → wfEnts es = true → ParentBound parent st →
      Inv st' ∧
      Evolves (fun r => RootedAt st'.rows parent (entRange field place (entsLen es)) r)
              (fun y => RootedAt st'.rows parent (entRange field place (entsLen es)) y) st st' ∧
      StoredEntsRep src idS field es place parent st' (rep.map stampUnchanged) ∧
      UntEnts src idS field es place parent st st') := by
  intro n
  induction n using Nat.strong_induction_on with
  | _ n ih =>
  constructor
  · intro rec parent st rep fs st' hsz heq hinv hwf hpb
    match rec with
    | .nil =>
        rw [saveFields] at heq
        injection heq with h1 heq
        injection heq with h2 h3
        subst h1
        subst h2
        subst h3
        exact ⟨rfl, hinv, Evolves.refl _ _ _, rfl, trivial⟩
    | .fcons field es rest =>
        simp only [wfRcd, Bool.and_eq_true, Bool.not_eq_true', beq_eq_false_iff_ne,
          ne_eq] at hwf
        obtain ⟨⟨⟨hfne, hfnotin⟩, hwfes⟩, hwfrest⟩ := hwf
        have hszE : esize es < n := by
          have := rsize_pos rest
          simp only [rsize] at hsz
          omega
        have hszR : rsize rest < n := by
          have := esize_pos es
          simp only [rsize] at hsz
          omega
        rw [saveFields] at heq
        rcases h1 : saveEntries src idS t field es 0 parent st with ⟨rep1, st1⟩
        rw [h1] at heq
        dsimp only at heq
        obtain ⟨hinv1, hev1, hstored1, hunt1⟩ :=
          (ih (esize es) hszE).2 es 0 parent st field rep1 st1 le_rfl h1 hinv hwfes hpb
        have hfnot : field ∉ fieldsOf rest := by
          intro hmem
          have h2 : (fieldsOf rest).contains field = true := List.elem_eq_true_of_mem hmem
          rw [h2] at hfnotin
          exact Bool.noConfusion hfnotin
        have hN1_stable : ∀ r r' : Row, shadowsRow r' r →
            RootedAt st1.rows parent (entRange field 0 (entsLen es)) r →
            RootedAt st1.rows parent (entRange field 0 (entsLen es)) r' := by
          intro r r' hsh h
          obtain ⟨-, -, -, h4, h5, h6, -, -⟩ := hsh.stable
          exact h.congr h4 h5 h6
        have hpruneD : ∀ x, markExtraD src idS parent field (entsLen es - 1) [] x →
            x.source = src ∧ x.idInSource = idS ∧ x.parentRowID = parent ∧
              x.field = field ∧ entsLen es - 1 < x.place := by
          intro x hx
          obtain ⟨hx1, hx2, hx3, hcase⟩ := hx
          rcases hcase with ⟨-, hf, hp⟩ | ⟨hemp, -, -⟩ | ⟨hemp, -, -⟩
          · exact ⟨hx1, hx2, hx3, hf, hp⟩
          · exact absurd hemp hfne
          · exact absurd hemp hfne
        have hex2 : ∃ st2,
            (rep1 ++ (saveFields src idS t rest parent st2).1,
              field :: (saveFields src idS t rest parent st2).2.1,
              (saveFields src idS t rest parent st2).2.2) = (rep, fs, st') ∧
            Evolves (markExtraD src idS parent field (entsLen es - 1) [])
              (fun _ => False) st1 st2 ∧ Inv st2 ∧
            (entsLen es ≠ 0 → ∀ r ∈ st2.rows, r.source = src → r.idInSource = idS →
              r.parentRowID = parent → r.field = field → r.deleted = none →
              r.place ≤ entsLen es - 1) := by
          by_cases hne : entsLen es ≠ 0
          · rw [if_pos hne] at heq
            refine ⟨_, heq,
              markExtra_evolves src idS parent field (entsLen es - 1) [] t st1,
              ⟨WF_markExtra hinv1.1, Uniq_markExtra hinv1.2⟩, ?_⟩
            intro __hne r hr hs hi hp hf hd
            rw [markExtraMetadataAsDeleted.eq_def] at hr
            rw [if_pos (show field ≠ "" from hfne)] at hr
            obtain ⟨x, hx, hcase⟩ := deleteWhere_mem hr
            rcases hcase with ⟨hpf, rfl⟩ | ⟨-, rfl⟩
            · by_contra hgt
              have hbt : (r.source == src && (r.idInSource == idS) && (r.parentRowID == parent) &&
                  (r.field == field) && decide (entsLen es - 1 < r.place) &&
                  (r.deleted == none)) = true := by
                simp only [Bool.and_eq_true, beq_iff_eq, decide_eq_true_eq]
                exact ⟨⟨⟨⟨⟨hs, hi⟩, hp⟩, hf⟩, by omega⟩, hd⟩
              rw [hpf] at hbt
              exact Bool.noConfusion hbt
            · simp only at hd
              exact Option.noConfusion hd
          · rw [if_neg hne] at heq
            push_neg at hne
            refine ⟨st1, heq, Evolves.refl _ _ _, hinv1, ?_⟩
            intro hne2 r hr hs hi hp hf hd
            exact absurd hne2 (by simp [hne])
        obtain ⟨st2, heq, hprev, hinv2, hclean2⟩ := hex2
        rcases h3 : saveFields src idS t rest parent st2 with ⟨rep2, fs2, st3⟩
        rw [h3] at heq
        dsimp only at heq
        injection heq with heqr heq2
        injection heq2 with heqf heqs
        subst heqr
        subst heqf
        subst heqs
        obtain ⟨hfs2, hinv3, hev3, hstored3, hunt3⟩ :=
          (ih (rsize rest) hszR).1 rest parent st2 rep2 fs2 st3 le_rfl h3 hinv2 hwfrest
            ((hpb.relax hev1.nextLe).relax hprev.nextLe)
        subst hfs2
        have hE23 := hprev.comp hev3 (fun r r' _ h => h.elim)
        have hEfull := hev1.comp hE23 hN1_stable
        have hE12 := hev1.comp hprev hN1_stable
        have habs : ∀ x,
            (RootedAt st1.rows parent (entRange field 0 (entsLen es)) x ∨
              (markExtraD src idS parent field (entsLen es - 1) [] x ∨
                RootedAt st3.rows parent (fieldSet (fieldsOf rest)) x)) →
            RootedAt st3.rows parent (fieldSet (fieldsOf (Rcd.fcons field es rest))) x := by
          intro x hx
          rcases hx with hx | hx | hx
          · refine (RootedAt.evolves hE23 hx).mono_F ?_
            intro f pl hf
            rw [hf.1, fieldsOf]
            exact List.mem_cons_self _ _
          · obtain ⟨-, -, hp, hf, -⟩ := hpruneD x hx
            refine .direct x hp ?_
            rw [fieldSet, hf, fieldsOf]
            exact List.mem_cons_self _ _
          · refine hx.mono_F ?_
            intro f pl hf
            rw [fieldsOf]
            exact List.mem_cons_of_mem _ hf
        refine ⟨rfl, hinv3, hEfull.mono habs ?_, ?_, ?_⟩
        · intro y hy
          refine habs y ?_
          rcases hy with hy | hy | hy
          · exact Or.inl hy
          · exact absurd hy (fun h => h.elim)
          · exact Or.inr (Or.inr hy)
        · show StoredRep src idS (Rcd.fcons field es rest) parent st3
            ((rep1 ++ rep2).map stampUnchanged)
          refine ⟨rep1.map stampUnchanged, rep2.map stampUnchanged, List.map_append .., ?_, ?_, hstored3⟩
          · have hst2 : StoredEntsRep src idS field es 0 parent st2
                (rep1.map stampUnchanged) := by
              refine (StoredRep_mono src idS (esize es)).2 es 0 parent st1 st2 _ _ field _
                le_rfl hstored1 hprev ?_ ?_
              · intro r hr hd hroot hD
                obtain ⟨-, -, hp2, hf2, hpl2⟩ := hpruneD r hD
                have hdf : r.field = field ∧ 0 ≤ r.place ∧ r.place < 0 + entsLen es :=
                  hroot.direct_field hinv2.1.parentLt hp2
                have h3p := hdf.2.2
                omega
              · intro y hy
                exact hy.elim
            refine (StoredRep_mono src idS (esize es)).2 es 0 parent st2 st3 _ _ field _
              le_rfl hst2 hev3 ?_ ?_
            · intro r hr hd hroot hD
              refine RootedAt.disjoint hinv3.1.nodup hinv3.1.parentLt ?_ hroot hD
              intro f pl hf1 hf2
              rw [hf1.1] at hf2
              exact hfnot hf2
            · intro y hy hroot
              refine RootedAt.disjoint hinv3.1.nodup hinv3.1.parentLt ?_ hroot hy
              intro f pl hf1 hf2
              rw [hf1.1] at hf2
              exact hfnot hf2
          · intro hne r hr hs hi hp hf hd
            rcases hev3.mem_cases hr with ⟨x, hx, hcase⟩ | ⟨hNy, -⟩
            · rcases hcase with rfl | ⟨hsh, -⟩
              · exact hclean2 hne r hx hs hi hp hf hd
              · exact absurd hd hsh.2.1
            · exfalso
              have := hNy.direct_field hinv3.1.parentLt hp
              rw [hf] at this
              exact hfnot this
        · show UntRcd src idS (Rcd.fcons field es rest) parent st st3
          refine ⟨?_, ?_⟩
          · refine UntEnts_lift (esize es) es 0 parent st st1 st3 le_rfl hunt1 ?_
            intro pl hpl r hfind c hc hcd hcp hrow1
            have hcmem1 : c ∈ st1.rows := by
              have := List.mem_of_find?_eq_some hrow1
              exact this
            obtain ⟨hrmem, hrs, hri, hrp, hrf, hrpl, hrd⟩ := findCurrent_spec hfind
            have hnDprune : ¬ markExtraD src idS parent field (entsLen es - 1) [] c := by
              intro hD
              obtain ⟨-, -, hp2, -, -⟩ := hpruneD c hD
              rw [hcp] at hp2
              rw [← hp2] at hrp
              have := hinv.1.parentLt r hrmem r.rowID (by rw [hrp]; rfl)
              exact lt_irrefl _ this
            obtain ⟨r3, hr3mem, hr3id, -, -, hr3p, hr3f, hr3pl⟩ := hEfull.image hrmem
            have hnD3 : ¬ RootedAt st3.rows parent (fieldSet (fieldsOf rest)) c := by
              refine not_rooted_child hinv3.1.nodup hinv3.1.parentLt hr3mem
                (by rw [hr3p, hrp]) (by rw [hcp, hr3id]) ?_
              rw [fieldSet, hr3f, hrf]
              exact hfnot
            have hcmem3 : c ∈ st3.rows := by
              refine hE23.mem_untouched hcmem1 (Or.inl ?_)
              intro h
              rcases h with h | h
              · exact hnDprune h
              · exact hnD3 h
            exact rowByID_of_mem hinv3.1 hcmem3
          · refine UntRcd_transfer (rsize rest) rest parent st st2 st3 le_rfl hunt3 ?_
            intro f hfmem pl r2 hfind2
            obtain ⟨hr2mem, hr2s, hr2i, hr2p, hr2f, hr2pl, hr2d⟩ := findCurrent_spec hfind2
            have hffld : f ≠ field := by
              intro hc
              rw [hc] at hfmem
              exact hfnot hfmem
            have hnD1r2 : ¬ RootedAt st1.rows parent (entRange field 0 (entsLen es)) r2 := by
              refine not_rooted_direct hinv1.1.parentLt hr2p ?_
              intro hfr
              rw [hr2f] at hfr
              exact hffld hfr.1
            have hnDpr2 : ¬ markExtraD src idS parent field (entsLen es - 1) [] r2 := by
              intro hD
              obtain ⟨-, -, -, hf2, -⟩ := hpruneD r2 hD
              rw [hr2f] at hf2
              exact hffld hf2
            refine ⟨findCurrent_stable hE12 hfind2 ?_, ?_⟩
            · intro h
              rcases h with h | h
              · exact hnD1r2 h
              · exact hnDpr2 h
            · intro c hc hcd hcp
              obtain ⟨r21, hr21mem, hr21id, -, -, hr21p, hr21f, hr21pl⟩ := hev1.image hr2mem
              have hnD1c : ¬ RootedAt st1.rows parent (entRange field 0 (entsLen es)) c := by
                refine not_rooted_child hinv1.1.nodup hinv1.1.parentLt hr21mem
                  (by rw [hr21p, hr2p]) (by rw [hcp, hr21id]) ?_
                intro hfr
                rw [hr21f, hr2f] at hfr
                exact hffld hfr.1
              have hnDpc : ¬ markExtraD src idS parent field (entsLen es - 1) [] c := by
                intro hD
                obtain ⟨-, -, hp2, -, -⟩ := hpruneD c hD
                rw [hcp] at hp2
                rw [← hp2] at hr2p
                have := hinv.1.parentLt r2 hr2mem r2.rowID (by rw [hr2p]; rfl)
                exact lt_irrefl _ this
              refine hE12.mem_untouched hc (Or.inl ?_)
              intro h
              rcases h with h | h
              · exact hnD1c h
              · exact hnDpc h
  · intro es place parent st field rep st' hsz heq hinv hwf hpb
    match es with
    | .enil =>
        rw [saveEntries] at heq
        injection heq with h1 h2
        subst h1
        subst h2
        exact ⟨hinv, Evolves.refl _ _ _, rfl, trivial⟩
    | .econs v cs rest =>
        simp only [wfEnts, Bool.and_eq_true] at hwf
        obtain ⟨hwfcs, hwfrest⟩ := hwf
        have hszC : rsize cs < n := by
          have := esize_pos rest
          simp only [esize] at hsz
          omega
        have hszR : esize rest < n := by
          have := rsize_pos cs
          simp only [esize] at hsz
          omega
        by_cases hskip : skipEntry v = true
        · rw [saveEntries, if_pos hskip] at heq
          obtain ⟨hinv', hev, hstored, hunt⟩ :=
            (ih (esize rest) hszR).2 rest (place + 1) parent st field rep st' le_rfl heq
              hinv hwfrest hpb
          have hmono : ∀ x, RootedAt st'.rows parent
              (entRange field (place + 1) (entsLen rest)) x →
              RootedAt st'.rows parent (entRange field place (entsLen (.econs v cs rest))) x := by
            intro x hx
            refine hx.mono_F ?_
            intro f pl hf
            obtain ⟨hf1, hf2, hf3⟩ := hf
            refine ⟨hf1, Nat.le_of_succ_le hf2, ?_⟩
            simp only [entsLen]
            omega
          refine ⟨hinv', hev.mono (fun r h => hmono r h) (fun y h => hmono y h), ?_, ?_⟩
          · rw [StoredEntsRep, if_pos hskip]
            exact hstored
          · exact ⟨by intro h; rw [h] at hskip; exact Bool.noConfusion hskip, hunt⟩
        · rw [saveEntries, if_neg hskip] at heq
          rcases hsv : save_value src idS field place v parent t st with ⟨res, st1⟩
          rw [hsv] at heq
          dsimp only at heq
          obtain ⟨hinv1, hev1, hres1, rr, hfind1, hrrid, hrrval⟩ :=
            save_value_main hinv hpb hsv
          obtain ⟨hrrmem1, hrrs, hrri, hrrp, hrrf, hrrpl, hrrd⟩ := findCurrent_spec hfind1
          have hrrplr : ∀ p ∈ rr.parentRowID, p < rr.rowID := hinv1.1.parentLt rr hrrmem1
          have hNsv_stable : ∀ r r' : Row, shadowsRow r' r →
              (r.source = src ∧ r.idInSource = idS ∧ r.parentRowID = parent ∧
                r.field = field ∧ r.place = place) →
              (r'.source = src ∧ r'.idInSource = idS ∧ r'.parentRowID = parent ∧
                r'.field = field ∧ r'.place = place) := by
            intro r r' hsh h
            obtain ⟨-, h2, h3, h4, h5, h6, -, -⟩ := hsh.stable
            exact ⟨h2.trans h.1, h3.trans h.2.1, h4.trans h.2.2.1, h5.trans h.2.2.2.1,
              h6.trans h.2.2.2.2⟩
          have hnotDsv : ∀ pl, place + 1 ≤ pl → ∀ r2, r2 ∈ st.rows →
              r2.source = src → r2.idInSource = idS → r2.parentRowID = parent →
              r2.field = field → r2.place = pl →
              ¬ (r2.source = src ∧ r2.idInSource = idS ∧
                ((r2.parentRowID = parent ∧ r2.field = field ∧ r2.place = place) ∨
                 (∃ ex, findCurrent src idS parent field place st = some ex ∧
                   r2.parentRowID = some ex.rowID))) := by
            intro pl hpl r2 hmem hs hi hp hf hplc hD
            rcases hD.2.2 with hkey | ⟨ex, hexf, hexp⟩
            · have h1 := hkey.2.2
              omega
            · obtain ⟨hexmem, -, -, hexpp, -, -, -⟩ := findCurrent_spec hexf
              rw [hp] at hexp
              rw [hexp] at hexpp
              have := hinv.1.parentLt ex hexmem ex.rowID (by rw [hexpp]; rfl)
              exact lt_irrefl _ this
          cases cs with
          | nil =>
              dsimp only at heq
              rcases h3 : saveEntries src idS t field rest (place + 1) parent st1
                with ⟨rrep, st3⟩
              rw [h3] at heq
              dsimp only at heq
              injection heq with heqr heqs
              subst heqr
              subst heqs
              obtain ⟨hinv3, hev3, hstored3, hunt3⟩ :=
                (ih (esize rest) hszR).2 rest (place + 1) parent st1 field rrep st3 le_rfl h3
                  hinv1 hwfrest (hpb.relax hev1.nextLe)
              have hEtot := hev1.comp hev3 hNsv_stable
              have hnD3rr : ¬ RootedAt st3.rows parent
                  (entRange field (place + 1) (entsLen rest)) rr := by
                refine not_rooted_direct hinv3.1.parentLt hrrp ?_
                intro hf
                obtain ⟨-, hf2, -⟩ := hf
                rw [hrrpl] at hf2
                omega
              have hfind3 : findCurrent src idS parent field place st3 = some rr :=
                findCurrent_stable hev3 hfind1 hnD3rr
              have hrange : ∀ x, RootedAt st3.rows parent
                  (entRange field (place + 1) (entsLen rest)) x →
                  RootedAt st3.rows parent
                    (entRange field place (entsLen (Ents.econs v .nil rest))) x := by
                intro x hx
                refine hx.mono_F ?_
                intro f pl hf
                obtain ⟨hf1, hf2, hf3⟩ := hf
                refine ⟨hf1, by omega, ?_⟩
                simp only [entsLen]
                omega
              have habs : ∀ x,
                  ((x.source = src ∧ x.idInSource = idS ∧
                    ((x.parentRowID = parent ∧ x.field = field ∧ x.place = place) ∨
                     (∃ ex, findCurrent src idS parent field place st = some ex ∧
                       x.parentRowID = some ex.rowID))) ∨
                   RootedAt st3.rows parent (entRange field (place + 1) (entsLen rest)) x) →
                  RootedAt st3.rows parent
                    (entRange field place (entsLen (Ents.econs v .nil rest))) x := by
                intro x hx
                rcases hx with ⟨-, -, hkey | ⟨ex, hexf, hexp⟩⟩ | hroot
                · refine .direct x hkey.1 ⟨hkey.2.1, ?_⟩
                  rw [hkey.2.2]
                  simp only [entsLen]
                  omega
                · obtain ⟨hexmem, hexs, hexi, hexpp, hexff, hexplc, -⟩ := findCurrent_spec hexf
                  obtain ⟨ex3, hex3mem, hex3id, -, -, hex3p, hex3f, hex3pl⟩ :=
                    hEtot.image hexmem
                  refine .step x ex3 hex3mem (by rw [hexp, hex3id]) ?_
                  refine .direct ex3 (by rw [hex3p, hexpp]) ?_
                  rw [hex3f, hex3pl, hexff, hexplc]
                  refine ⟨rfl, le_rfl, ?_⟩
                  simp only [entsLen]
                  omega
                · exact hrange x hroot
              have hkeyabs : ∀ y : Row,
                  (y.source = src ∧ y.idInSource = idS ∧ y.parentRowID = parent ∧
                    y.field = field ∧ y.place = place) ∨
                  RootedAt st3.rows parent (entRange field (place + 1) (entsLen rest)) y →
                  RootedAt st3.rows parent
                    (entRange field place (entsLen (Ents.econs v .nil rest))) y := by
                intro y hy
                rcases hy with hkey | hroot
                · refine .direct y hkey.2.2.1 ⟨hkey.2.2.2.1, ?_⟩
                  rw [hkey.2.2.2.2]
                  simp only [entsLen]
                  omega
                · exact hrange y hroot
              refine ⟨hinv3, hEtot.mono habs (fun y hy => hkeyabs y hy), ?_, ?_⟩
              · rw [StoredEntsRep, if_neg hskip]
                refine ⟨rr, [], rrep.map stampUnchanged, ?_, hfind3, hrrval, rfl, hstored3⟩
                simp only [List.map_cons, List.map_append, List.map_nil, List.nil_append,
                  stampUnchanged, hrrid]
              · refine ⟨?_, ?_⟩
                · intro hskip' hcsnil r hfind hval c hc hcd hcp
                  have hst1 : (res, st1) = (⟨r.rowID, Status.unchanged⟩, st) :=
                    hsv.symm.trans (save_value_eq_unchanged hfind hval)
                  injection hst1 with hres hst1
                  subst hst1
                  have hrmem := (findCurrent_spec hfind).1
                  obtain ⟨r2, hr2mem, hr2id, -, -, hr2p, hr2f, hr2pl⟩ := hev3.image hrmem
                  have hnD3c : ¬ RootedAt st3.rows parent
                      (entRange field (place + 1) (entsLen rest)) c := by
                    refine not_rooted_child hinv3.1.nodup hinv3.1.parentLt hr2mem
                      (by rw [hr2p]; exact (findCurrent_spec hfind).2.2.2.1)
                      (by rw [hcp, hr2id]) ?_
                    intro hf
                    obtain ⟨-, hf2, -⟩ := hf
                    rw [hr2pl, (findCurrent_spec hfind).2.2.2.2.2.1] at hf2
                    omega
                  have hcmem3 : c ∈ st3.rows := hev3.mem_untouched hc (Or.inl hnD3c)
                  exact rowByID_of_mem hinv3.1 hcmem3
                · refine UntEnts_transfer (esize rest) rest (place + 1) parent st st1 st3
                    le_rfl hunt3 ?_
                  intro pl hpl r2 hfind2
                  obtain ⟨hr2mem, hr2s, hr2i, hr2p, hr2f, hr2pl, hr2d⟩ := findCurrent_spec hfind2
                  have hnDr2 := hnotDsv pl hpl r2 hr2mem hr2s hr2i hr2p hr2f hr2pl
                  refine ⟨findCurrent_stable hev1 hfind2 hnDr2, ?_⟩
                  intro c hc hcd hcp
                  have hnDc : ¬ (c.source = src ∧ c.idInSource = idS ∧
                      ((c.parentRowID = parent ∧ c.field = field ∧ c.place = place) ∨
                       (∃ ex, findCurrent src idS parent field place st = some ex ∧
                         c.parentRowID = some ex.rowID))) := by
                    intro hD
                    rcases hD.2.2 with hkey | ⟨ex, hexf, hexp⟩
                    · rw [hcp] at hkey
                      rw [← hkey.1] at hr2p
                      have := hinv.1.parentLt r2 hr2mem r2.rowID (by rw [hr2p]; rfl)
                      exact lt_irrefl _ this
                    · obtain ⟨hexmem, -, -, -, -, hexplc, -⟩ := findCurrent_spec hexf
                      rw [hcp] at hexp
                      injection hexp with hexp
                      have hexr2 : ex = r2 := nodup_rowID_inj hinv.1 hexmem hr2mem hexp.symm
                      rw [hexr2] at hexplc
                      rw [hr2pl] at hexplc
                      omega
                  exact hev1.mem_untouched hc (Or.inl hnDc)
          | fcons cf ces crest =>
              dsimp only at heq
              rcases h2 : saveFields src idS t (Rcd.fcons cf ces crest) (some res.rowID) st1
                with ⟨crep, cfs, st2⟩
              rw [h2] at heq
              dsimp only at heq
              rcases h3 : saveEntries src idS t field rest (place + 1) parent st2
                with ⟨rrep, st3⟩
              rw [h3] at heq
              dsimp only at heq
              injection heq with heqr heqs
              subst heqr
              subst heqs
              have hpbc : ParentBound (some res.rowID) st1 := by
                intro p hp
                simp only [Option.mem_def, Option.some.injEq] at hp
                rw [← hp]
                exact hres1
              obtain ⟨hcfs, hinv2, hev2, hstored2, hunt2⟩ :=
                (ih (rsize (Rcd.fcons cf ces crest)) hszC).1 _ (some res.rowID) st1 crep cfs
                  st2 le_rfl h2 hinv1 hwfcs hpbc
              obtain ⟨hinv3, hev3, hstored3, hunt3⟩ :=
                (ih (esize rest) hszR).2 rest (place + 1) parent st2 field rrep st3 le_rfl h3
                  hinv2 hwfrest ((hpb.relax hev1.nextLe).relax hev2.nextLe)
              have hN2_stable : ∀ r r' : Row, shadowsRow r' r →
                  RootedAt st2.rows (some res.rowID)
                    (fieldSet (fieldsOf (Rcd.fcons cf ces crest))) r →
                  RootedAt st2.rows (some res.rowID)
                    (fieldSet (fieldsOf (Rcd.fcons cf ces crest))) r' := by
                intro r r' hsh h
                obtain ⟨-, -, -, h4, h5, h6, -, -⟩ := hsh.stable
                exact h.congr h4 h5 h6
              have hE23 := hev2.comp hev3 hN2_stable
              have hEtot := hev1.comp hE23 hNsv_stable
              have hev12 := hev1.comp hev2 hNsv_stable
              obtain ⟨rr2, hrr2mem, hrr2id, hrr2s, hrr2i, hrr2p, hrr2f, hrr2pl⟩ :=
                hev2.image hrrmem1
              obtain ⟨rr3, hrr3mem, hrr3id, hrr3s, hrr3i, hrr3p, hrr3f, hrr3pl⟩ :=
                hE23.image hrrmem1
              have hnD2rr : ¬ RootedAt st2.rows (some res.rowID)
                  (fieldSet (fieldsOf (Rcd.fcons cf ces crest))) rr := by
                intro h
                rw [← hrrid] at h
                exact rooted_not_scope_self hinv2.1.parentLt hrrplr h
              have hnD3rr : ¬ RootedAt st3.rows parent
                  (entRange field (place + 1) (entsLen rest)) rr := by
                refine not_rooted_direct hinv3.1.parentLt hrrp ?_
                intro hf
                obtain ⟨-, hf2, -⟩ := hf
                rw [hrrpl] at hf2
                omega
              have hfind3 : findCurrent src idS parent field place st3 = some rr := by
                refine findCurrent_stable hE23 hfind1 ?_
                intro h
                rcases h with h | h
                · exact hnD2rr h
                · exact hnD3rr h
              have hrange : ∀ x, RootedAt st3.rows parent
                  (entRange field (place + 1) (entsLen rest)) x →
                  RootedAt st3.rows parent
                    (entRange field place (entsLen (Ents.econs v (.fcons cf ces crest) rest))) x := by
                intro x hx
                refine hx.mono_F ?_
                intro f pl hf
                obtain ⟨hf1, hf2, hf3⟩ := hf
                refine ⟨hf1, by omega, ?_⟩
                simp only [entsLen]
                omega
              have hthrough3 : ∀ x G, RootedAt st3.rows (some res.rowID) G x →
                  RootedAt st3.rows parent (fun f pl => f = field ∧ pl = place) x := by
                intro x G hx
                exact RootedAt.through hrr3mem (hrr3id.trans hrrid)
                  (hrr3p.trans hrrp) ⟨hrr3f.trans hrrf, hrr3pl.trans hrrpl⟩ hx
              have habs : ∀ x,
                  ((x.source = src ∧ x.idInSource = idS ∧
                    ((x.parentRowID = parent ∧ x.field = field ∧ x.place = place) ∨
                     (∃ ex, findCurrent src idS parent field place st = some ex ∧
                       x.parentRowID = some ex.rowID))) ∨
                   (RootedAt st2.rows (some res.rowID)
                      (fieldSet (fieldsOf (Rcd.fcons cf ces crest))) x ∨
                    RootedAt st3.rows parent (entRange field (place + 1) (entsLen rest)) x)) →
                  RootedAt st3.rows parent
                    (entRange field place
                      (entsLen (Ents.econs v (.fcons cf ces crest) rest))) x := by
                intro x hx
                rcases hx with ⟨-, -, hkey | ⟨ex, hexf, hexp⟩⟩ | hD2 | hD3
                · refine .direct x hkey.1 ⟨hkey.2.1, ?_⟩
                  rw [hkey.2.2]
                  simp only [entsLen]
                  omega
                · obtain ⟨hexmem, hexs, hexi, hexpp, hexff, hexplc, -⟩ := findCurrent_spec hexf
                  obtain ⟨ex3, hex3mem, hex3id, -, -, hex3p, hex3f, hex3pl⟩ :=
                    hEtot.image hexmem
                  refine .step x ex3 hex3mem (by rw [hexp, hex3id]) ?_
                  refine .direct ex3 (by rw [hex3p, hexpp]) ?_
                  rw [hex3f, hex3pl, hexff, hexplc]
                  refine ⟨rfl, le_rfl, ?_⟩
                  simp only [entsLen]
                  omega
                · have hlift := RootedAt.evolves hev3 hD2
                  refine (hthrough3 x _ hlift).mono_F ?_
                  intro f pl hf
                  refine ⟨hf.1, by omega, ?_⟩
                  rw [hf.2]
                  simp only [entsLen]
                  omega
                · exact hrange x hD3
              refine ⟨hinv3, hEtot.mono habs ?_, ?_, ?_⟩
              · intro y hy
                refine habs y ?_
                rcases hy with hkey | hy2
                · exact Or.inl ⟨hkey.1, hkey.2.1, Or.inl ⟨hkey.2.2.1, hkey.2.2.2.1,
                    hkey.2.2.2.2⟩⟩
                · exact Or.inr hy2
              · rw [StoredEntsRep, if_neg hskip]
                refine ⟨rr, crep.map stampUnchanged, rrep.map stampUnchanged, ?_, hfind3,
                  hrrval, ?_, hstored3⟩
                · simp only [List.map_cons, List.map_append, stampUnchanged, hrrid]
                · show StoredRep src idS (Rcd.fcons cf ces crest) (some rr.rowID) st3
                    (crep.map stampUnchanged)
                  have hstored2b : StoredRep src idS (Rcd.fcons cf ces crest) (some rr.rowID)
                      st2 (crep.map stampUnchanged) := by
                    rw [hrrid]
                    exact hstored2
                  refine (StoredRep_mono src idS (rsize (Rcd.fcons cf ces crest))).1 _
                    (some rr.rowID) st2 st3 _ _ _ le_rfl hstored2b hev3 ?_ ?_
                  · intro x hx hxd hxroot hD3x
                    have hxroot2 : RootedAt st3.rows (some res.rowID)
                        (fieldSet (fieldsOf (Rcd.fcons cf ces crest))) x := by
                      rw [← hrrid]
                      exact hxroot
                    refine RootedAt.disjoint hinv3.1.nodup hinv3.1.parentLt ?_
                      (hthrough3 x _ hxroot2) hD3x
                    intro f pl hf1 hf2
                    obtain ⟨-, hg2, -⟩ := hf2
                    rw [hf1.2] at hg2
                    omega
                  · intro y hy hyroot
                    have hyroot2 : RootedAt st3.rows (some res.rowID)
                        (fieldSet (fieldsOf (Rcd.fcons cf ces crest))) y := by
                      rw [← hrrid]
                      exact hyroot
                    refine RootedAt.disjoint hinv3.1.nodup hinv3.1.parentLt ?_
                      (hthrough3 y _ hyroot2) hy
                    intro f pl hf1 hf2
                    obtain ⟨-, hg2, -⟩ := hf2
                    rw [hf1.2] at hg2
                    omega
              · refine ⟨?_, ?_⟩
                · intro hskip' hcsnil
                  exact Rcd.noConfusion hcsnil
                · refine UntEnts_transfer (esize rest) rest (place + 1) parent st st2 st3
                    le_rfl hunt3 ?_
                  intro pl hpl r2 hfind2
                  obtain ⟨hr2mem, hr2s, hr2i, hr2p, hr2f, hr2pl, hr2d⟩ :=
                    findCurrent_spec hfind2
                  have hnDr2sv := hnotDsv pl hpl r2 hr2mem hr2s hr2i hr2p hr2f hr2pl
                  have hthrough2 : ∀ x G, RootedAt st2.rows (some res.rowID) G x →
                      RootedAt st2.rows parent (fun f pl2 => f = field ∧ pl2 = place) x := by
                    intro x G hx
                    exact RootedAt.through hrr2mem (hrr2id.trans hrrid)
                      (hrr2p.trans hrrp) ⟨hrr2f.trans hrrf, hrr2pl.trans hrrpl⟩ hx
                  have hnDr2c : ¬ RootedAt st2.rows (some res.rowID)
                      (fieldSet (fieldsOf (Rcd.fcons cf ces crest))) r2 := by
                    intro h
                    have := (hthrough2 r2 _ h).direct_field hinv2.1.parentLt hr2p
                    rw [hr2pl] at this
                    have h2 := this.2
                    omega
                  refine ⟨findCurrent_stable hev12 hfind2 ?_, ?_⟩
                  · intro h
                    rcases h with h | h
                    · exact hnDr2sv h
                    · exact hnDr2c h
                  · intro c hc hcd hcp
                    obtain ⟨r22, hr22mem, hr22id, -, -, hr22p, hr22f, hr22pl⟩ :=
                      hev12.image hr2mem
                    have hnDcsv : ¬ (c.source = src ∧ c.idInSource = idS ∧
                        ((c.parentRowID = parent ∧ c.field = field ∧ c.place = place) ∨
                         (∃ ex, findCurrent src idS parent field place st = some ex ∧
                           c.parentRowID = some ex.rowID))) := by
                      intro hD
                      rcases hD.2.2 with hkey | ⟨ex, hexf, hexp⟩
                      · rw [hcp] at hkey
                        rw [← hkey.1] at hr2p
                        have := hinv.1.parentLt r2 hr2mem r2.rowID (by rw [hr2p]; rfl)
                        exact lt_irrefl _ this
                      · obtain ⟨hexmem, -, -, -, -, hexplc, -⟩ := findCurrent_spec hexf
                        rw [hcp] at hexp
                        injection hexp with hexp
                        have hexr2 : ex = r2 := nodup_rowID_inj hinv.1 hexmem hr2mem hexp.symm
                        rw [hexr2] at hexplc
                        rw [hr2pl] at hexplc
                        omega
                    have hnDc2 : ¬ RootedAt st2.rows (some res.rowID)
                        (fieldSet (fieldsOf (Rcd.fcons cf ces crest))) c := by
                      intro h
                      have hc1 := hthrough2 c _ h
                      have hc2 : RootedAt st2.rows parent
                          (fun f pl2 => f = field ∧ pl2 = pl) c := by
                        refine .step c r22 hr22mem (by rw [hcp, hr22id]) ?_
                        exact .direct r22 (by rw [hr22p, hr2p])
                          ⟨hr22f.trans hr2f, hr22pl.trans hr2pl⟩
                      refine RootedAt.disjoint hinv2.1.nodup hinv2.1.parentLt ?_ hc1 hc2
                      intro f pl2 hf1 hf2
                      rw [hf1.2] at hf2
                      have h2 := hf2.2
                      omega
                    refine hev12.mem_untouched hc (Or.inl ?_)
                    intro h
                    rcases h with h | h
                    · exact hnDcsv h
                    · exact hnDc2 h

/-!
Claim-level helper lemmas.
-/

theorem rowMatches_false_of_field {src idS : String} {parent : Option Nat}
    {field : String} {place : Nat} {r : Row} (h : r.field ≠ field) :
    rowMatches src idS parent field place r = false := by
  rw [Bool.eq_false_iff]
  intro hc
  exact h (rowMatches_iff.mp hc).2.2.2.1

theorem rowMatches_false_of_deleted {src idS : String} {parent : Option Nat}
    {field : String} {place : Nat} {r : Row} (h : r.deleted ≠ none) :
    rowMatches src idS parent field place r = false := by
  rw [Bool.eq_false_iff]
  intro hc
  exact h (rowMatches_iff.mp hc).2.2.2.2.2

theorem findCurrent_none_of {src idS : String} {parent : Option Nat}
    {field : String} {place : Nat} {st : Store}
    (h : ∀ r ∈ st.rows, rowMatches src idS parent field place r = false) :
    findCurrent src idS parent field place st = none := by
  rw [findCurrent, List.find?_eq_none]
  intro r hr hc
  rw [h r hr] at hc
  exact Bool.noConfusion hc

/-- A row that was already soft-deleted is carried unchanged through any
    evolution step, and is still found at its rowID afterwards. -/
theorem frozen_of_evolves {D N : Row → Prop} {st st' : Store}
    (hev : Evolves D N st st') (hwf : WF st') {r : Row}
    (hr : r ∈ st.rows) (hd : r.deleted ≠ none) :
    rowByID st' r.rowID = some r :=
  rowByID_of_mem hwf (hev.mem_untouched hr (Or.inr hd))

/-!
C2 — versioning: superseding a changed value.
-/

/-- C2: when the current row `ex` of a value key holds a different value than
    the incoming one, `save_value` returns the Updated status with the fresh
    rowID, the key's current row afterwards is exactly the newly inserted row,
    the prior row acquires `deleted = t` and `replacedByRowID` = the new
    rowID, and every row other than `ex` and `ex`'s children is carried over
    unchanged — in particular every row of every other (field, place) key of
    the same scope. -/
theorem save_value_versioning {src idS field : String} {place : Nat} {value : EVal}
    {parent : Option Nat} {t : Nat} {st : Store} {ex : Row} {res : SaveResult} {st' : Store}
    (hinv : Inv st)
    (hfind : findCurrent src idS parent field place st = some ex)
    (hv : ex.value ≠ normVal value)
    (heq : save_value src idS field place value parent t st = (res, st')) :
    res = ⟨st.nextRowID, .updated⟩ ∧
    findCurrent src idS parent field place st' =
      some (newRow src idS parent field place (normVal value) t st.nextRowID) ∧
    rowByID st' ex.rowID =
      some { ex with deleted := some t, replacedByRowID := some st.nextRowID } ∧
    (∀ r ∈ st.rows, r.rowID ≠ ex.rowID → r.parentRowID ≠ some ex.rowID → r ∈ st'.rows) ∧
    Inv st' := by
  obtain ⟨hwf, hun⟩ := hinv
  obtain ⟨hmem, hsrc, hid, hpar, hfld, hplc, hdel⟩ := findCurrent_spec hfind
  have hpb : ParentBound parent st := by
    intro p hp
    have h1 : p < ex.rowID := hwf.2.2 ex hmem p (by rw [hpar]; exact hp)
    exact h1.trans (hwf.1 ex hmem)
  have hnorm := @save_value_eq_updated src idS field place value parent t st ex hwf hfind hv
  have hinv2 : Inv st' := by
    rw [hnorm] at heq
    injection heq with h1 h2
    rw [← h2]
    exact (save_value_main ⟨hwf, hun⟩ hpb hnorm).1
  rw [hnorm] at heq
  injection heq with h1 h2
  subst h1
  subst h2
  refine ⟨rfl, ?_, ?_, ?_, hinv2⟩
  · show ((st.rows.map (updMap src idS ex.rowID st.nextRowID t) ++ _).find? _) = _
    rw [List.find?_append]
    have hm : (st.rows.map (updMap src idS ex.rowID st.nextRowID t)).find?
        (rowMatches src idS parent field place) = none := by
      rw [List.find?_eq_none]
      intro x hx hmx
      obtain ⟨r, hr, rfl⟩ := List.mem_map.mp hx
      by_cases h1 : r.rowID = ex.rowID
      · rw [updMap, if_pos h1] at hmx
        have := (rowMatches_iff.mp hmx).2.2.2.2.2
        exact Option.noConfusion this
      · rw [updMap, if_neg h1] at hmx
        by_cases h2 : (r.source = src ∧ r.idInSource = idS ∧
            r.parentRowID = some ex.rowID ∧ r.deleted = none)
        · rw [if_pos h2] at hmx
          have := (rowMatches_iff.mp hmx).2.2.2.2.2
          exact Option.noConfusion this
        · rw [if_neg h2] at hmx
          have hfacts := rowMatches_iff.mp hmx
          have hkey : keyOf r = keyOf ex := by
            rw [keyOf, keyOf, hfacts.1, hfacts.2.1, hfacts.2.2.1, hfacts.2.2.2.1,
              hfacts.2.2.2.2.1, hsrc, hid, hpar, hfld, hplc]
          exact h1 (congrArg Row.rowID (hun r hr ex hmem hfacts.2.2.2.2.2 hdel hkey))
    rw [hm, Option.none_or]
    rw [List.find?_cons_of_pos]
    simp [rowMatches, newRow]
  · have hmem2 : { ex with deleted := some t, replacedByRowID := some st.nextRowID } ∈
        st.rows.map (updMap src idS ex.rowID st.nextRowID t) ++
          [newRow src idS parent field place (normVal value) t st.nextRowID] := by
      refine List.mem_append_left _ (List.mem_map.mpr ⟨ex, hmem, ?_⟩)
      rw [updMap, if_pos rfl]
    exact rowByID_of_mem hinv2.1 hmem2
  · intro r hr h1 h2
    have hu : updMap src idS ex.rowID st.nextRowID t r = r := by
      rw [updMap, if_neg h1, if_neg ?_]
      rintro ⟨-, -, hp, -⟩
      exact h2 hp
    exact List.mem_append_left _ (hu ▸ List.mem_map_of_mem _ hr)

theorem save_value_versioning_witness :
    (⟨1, Status.updated⟩ : SaveResult) = ⟨1, .updated⟩ ∧
    findCurrent "s" "i" none "f" 0
      ⟨[⟨0, "s", "i", none, "f", 0, some "old", 0, some 5, some 1⟩,
        ⟨1, "s", "i", none, "f", 0, some "new", 5, none, none⟩], 2, [], 0⟩ =
      some (newRow "s" "i" none "f" 0 (normVal (.vstr "new")) 5 1) ∧
    rowByID
      ⟨[⟨0, "s", "i", none, "f", 0, some "old", 0, some 5, some 1⟩,
        ⟨1, "s", "i", none, "f", 0, some "new", 5, none, none⟩], 2, [], 0⟩ 0 =
      some { (⟨0, "s", "i", none, "f", 0, some "old", 0, none, none⟩ : Row) with
        deleted := some 5, replacedByRowID := some 1 } ∧
    (∀ r ∈ (⟨[⟨0, "s", "i", none, "f", 0, some "old", 0, none, none⟩], 1, [], 0⟩ :
        Store).rows,
      r.rowID ≠ 0 → r.parentRowID ≠ some 0 →
        r ∈ (⟨[⟨0, "s", "i", none, "f", 0, some "old", 0, some 5, some 1⟩,
          ⟨1, "s", "i", none, "f", 0, some "new", 5, none, none⟩], 2, [], 0⟩ : Store).rows) ∧
    Inv ⟨[⟨0, "s", "i", none, "f", 0, some "old", 0, some 5, some 1⟩,
      ⟨1, "s", "i", none, "f", 0, some "new", 5, none, none⟩], 2, [], 0⟩ :=
  save_value_versioning ⟨⟨by decide, by decide, by decide⟩, by unfold Uniq; decide⟩
    (by decide : findCurrent "s" "i" none "f" 0
      ⟨[⟨0, "s", "i", none, "f", 0, some "old", 0, none, none⟩], 1, [], 0⟩ =
      some ⟨0, "s", "i", none, "f", 0, some "old", 0, none, none⟩)
    (by decide)
    (by decide : save_value "s" "i" "f" 0 (.vstr "new") none 5
      ⟨[⟨0, "s", "i", none, "f", 0, some "old", 0, none, none⟩], 1, [], 0⟩ =
      (⟨1, .updated⟩,
       ⟨[⟨0, "s", "i", none, "f", 0, some "old", 0, some 5, some 1⟩,
         ⟨1, "s", "i", none, "f", 0, some "new", 5, none, none⟩], 2, [], 0⟩))

/-!
C3 — cascade invalidation of the superseded row's children.
-/

/-- C3: when `save_value` supersedes the current row `ex` of a key, every
    current row of the same identity whose parentRowID equals `ex.rowID` —
    regardless of its field — is soft-deleted in the same operation (children
    written by the engine always carry their record's source and idInSource,
    which the cascade in `_mark_extra_metadata_as_deleted` filters on). -/
theorem save_value_cascade_children {src idS field : String} {place : Nat} {value : EVal}
    {parent : Option Nat} {t : Nat} {st : Store} {ex : Row} {res : SaveResult} {st' : Store}
    (hinv : Inv st)
    (hfind : findCurrent src idS parent field place st = some ex)
    (hv : ex.value ≠ normVal value)
    (heq : save_value src idS field place value parent t st = (res, st')) :
    ∀ c ∈ st.rows, c.source = src → c.idInSource = idS → c.deleted = none →
      c.parentRowID = some ex.rowID →
      rowByID st' c.rowID = some { c with deleted := some t } := by
  obtain ⟨hwf, hun⟩ := hinv
  obtain ⟨hmem, hsrc, hid, hpar, hfld, hplc, hdel⟩ := findCurrent_spec hfind
  have hpb : ParentBound parent st := by
    intro p hp
    have h1 : p < ex.rowID := hwf.2.2 ex hmem p (by rw [hpar]; exact hp)
    exact h1.trans (hwf.1 ex hmem)
  have hnorm := @save_value_eq_updated src idS field place value parent t st ex hwf hfind hv
  have hinv2 : Inv st' := by
    rw [hnorm] at heq
    injection heq with h1 h2
    rw [← h2]
    exact (save_value_main ⟨hwf, hun⟩ hpb hnorm).1
  rw [hnorm] at heq
  injection heq with h1 h2
  subst h1
  subst h2
  intro c hc hcs hci hcd hcp
  have hne : c.rowID ≠ ex.rowID := by
    intro h
    have : c = ex := nodup_rowID_inj hwf hc hmem h
    rw [this] at hcp
    have := hwf.2.2 ex hmem ex.rowID (by rw [hcp]; rfl)
    exact lt_irrefl _ this
  have hmem2 : { c with deleted := some t } ∈
      st.rows.map (updMap src idS ex.rowID st.nextRowID t) ++
        [newRow src idS parent field place (normVal value) t st.nextRowID] := by
    refine List.mem_append_left _ (List.mem_map.mpr ⟨c, hc, ?_⟩)
    rw [updMap, if_neg hne, if_pos ⟨hcs, hci, hcp, hcd⟩]
  exact rowByID_of_mem hinv2.1 hmem2

theorem save_value_cascade_children_witness :
    rowByID
      ⟨[⟨0, "s", "i", none, "f", 0, some "old", 0, some 5, some 2⟩,
        ⟨1, "s", "i", some 0, "g", 0, some "kid", 0, some 5, none⟩,
        ⟨2, "s", "i", none, "f", 0, some "new", 5, none, none⟩], 3, [], 0⟩ 1 =
      some { (⟨1, "s", "i", some 0, "g", 0, some "kid", 0, none, none⟩ : Row) with
        deleted := some 5 } :=
  save_value_cascade_children ⟨⟨by decide, by decide, by decide⟩, by unfold Uniq; decide⟩
    (by decide : findCurrent "s" "i" none "f" 0
      ⟨[⟨0, "s", "i", none, "f", 0, some "old", 0, none, none⟩,
        ⟨1, "s", "i", some 0, "g", 0, some "kid", 0, none, none⟩], 2, [], 0⟩ =
      some ⟨0, "s", "i", none, "f", 0, some "old", 0, none, none⟩)
    (by decide)
    (by decide : save_value "s" "i" "f" 0 (.vstr "new") none 5
      ⟨[⟨0, "s", "i", none, "f", 0, some "old", 0, none, none⟩,
        ⟨1, "s", "i", some 0, "g", 0, some "kid", 0, none, none⟩], 2, [], 0⟩ =
      (⟨2, .updated⟩,
       ⟨[⟨0, "s", "i", none, "f", 0, some "old", 0, some 5, some 2⟩,
         ⟨1, "s", "i", some 0, "g", 0, some "kid", 0, some 5, none⟩,
         ⟨2, "s", "i", none, "f", 0, some "new", 5, none, none⟩], 3, [], 0⟩))
    ⟨1, "s", "i", some 0, "g", 0, some "kid", 0, none, none⟩ (by decide) rfl rfl rfl rfl

/-- Branch-free equation for `save_values` in terms of the field loop. -/
theorem save_values_eq {src idS : String} {rec : Rcd} {parent : Option Nat}
    (ignore : List String) (complete : Bool) {t : Nat} {st : Store}
    {rep : List RItem} {fs : List String} {stA : Store}
    (hsf : saveFields src idS t rec parent st = (rep, fs, stA)) :
    save_values src idS rec parent ignore complete t st =
      (rep,
       if complete then
         markExtraMetadataAsDeleted src idS parent "" 0 (fs ++ ignore) t stA
       else stA) := by
  rw [save_values, hsf]

/-!
C4 — uniqueness invariant and forward-only version chains.
-/

/-- C4: each operation — `save_value`, `save_values`, `save_source_data`, and
    any invalidation pass of `_mark_extra_metadata_as_deleted` — preserves the
    at-most-one-current-row-per-key invariant on the metadata table, and a row
    that was already superseded (deleted non-null) is carried through each of
    them entirely unchanged, so its `deleted` and `replacedByRowID` are never
    mutated again. -/
theorem uniq_preserved_and_superseded_frozen
    (src idS field : String) (place : Nat) (value : EVal) (parent : Option Nat)
    (rec : Rcd) (ignore : List String) (complete : Bool)
    (data format mfield : String) (lastPlace : Nat) (cf : List String)
    (t : Nat) (st : Store)
    (hinv : Inv st) (hwf : wfRcd rec = true) (hpb : ParentBound parent st) :
    (Uniq (save_value src idS field place value parent t st).2 ∧
      ∀ r ∈ st.rows, r.deleted ≠ none →
        rowByID (save_value src idS field place value parent t st).2 r.rowID = some r) ∧
    (Uniq (save_values src idS rec parent ignore complete t st).2 ∧
      ∀ r ∈ st.rows, r.deleted ≠ none →
        rowByID (save_values src idS rec parent ignore complete t st).2 r.rowID = some r) ∧
    (Uniq (save_source_data src idS data format t st).2 ∧
      ∀ r ∈ st.rows, r.deleted ≠ none →
        rowByID (save_source_data src idS data format t st).2 r.rowID = some r) ∧
    (Uniq (markExtraMetadataAsDeleted src idS parent mfield lastPlace cf t st) ∧
      ∀ r ∈ st.rows, r.deleted ≠ none →
        rowByID (markExtraMetadataAsDeleted src idS parent mfield lastPlace cf t st)
          r.rowID = some r) := by
  refine ⟨?_, ?_, ?_, ?_⟩
  · rcases h : save_value src idS field place value parent t st with ⟨res, st1⟩
    obtain ⟨hinv1, hev, -, -⟩ := save_value_main hinv hpb h
    exact ⟨hinv1.2, fun r hr hd => frozen_of_evolves hev hinv1.1 hr hd⟩
  · rcases hsf : saveFields src idS t rec parent st with ⟨rep1, fs, stA⟩
    obtain ⟨-, hinvA, hev, -, -⟩ :=
      (grand src idS t (rsize rec)).1 rec parent st rep1 fs stA le_rfl hsf hinv hwf hpb
    rw [save_values_eq ignore complete hsf]
    by_cases hc : complete
    · rw [if_pos hc]
      dsimp only
      refine ⟨Uniq_markExtra hinvA.2, ?_⟩
      intro r hr hd
      have hrA : r ∈ stA.rows := hev.mem_untouched hr (Or.inr hd)
      exact frozen_of_evolves (markExtra_evolves src idS parent "" 0 (fs ++ ignore) t stA)
        (WF_markExtra hinvA.1) hrA hd
    · rw [if_neg hc]
      exact ⟨hinvA.2, fun r hr hd => frozen_of_evolves hev hinvA.1 hr hd⟩
  · have hrows : (save_source_data src idS data format t st).2.rows = st.rows := by
      rw [save_source_data]
      rcases h : st.srows.find? (fun r => r.source == src && r.idInSource == idS &&
          r.deleted == none) with - | ex
      · rw [h]
      · rw [h]
        dsimp only
        by_cases hd : ex.sourceData ≠ data
        · rw [if_pos hd]
        · rw [if_neg hd]
    refine ⟨?_, ?_⟩
    · intro r1 h1 r2 h2
      rw [hrows] at h1 h2
      exact hinv.2 r1 h1 r2 h2
    · intro r hr hd
      rw [rowByID, hrows]
      have h2 := rowByID_of_mem hinv.1 hr
      rw [rowByID] at h2
      exact h2
  · refine ⟨Uniq_markExtra hinv.2, ?_⟩
    intro r hr hd
    exact frozen_of_evolves (markExtra_evolves src idS parent mfield lastPlace cf t st)
      (WF_markExtra hinv.1) hr hd

theorem uniq_preserved_and_superseded_frozen_witness :
    (Uniq (save_value "s" "i" "f" 0 (.vstr "x") none 0
        ⟨[⟨0, "s", "i", none, "g", 0, some "v", 0, some 0, none⟩], 1, [], 0⟩).2 ∧
      ∀ r ∈ (⟨[⟨0, "s", "i", none, "g", 0, some "v", 0, some 0, none⟩], 1, [], 0⟩ :
          Store).rows, r.deleted ≠ none →
        rowByID (save_value "s" "i" "f" 0 (.vstr "x") none 0
          ⟨[⟨0, "s", "i", none, "g", 0, some "v", 0, some 0, none⟩], 1, [], 0⟩).2
          r.rowID = some r) ∧
    (Uniq (save_values "s" "i" (.fcons "f" (.econs (.vstr "x") .nil .enil) .nil) none []
        true 0 ⟨[⟨0, "s", "i", none, "g", 0, some "v", 0, some 0, none⟩], 1, [], 0⟩).2 ∧
      ∀ r ∈ (⟨[⟨0, "s", "i", none, "g", 0, some "v", 0, some 0, none⟩], 1, [], 0⟩ :
          Store).rows, r.deleted ≠ none →
        rowByID (save_values "s" "i" (.fcons "f" (.econs (.vstr "x") .nil .enil) .nil)
          none [] true 0
          ⟨[⟨0, "s", "i", none, "g", 0, some "v", 0, some 0, none⟩], 1, [], 0⟩).2
          r.rowID = some r) ∧
    (Uniq (save_source_data "s" "i" "d" "json" 0
        ⟨[⟨0, "s", "i", none, "g", 0, some "v", 0, some 0, none⟩], 1, [], 0⟩).2 ∧
      ∀ r ∈ (⟨[⟨0, "s", "i", none, "g", 0, some "v", 0, some 0, none⟩], 1, [], 0⟩ :
          Store).rows, r.deleted ≠ none →
        rowByID (save_source_data "s" "i" "d" "json" 0
          ⟨[⟨0, "s", "i", none, "g", 0, some "v", 0, some 0, none⟩], 1, [], 0⟩).2
          r.rowID = some r) ∧
    (Uniq (markExtraMetadataAsDeleted "s" "i" none "" 0 [] 0
        ⟨[⟨0, "s", "i", none, "g", 0, some "v", 0, some 0, none⟩], 1, [], 0⟩) ∧
      ∀ r ∈ (⟨[⟨0, "s", "i", none, "g", 0, some "v", 0, some 0, none⟩], 1, [], 0⟩ :
          Store).rows, r.deleted ≠ none →
        rowByID (markExtraMetadataAsDeleted "s" "i" none "" 0 [] 0
          ⟨[⟨0, "s", "i", none, "g", 0, some "v", 0, some 0, none⟩], 1, [], 0⟩)
          r.rowID = some r) :=
  uniq_preserved_and_superseded_frozen "s" "i" "f" 0 (.vstr "x") none
    (.fcons "f" (.econs (.vstr "x") .nil .enil) .nil) [] true "d" "json" "" 0 [] 0
    ⟨[⟨0, "s", "i", none, "g", 0, some "v", 0, some 0, none⟩], 1, [], 0⟩
    ⟨⟨by decide, by decide, by decide⟩, by unfold Uniq; decide⟩ (by decide)
    (by intro p hp; simp at hp)

/-!
C9 — unchanged value with absent children leaves existing children alone.
-/

/-- C9: over a whole `save_values` run — with any completeness flag — every
    entry whose supplied value matches the current stored value and whose
    children key is absent keeps all previously-current child rows of its
    current row present and entirely unchanged in the final store (the
    `UntRcd` frame clause). -/
theorem save_values_unchanged_absent_children (src idS : String) (rec : Rcd)
    (parent : Option Nat) (ignore : List String) (complete : Bool) (t : Nat)
    (st : Store) (rep : List RItem) (st' : Store)
    (heq : save_values src idS rec parent ignore complete t st = (rep, st'))
    (hinv : Inv st) (hwf : wfRcd rec = true) (hpb : ParentBound parent st) :
    UntRcd src idS rec parent st st' := by
  rcases hsf : saveFields src idS t rec parent st with ⟨rep1, fs, stA⟩
  obtain ⟨-, hinvA, hev, -, hunt⟩ :=
    (grand src idS t (rsize rec)).1 rec parent st rep1 fs stA le_rfl hsf hinv hwf hpb
  rw [save_values_eq ignore complete hsf] at heq
  injection heq with h1 h2
  by_cases hc : complete
  · rw [if_pos hc] at h2
    subst h2
    refine UntRcd_lift (rsize rec) rec parent st stA _ le_rfl hunt ?_
    intro f hf pl r hfindr c hcmem hcd hcp hcA
    have hcmemA : c ∈ stA.rows := List.mem_of_find?_eq_some hcA
    have hrmem : r ∈ st.rows := (findCurrent_spec hfindr).1
    have hnD : ¬ markExtraD src idS parent "" 0 (fs ++ ignore) c := by
      intro hD
      obtain ⟨-, -, hp, -⟩ := hD
      rw [hcp] at hp
      have hrp := (findCurrent_spec hfindr).2.2.2.1
      rw [← hp] at hrp
      have := hinv.1.parentLt r hrmem r.rowID (by rw [hrp]; rfl)
      exact lt_irrefl _ this
    have hcmem2 : c ∈ (markExtraMetadataAsDeleted src idS parent "" 0 (fs ++ ignore)
        t stA).rows :=
      (markExtra_evolves src idS parent "" 0 (fs ++ ignore) t stA).mem_untouched
        hcmemA (Or.inl hnD)
    exact rowByID_of_mem (WF_markExtra hinvA.1) hcmem2
  · rw [if_neg hc] at h2
    subst h2
    exact hunt

theorem save_values_unchanged_absent_children_witness :
    UntRcd "s" "i" (.fcons "a" (.econs (.vstr "v") .nil .enil) .nil) none
      ⟨[⟨0, "s", "i", none, "a", 0, some "v", 0, none, none⟩,
        ⟨1, "s", "i", some 0, "b", 0, some "w", 0, none, none⟩], 2, [], 0⟩
      (save_values "s" "i" (.fcons "a" (.econs (.vstr "v") .nil .enil) .nil) none []
        true 7
        ⟨[⟨0, "s", "i", none, "a", 0, some "v", 0, none, none⟩,
          ⟨1, "s", "i", some 0, "b", 0, some "w", 0, none, none⟩], 2, [], 0⟩).2 :=
  save_values_unchanged_absent_children "s" "i"
    (.fcons "a" (.econs (.vstr "v") .nil .enil) .nil) none [] true 7
    ⟨[⟨0, "s", "i", none, "a", 0, some "v", 0, none, none⟩,
      ⟨1, "s", "i", some 0, "b", 0, some "w", 0, none, none⟩], 2, [], 0⟩
    _ _ rfl
    ⟨⟨by decide, by decide, by decide⟩, by unfold Uniq; decide⟩ (by decide)
    (by intro p hp; simp at hp)

/-!
C5 — child recursion: parentRowId propagation, completeness never propagated.
-/

/-- C5 (corrected): for an entry carrying a non-empty child sub-record the
    entry loop recurses with parentRowId equal to the rowID returned by
    `save_value` for that entry — but the recursive call is `save_values`
    with `complete_record = False` unconditionally (metadata.py:230 passes
    the literal `False`); it is never treated as a complete record, whatever
    the outer call's flag was.  The counterexample theorem refutes the
    "exactly when completeRecord is asserted for the outer call" reading. -/
theorem saveEntries_child_recursion (src idS field : String) (t : Nat)
    (v : EVal) (cf : String) (ces : Ents) (crest : Rcd) (rest : Ents)
    (place : Nat) (parent : Option Nat) (st : Store)
    (hskip : skipEntry v = false) :
    saveEntries src idS t field (.econs v (.fcons cf ces crest) rest) place parent st =
      ((⟨field, place, parent,
          (save_value src idS field place v parent t st).1.status,
          (save_value src idS field place v parent t st).1.rowID⟩ : RItem) ::
        ((save_values src idS (.fcons cf ces crest)
            (some (save_value src idS field place v parent t st).1.rowID) [] false t
            (save_value src idS field place v parent t st).2).1 ++
          (saveEntries src idS t field rest (place + 1) parent
            (save_values src idS (.fcons cf ces crest)
              (some (save_value src idS field place v parent t st).1.rowID) [] false t
              (save_value src idS field place v parent t st).2).2).1),
       (saveEntries src idS t field rest (place + 1) parent
         (save_values src idS (.fcons cf ces crest)
           (some (save_value src idS field place v parent t st).1.rowID) [] false t
           (save_value src idS field place v parent t st).2).2).2) := by
  rw [saveEntries, if_neg (fun h => by rw [hskip] at h; exact Bool.noConfusion h)]
  rcases hsv : save_value src idS field place v parent t st with ⟨res, st1⟩
  dsimp only
  rcases hsfc : saveFields src idS t (.fcons cf ces crest) (some res.rowID) st1
    with ⟨cr, cfs, cst⟩
  rw [save_values_eq [] false hsfc,
    if_neg (fun h => Bool.noConfusion h)]

/-- C5 counterexample: a complete outer call whose entry is unchanged and
    carries a child sub-record {c}.  The claimed propagation of the complete
    flag into the child call would prune the pre-existing child field "b"
    (second conjunct shows that a complete child call soft-deletes it); the
    actual run keeps it current and untouched (first conjunct). -/
theorem saveEntries_child_not_complete_cex :
    rowByID (save_values "s" "i"
        (.fcons "a" (.econs (.vstr "v")
          (.fcons "c" (.econs (.vstr "x") .nil .enil) .nil) .enil) .nil) none [] true 9
        ⟨[⟨0, "s", "i", none, "a", 0, some "v", 0, none, none⟩,
          ⟨1, "s", "i", some 0, "b", 0, some "w", 0, none, none⟩], 2, [], 0⟩).2 1 =
      some ⟨1, "s", "i", some 0, "b", 0, some "w", 0, none, none⟩ ∧
    rowByID (save_values "s" "i" (.fcons "c" (.econs (.vstr "x") .nil .enil) .nil)
        (some 0) [] true 9
        ⟨[⟨0, "s", "i", none, "a", 0, some "v", 0, none, none⟩,
          ⟨1, "s", "i", some 0, "b", 0, some "w", 0, none, none⟩], 2, [], 0⟩).2 1 =
      some ⟨1, "s", "i", some 0, "b", 0, some "w", 0, some 9, none⟩ := by decide

theorem saveEntries_child_recursion_witness :
    saveEntries "s" "i" 0 "f" (.econs (.vstr "x") (.fcons "c" .enil .nil) .enil) 0 none
      ⟨[], 0, [], 0⟩ =
      ((⟨"f", 0, none,
          (save_value "s" "i" "f" 0 (.vstr "x") none 0 ⟨[], 0, [], 0⟩).1.status,
          (save_value "s" "i" "f" 0 (.vstr "x") none 0 ⟨[], 0, [], 0⟩).1.rowID⟩ : RItem) ::
        ((save_values "s" "i" (.fcons "c" .enil .nil)
            (some (save_value "s" "i" "f" 0 (.vstr "x") none 0 ⟨[], 0, [], 0⟩).1.rowID)
            [] false 0
            (save_value "s" "i" "f" 0 (.vstr "x") none 0 ⟨[], 0, [], 0⟩).2).1 ++
          (saveEntries "s" "i" 0 "f" .enil (0 + 1) none
            (save_values "s" "i" (.fcons "c" .enil .nil)
              (some (save_value "s" "i" "f" 0 (.vstr "x") none 0 ⟨[], 0, [], 0⟩).1.rowID)
              [] false 0
              (save_value "s" "i" "f" 0 (.vstr "x") none 0 ⟨[], 0, [], 0⟩).2).2).1),
       (saveEntries "s" "i" 0 "f" .enil (0 + 1) none
         (save_values "s" "i" (.fcons "c" .enil .nil)
           (some (save_value "s" "i" "f" 0 (.vstr "x") none 0 ⟨[], 0, [], 0⟩).1.rowID)
           [] false 0
           (save_value "s" "i" "f" 0 (.vstr "x") none 0 ⟨[], 0, [], 0⟩).2).2).2) :=
  saveEntries_child_recursion "s" "i" "f" 0 (.vstr "x") "c" .enil .nil .enil 0 none
    ⟨[], 0, [], 0⟩ (by decide)

/-!
C1 — idempotence of a complete `save_values` run.
-/

/-- The field-pruning branch of `_mark_extra_metadata_as_deleted` (empty
    field name) written out. -/
theorem markExtra_empty_eq (src idS : String) (parent : Option Nat)
    (fields2 : List String) (t : Nat) (st : Store) :
    markExtraMetadataAsDeleted src idS parent "" 0 fields2 t st =
      (if fields2 ≠ [] then
        deleteWhere (fun r => r.source == src && r.idInSource == idS &&
          r.parentRowID == parent && !(fields2.contains r.field) && r.deleted == none) t st
      else
        match parent with
        | some pid => deleteWhere (fun r => r.source == src && r.idInSource == idS &&
            r.parentRowID == some pid && r.deleted == none) t st
        | none => st) := by
  rw [markExtraMetadataAsDeleted.eq_def, if_neg (by simp)]

/-- Re-running a soft-delete pass with an unchanged WHERE clause that
    excludes already-deleted rows is a no-op. -/
theorem deleteWhere_stable_id {p : Row → Bool} {t1 t2 : Nat} {st : Store}
    (hdel : ∀ r : Row, r.deleted ≠ none → p r = false) :
    deleteWhere p t2 (deleteWhere p t1 st) = deleteWhere p t1 st := by
  refine deleteWhere_id ?_
  intro r hr
  obtain ⟨x, hx, hc⟩ := deleteWhere_mem hr
  rcases hc with ⟨hpf, rfl⟩ | ⟨-, rfl⟩
  · exact hpf
  · exact hdel _ (by simp)

/-- The complete-record prune is idempotent across runs. -/
theorem markExtra_prune_idem (src idS : String) (parent : Option Nat)
    (fields2 : List String) (t1 t2 : Nat) (st : Store) :
    markExtraMetadataAsDeleted src idS parent "" 0 fields2 t2
      (markExtraMetadataAsDeleted src idS parent "" 0 fields2 t1 st) =
      markExtraMetadataAsDeleted src idS parent "" 0 fields2 t1 st := by
  by_cases hfs : fields2 ≠ []
  · rw [markExtra_empty_eq src idS parent fields2 t1 st, if_pos hfs]
    rw [markExtra_empty_eq src idS parent fields2 t2 _, if_pos hfs]
    refine deleteWhere_stable_id ?_
    intro r hd
    rw [Bool.eq_false_iff]
    intro hc
    simp only [Bool.and_eq_true, beq_iff_eq] at hc
    exact hd hc.2
  · rw [markExtra_empty_eq src idS parent fields2 t1 st, if_neg hfs]
    rw [markExtra_empty_eq src idS parent fields2 t2 _, if_neg hfs]
    match parent with
    | none => rfl
    | some pid =>
        refine deleteWhere_stable_id ?_
        intro r hd
        rw [Bool.eq_false_iff]
        intro hc
        simp only [Bool.and_eq_true, beq_iff_eq] at hc
        exact hd hc.2

/-- A fully stored record stays stored across the complete-record prune:
    the prune only touches rows outside the record's field set. -/
theorem StoredRep_prune {src idS : String} {rec : Rcd} {parent : Option Nat}
    {fields2 : List String} {t : Nat} {st : Store} {rep : List RItem}
    (hinv : Inv st) (hsub : fieldsOf rec ⊆ fields2)
    (hst : StoredRep src idS rec parent st rep) :
    StoredRep src idS rec parent
      (markExtraMetadataAsDeleted src idS parent "" 0 fields2 t st) rep := by
  refine (StoredRep_mono src idS (rsize rec)).1 rec parent st _ _ _ rep le_rfl hst
    (markExtra_evolves src idS parent "" 0 fields2 t st) ?_ ?_
  · intro r hr hd hroot hD
    obtain ⟨-, -, hp, hbr⟩ := hD
    have hf : r.field ∈ fieldsOf rec :=
      hroot.direct_field (WF_markExtra hinv.1).2.2 hp
    rcases hbr with ⟨hne, -, -⟩ | ⟨-, -, hnotin⟩ | ⟨-, hemp, -⟩
    · exact hne rfl
    · exact hnotin (hsub hf)
    · have := hsub hf
      rw [hemp] at this
      exact absurd this (List.not_mem_nil _)
  · intro y hy
    exact hy.elim

/-- C1: after a complete `save_values` run over a record, running the
    identical complete record again is a pure no-op: the store is returned
    exactly as it was (no row's value, deleted or replacedByRowID attribute
    changes) and the second report is the first one with every status
    replaced by Unchanged — same fields, places and rowIDs. -/
theorem save_values_idempotent (src idS : String) (rec : Rcd) (parent : Option Nat)
    (ignore : List String) (t1 t2 : Nat) (st : Store) (rep1 : List RItem) (st1 : Store)
    (hinv : Inv st) (hwf : wfRcd rec = true) (hpb : ParentBound parent st)
    (h1 : save_values src idS rec parent ignore true t1 st = (rep1, st1)) :
    save_values src idS rec parent ignore true t2 st1 =
      (rep1.map stampUnchanged, st1) := by
  rcases hsf : saveFields src idS t1 rec parent st with ⟨rep, fs, stA⟩
  rw [save_values_eq ignore true hsf, if_pos rfl] at h1
  injection h1 with hrep hst1
  obtain ⟨hfs, hinvA, hev, hstored, -⟩ :=
    (grand src idS t1 (rsize rec)).1 rec parent st rep fs stA le_rfl hsf hinv hwf hpb
  subst hfs
  have hstored1 : StoredRep src idS rec parent st1 (rep.map stampUnchanged) := by
    rw [← hst1]
    exact StoredRep_prune hinvA (List.subset_append_left _ _) hstored
  have hrun2 : saveFields src idS t2 rec parent st1 =
      (rep.map stampUnchanged, fieldsOf rec, st1) :=
    (stored_run src idS t2 (rsize rec)).1 rec parent st1 (rep.map stampUnchanged)
      le_rfl hwf hstored1
  rw [save_values_eq ignore true hrun2, if_pos rfl, ← hrep, ← hst1,
    markExtra_prune_idem]

theorem save_values_idempotent_witness :
    save_values "s" "i" (.fcons "dc.title" (.econs (.vstr "A") .nil .enil) .nil) none
      [] true 1
      ⟨[⟨0, "s", "i", none, "dc.title", 0, some "A", 0, none, none⟩], 1, [], 0⟩ =
      ([⟨"dc.title", 0, none, .unchanged, 0⟩],
       ⟨[⟨0, "s", "i", none, "dc.title", 0, some "A", 0, none, none⟩], 1, [], 0⟩) :=
  save_values_idempotent "s" "i" (.fcons "dc.title" (.econs (.vstr "A") .nil .enil) .nil)
    none [] 0 1 ⟨[], 0, [], 0⟩ [⟨"dc.title", 0, none, .new, 0⟩]
    ⟨[⟨0, "s", "i", none, "dc.title", 0, some "A", 0, none, none⟩], 1, [], 0⟩
    ⟨⟨by decide, by decide, by decide⟩, by unfold Uniq; decide⟩ (by decide)
    (by intro p hp; simp at hp)
    (by decide)

/-!
C8 — the new-identity formula of `_generate_new_id`.
-/

theorem filterMap_if_map {α β γ : Type} (c : α → Bool) (f : α → β) (g : β → γ) :
    ∀ l : List α, (l.filterMap fun r => if c r then some (g (f r)) else none) =
      (l.filterMap fun r => if c r then some (f r) else none).map g := by
  intro l
  induction l with
  | nil => rfl
  | cons a l ih =>
      by_cases h : c a = true
      · simp only [List.filterMap_cons, if_pos h, List.map_cons, ih]
      · simp only [List.filterMap_cons, if_neg h, ih]

/-- Computation `SUBSTRING(idInSource, LENGTH(source) + 2)` recovers the suffix of a
    canonically formed tracking id. -/
theorem substringFrom_canonical (src : String) (d : List Char) :
    substringFrom (src ++ "_" ++ String.mk d) (src.length + 1) = String.mk d := by
  rw [substringFrom]
  have h1 : (src ++ "_" ++ String.mk d).data = (src ++ "_").data ++ d := by
    rw [String.data_append]
  have h2 : (src ++ "_").data.length = src.length + 1 := by
    rw [String.data_append, List.length_append]
    rfl
  rw [h1, ← h2, List.drop_left]

theorem foldr_max_pos {ks : List Nat} (hne : ks ≠ []) (h1 : ∀ k ∈ ks, 1 ≤ k) :
    ks.foldr max 0 ≠ 0 := by
  match ks, hne with
  | k :: ks', _ =>
      have h3 := Nat.le_max_left k (ks'.foldr max 0)
      have h4 := h1 k (List.mem_cons_self _ _)
      have h5 : 0 < (k :: ks').foldr max 0 := lt_of_lt_of_le h4 h3
      exact Nat.pos_iff_ne_zero.mp h5

/-- C8: when the current tracking-source idInSource values matched by the
    `LIKE '{source}_%'` scan are exactly the canonical ids `{src}_{k}` with
    positive numeric suffixes, `_generate_new_id` yields `{src}_{n}` where n
    is one plus the maximum suffix, or 1 when no matching id exists. -/
theorem generate_new_id_formula (src : String) (st : Store) (ds : List (List Char))
    (hmatch : (st.rows.filterMap fun r =>
        if r.source == "irts" && likeMatch src r.idInSource then some r.idInSource
        else none) = ds.map (fun d => src ++ "_" ++ String.mk d))
    (hpos : ∀ d ∈ ds, 1 ≤ parseDigits d 0) :
    generate_new_id src st =
      src ++ "_" ++ toString (if ds = [] then 1
        else (ds.map fun d => parseDigits d 0).foldr max 0 + 1) := by
  have hv : (st.rows.filterMap fun r =>
      if r.source == "irts" && likeMatch src r.idInSource then
        some (castUnsigned (substringFrom r.idInSource (src.length + 1)))
      else none) =
      (ds.map fun d => parseDigits d 0) := by
    rw [filterMap_if_map (fun r => r.source == "irts" && likeMatch src r.idInSource)
      (fun r => r.idInSource)
      (fun s => castUnsigned (substringFrom s (src.length + 1))) st.rows]
    rw [hmatch, List.map_map]
    refine List.map_congr_left ?_
    intro d hd
    simp only [Function.comp]
    rw [substringFrom_canonical]
    rfl
  simp only [generate_new_id, hv]
  by_cases hds : ds = []
  · subst hds
    rfl
  · rw [if_neg hds]
    have hne : (ds.map fun d => parseDigits d 0) ≠ [] := by
      intro h
      exact hds (List.map_eq_nil_iff.mp h)
    have hpos2 : ∀ k ∈ (ds.map fun d => parseDigits d 0), 1 ≤ k := by
      intro k hk
      obtain ⟨d, hd, rfl⟩ := List.mem_map.mp hk
      exact hpos d hd
    rw [if_pos (foldr_max_pos hne hpos2)]

theorem generate_new_id_formula_witness :
    generate_new_id "arxiv" ⟨[⟨0, "irts", "arxiv_3", none, "f", 0, none, 0, none, none⟩],
        1, [], 0⟩ =
      "arxiv" ++ "_" ++ toString (if ([['3']] : List (List Char)) = [] then 1
        else ([['3']].map fun d => parseDigits d 0).foldr max 0 + 1) :=
  generate_new_id_formula "arxiv"
    ⟨[⟨0, "irts", "arxiv_3", none, "f", 0, none, 0, none, none⟩], 1, [], 0⟩
    [['3']] (by decide) (by decide)

/-!
C7 — admission dedup; the title-dedup branch crashes.
-/

/-- C7 (code bug): the dedup round-trip — Admitted with a fresh identity on
    the first call, AlreadyTracked ("existing") with no identity and an
    untouched store on the second — holds only for items that never enter the
    title-dedup branch (here: an item carrying a DOI, second and third
    conjuncts).  An item with a title and a type but no DOI takes the branch
    at base.py:141-157, whose first statement
    `self.db.connect().escape_string(title)` raises AttributeError — a
    `sqlite3.Connection` has no `escape_string` — so for such items the call
    crashes instead of returning a status (first conjunct). -/
theorem add_to_process_dedup_and_crash :
    add_to_process "src1" "i1" "dc.identifier.other" none 0
      ⟨[⟨0, "src1", "i1", none, "dc.title", 0, some "T", 0, none, none⟩,
        ⟨1, "src1", "i1", none, "dc.type", 0, some "article", 0, none, none⟩],
        2, [], 0⟩ = .error () ∧
    add_to_process "src1" "i1" "dc.identifier.arxivid" none 0
      ⟨[⟨0, "src1", "i1", none, "dc.identifier.doi", 0, some "10.1/x", 0, none, none⟩],
        1, [], 0⟩ =
      .ok (⟨"inProcess", "src1_1"⟩,
       ⟨[⟨0, "src1", "i1", none, "dc.identifier.doi", 0, some "10.1/x", 0, none, none⟩,
         ⟨1, "irts", "src1_1", none, "irts.source", 1, some "src1", 0, none, none⟩,
         ⟨2, "irts", "src1_1", some 1, "irts.idInSource", 1, some "i1", 0, none, none⟩,
         ⟨3, "irts", "src1_1", none, "dc.type", 1, none, 0, none, none⟩,
         ⟨4, "irts", "src1_1", none, "irts.status", 1, some "inProcess", 0, none, none⟩,
         ⟨5, "irts", "src1_1", none, "dc.identifier.arxivid", 1, some "i1", 0, none, none⟩,
         ⟨6, "irts", "src1_1", none, "dc.title", 1, none, 0, none, none⟩,
         ⟨7, "irts", "src1_1", none, "dc.date.issued", 1, none, 0, none, none⟩,
         ⟨8, "irts", "src1_1", none, "dc.identifier.doi", 1, some "10.1/x", 0, none, none⟩],
        9, [], 0⟩) ∧
    add_to_process "src1" "i1" "dc.identifier.arxivid" none 3
      ⟨[⟨0, "src1", "i1", none, "dc.identifier.doi", 0, some "10.1/x", 0, none, none⟩,
         ⟨1, "irts", "src1_1", none, "irts.source", 1, some "src1", 0, none, none⟩,
         ⟨2, "irts", "src1_1", some 1, "irts.idInSource", 1, some "i1", 0, none, none⟩,
         ⟨3, "irts", "src1_1", none, "dc.type", 1, none, 0, none, none⟩,
         ⟨4, "irts", "src1_1", none, "irts.status", 1, some "inProcess", 0, none, none⟩,
         ⟨5, "irts", "src1_1", none, "dc.identifier.arxivid", 1, some "i1", 0, none, none⟩,
         ⟨6, "irts", "src1_1", none, "dc.title", 1, none, 0, none, none⟩,
         ⟨7, "irts", "src1_1", none, "dc.date.issued", 1, none, 0, none, none⟩,
         ⟨8, "irts", "src1_1", none, "dc.identifier.doi", 1, some "10.1/x", 0, none, none⟩],
        9, [], 0⟩ =
      .ok (⟨"existing", ""⟩,
       ⟨[⟨0, "src1", "i1", none, "dc.identifier.doi", 0, some "10.1/x", 0, none, none⟩,
         ⟨1, "irts", "src1_1", none, "irts.source", 1, some "src1", 0, none, none⟩,
         ⟨2, "irts", "src1_1", some 1, "irts.idInSource", 1, some "i1", 0, none, none⟩,
         ⟨3, "irts", "src1_1", none, "dc.type", 1, none, 0, none, none⟩,
         ⟨4, "irts", "src1_1", none, "irts.status", 1, some "inProcess", 0, none, none⟩,
         ⟨5, "irts", "src1_1", none, "dc.identifier.arxivid", 1, some "i1", 0, none, none⟩,
         ⟨6, "irts", "src1_1", none, "dc.title", 1, none, 0, none, none⟩,
         ⟨7, "irts", "src1_1", none, "dc.date.issued", 1, none, 0, none, none⟩,
         ⟨8, "irts", "src1_1", none, "dc.identifier.doi", 1, some "10.1/x", 0, none, none⟩],
        9, [], 0⟩) := by
  refine ⟨rfl, rfl, rfl⟩

/-!
Admission-write structure (base.py:175-196), shared by the place and the
nesting claims.
-/

theorem rowMatches_false_of_fresh {idInIrts : String} {parent : Option Nat}
    {field : String} {place : Nat} {r : Row}
    (hfr : r.source = "irts" → r.idInSource = idInIrts → r.deleted ≠ none) :
    rowMatches "irts" idInIrts parent field place r = false := by
  rw [Bool.eq_false_iff]
  intro hc
  obtain ⟨h1, h2, -, -, -, h6⟩ := rowMatches_iff.mp hc
  exact hfr h1 h2 h6

/-- The write block of an admission: with a fresh tracking identity it is a
    pure append of one row per written field, each built by the insert branch
    of `save_value` at place 1; `irts.idInSource` is parented under the
    `irts.source` row, everything else is top-level. -/
theorem admissionWrites_shape (selfSource idInIrts idInSource idField : String)
    (typeValue title dateIssued doi harvestBasis : Option String) (t : Nat) (st : Store)
    (hfresh : ∀ r ∈ st.rows, r.source = "irts" → r.idInSource = idInIrts →
      r.deleted ≠ none)
    (hid : idField ∉ ["irts.source", "irts.idInSource", "dc.type", "irts.status",
      "dc.title", "dc.date.issued", "irts.harvest.basis"]) :
    ∃ tail,
      (admissionWrites selfSource idInIrts idInSource idField typeValue title dateIssued
        doi harvestBasis t st).rows =
        st.rows ++
          (newRow "irts" idInIrts none "irts.source" 1 (normVal (.vstr selfSource)) t st.nextRowID ::
           newRow "irts" idInIrts (some st.nextRowID) "irts.idInSource" 1 (normVal (.vstr idInSource)) t (st.nextRowID + 1) ::
           newRow "irts" idInIrts none "dc.type" 1 (normVal (optEVal typeValue)) t (st.nextRowID + 2) ::
           newRow "irts" idInIrts none "irts.status" 1 (normVal (.vstr "inProcess")) t (st.nextRowID + 3) ::
           newRow "irts" idInIrts none idField 1 (normVal (.vstr idInSource)) t (st.nextRowID + 4) ::
           newRow "irts" idInIrts none "dc.title" 1 (normVal (optEVal title)) t (st.nextRowID + 5) ::
           newRow "irts" idInIrts none "dc.date.issued" 1 (normVal (optEVal dateIssued)) t (st.nextRowID + 6) ::
           tail) ∧
      ∀ y ∈ tail, y.source = "irts" ∧ y.idInSource = idInIrts ∧ y.parentRowID = none ∧
        y.place = 1 ∧ y.deleted = none ∧ y.replacedByRowID = none ∧
        (y.field = "dc.identifier.doi" ∨ y.field = "irts.harvest.basis") := by
  have hidf : ∀ f ∈ (["irts.source", "irts.idInSource", "dc.type", "irts.status",
      "dc.title", "dc.date.issued", "irts.harvest.basis"] : List String), idField ≠ f :=
    fun f hf he => hid (he ▸ hf)
  have h1 : save_value "irts" idInIrts "irts.source" 1 (.vstr selfSource) none t
      st =
      (⟨st.nextRowID, .new⟩,
       ⟨(st.rows ++ [newRow "irts" idInIrts none "irts.source" 1 (normVal (.vstr selfSource)) t st.nextRowID]), st.nextRowID + 1, st.srows, st.nextSRowID⟩) := by
    refine save_value_eq_new (findCurrent_none_of ?_)
    intro r hr
    exact rowMatches_false_of_fresh (hfresh r hr)
  have h2 : save_value "irts" idInIrts "irts.idInSource" 1 (.vstr idInSource) (some st.nextRowID) t
      ⟨(st.rows ++ [newRow "irts" idInIrts none "irts.source" 1 (normVal (.vstr selfSource)) t st.nextRowID]), st.nextRowID + 1, st.srows, st.nextSRowID⟩ =
      (⟨st.nextRowID + 1, .new⟩,
       ⟨((st.rows ++ [newRow "irts" idInIrts none "irts.source" 1 (normVal (.vstr selfSource)) t st.nextRowID]) ++ [newRow "irts" idInIrts (some st.nextRowID) "irts.idInSource" 1 (normVal (.vstr idInSource)) t (st.nextRowID + 1)]), st.nextRowID + 2, st.srows, st.nextSRowID⟩) := by
    refine save_value_eq_new (findCurrent_none_of ?_)
    intro r hr
    simp only [List.mem_append, List.mem_singleton] at hr
    rcases hr with (hr | rfl)
    · exact rowMatches_false_of_fresh (hfresh r hr)
    · exact rowMatches_false_of_field (show ("irts.source" : String) ≠ "irts.idInSource" by decide)
  have h3 : save_value "irts" idInIrts "dc.type" 1 (optEVal typeValue) none t
      ⟨((st.rows ++ [newRow "irts" idInIrts none "irts.source" 1 (normVal (.vstr selfSource)) t st.nextRowID]) ++ [newRow "irts" idInIrts (some st.nextRowID) "irts.idInSource" 1 (normVal (.vstr idInSource)) t (st.nextRowID + 1)]), st.nextRowID + 2, st.srows, st.nextSRowID⟩ =
      (⟨st.nextRowID + 2, .new⟩,
       ⟨(((st.rows ++ [newRow "irts" idInIrts none "irts.source" 1 (normVal (.vstr selfSource)) t st.nextRowID]) ++ [newRow "irts" idInIrts (some st.nextRowID) "irts.idInSource" 1 (normVal (.vstr idInSource)) t (st.nextRowID + 1)]) ++ [newRow "irts" idInIrts none "dc.type" 1 (normVal (optEVal typeValue)) t (st.nextRowID + 2)]), st.nextRowID + 3, st.srows, st.nextSRowID⟩) := by
    refine save_value_eq_new (findCurrent_none_of ?_)
    intro r hr
    simp only [List.mem_append, List.mem_singleton] at hr
    rcases hr with ((hr | rfl) | rfl)
    · exact rowMatches_false_of_fresh (hfresh r hr)
    · exact rowMatches_false_of_field (show ("irts.source" : String) ≠ "dc.type" by decide)
    · exact rowMatches_false_of_field (show ("irts.idInSource" : String) ≠ "dc.type" by decide)
  have h4 : save_value "irts" idInIrts "irts.status" 1 (.vstr "inProcess") none t
      ⟨(((st.rows ++ [newRow "irts" idInIrts none "irts.source" 1 (normVal (.vstr selfSource)) t st.nextRowID]) ++ [newRow "irts" idInIrts (some st.nextRowID) "irts.idInSource" 1 (normVal (.vstr idInSource)) t (st.nextRowID + 1)]) ++ [newRow "irts" idInIrts none "dc.type" 1 (normVal (optEVal typeValue)) t (st.nextRowID + 2)]), st.nextRowID + 3, st.srows, st.nextSRowID⟩ =
      (⟨st.nextRowID + 3, .new⟩,
       ⟨((((st.rows ++ [newRow "irts" idInIrts none "irts.source" 1 (normVal (.vstr selfSource)) t st.nextRowID]) ++ [newRow "irts" idInIrts (some st.nextRowID) "irts.idInSource" 1 (normVal (.vstr idInSource)) t (st.nextRowID + 1)]) ++ [newRow "irts" idInIrts none "dc.type" 1 (normVal (optEVal typeValue)) t (st.nextRowID + 2)]) ++ [newRow "irts" idInIrts none "irts.status" 1 (normVal (.vstr "inProcess")) t (st.nextRowID + 3)]), st.nextRowID + 4, st.srows, st.nextSRowID⟩) := by
    refine save_value_eq_new (findCurrent_none_of ?_)
    intro r hr
    simp only [List.mem_append, List.mem_singleton] at hr
    rcases hr with (((hr | rfl) | rfl) | rfl)
    · exact rowMatches_false_of_fresh (hfresh r hr)
    · exact rowMatches_false_of_field (show ("irts.source" : String) ≠ "irts.status" by decide)
    · exact rowMatches_false_of_field (show ("irts.idInSource" : String) ≠ "irts.status" by decide)
    · exact rowMatches_false_of_field (show ("dc.type" : String) ≠ "irts.status" by decide)
  have h5 : save_value "irts" idInIrts idField 1 (.vstr idInSource) none t
      ⟨((((st.rows ++ [newRow "irts" idInIrts none "irts.source" 1 (normVal (.vstr selfSource)) t st.nextRowID]) ++ [newRow "irts" idInIrts (some st.nextRowID) "irts.idInSource" 1 (normVal (.vstr idInSource)) t (st.nextRowID + 1)]) ++ [newRow "irts" idInIrts none "dc.type" 1 (normVal (optEVal typeValue)) t (st.nextRowID + 2)]) ++ [newRow "irts" idInIrts none "irts.status" 1 (normVal (.vstr "inProcess")) t (st.nextRowID + 3)]), st.nextRowID + 4, st.srows, st.nextSRowID⟩ =
      (⟨st.nextRowID + 4, .new⟩,
       ⟨(((((st.rows ++ [newRow "irts" idInIrts none "irts.source" 1 (normVal (.vstr selfSource)) t st.nextRowID]) ++ [newRow "irts" idInIrts (some st.nextRowID) "irts.idInSource" 1 (normVal (.vstr idInSource)) t (st.nextRowID + 1)]) ++ [newRow "irts" idInIrts none "dc.type" 1 (normVal (optEVal typeValue)) t (st.nextRowID + 2)]) ++ [newRow "irts" idInIrts none "irts.status" 1 (normVal (.vstr "inProcess")) t (st.nextRowID + 3)]) ++ [newRow "irts" idInIrts none idField 1 (normVal (.vstr idInSource)) t (st.nextRowID + 4)]), st.nextRowID + 5, st.srows, st.nextSRowID⟩) := by
    refine save_value_eq_new (findCurrent_none_of ?_)
    intro r hr
    simp only [List.mem_append, List.mem_singleton] at hr
    rcases hr with ((((hr | rfl) | rfl) | rfl) | rfl)
    · exact rowMatches_false_of_fresh (hfresh r hr)
    · exact rowMatches_false_of_field (Ne.symm (hidf "irts.source" (by decide)))
    · exact rowMatches_false_of_field (Ne.symm (hidf "irts.idInSource" (by decide)))
    · exact rowMatches_false_of_field (Ne.symm (hidf "dc.type" (by decide)))
    · exact rowMatches_false_of_field (Ne.symm (hidf "irts.status" (by decide)))
  have h6 : save_value "irts" idInIrts "dc.title" 1 (optEVal title) none t
      ⟨(((((st.rows ++ [newRow "irts" idInIrts none "irts.source" 1 (normVal (.vstr selfSource)) t st.nextRowID]) ++ [newRow "irts" idInIrts (some st.nextRowID) "irts.idInSource" 1 (normVal (.vstr idInSource)) t (st.nextRowID + 1)]) ++ [newRow "irts" idInIrts none "dc.type" 1 (normVal (optEVal typeValue)) t (st.nextRowID + 2)]) ++ [newRow "irts" idInIrts none "irts.status" 1 (normVal (.vstr "inProcess")) t (st.nextRowID + 3)]) ++ [newRow "irts" idInIrts none idField 1 (normVal (.vstr idInSource)) t (st.nextRowID + 4)]), st.nextRowID + 5, st.srows, st.nextSRowID⟩ =
      (⟨st.nextRowID + 5, .new⟩,
       ⟨((((((st.rows ++ [newRow "irts" idInIrts none "irts.source" 1 (normVal (.vstr selfSource)) t st.nextRowID]) ++ [newRow "irts" idInIrts (some st.nextRowID) "irts.idInSource" 1 (normVal (.vstr idInSource)) t (st.nextRowID + 1)]) ++ [newRow "irts" idInIrts none "dc.type" 1 (normVal (optEVal typeValue)) t (st.nextRowID + 2)]) ++ [newRow "irts" idInIrts none "irts.status" 1 (normVal (.vstr "inProcess")) t (st.nextRowID + 3)]) ++ [newRow "irts" idInIrts none idField 1 (normVal (.vstr idInSource)) t (st.nextRowID + 4)]) ++ [newRow "irts" idInIrts none "dc.title" 1 (normVal (optEVal title)) t (st.nextRowID + 5)]), st.nextRowID + 6, st.srows, st.nextSRowID⟩) := by
    refine save_value_eq_new (findCurrent_none_of ?_)
    intro r hr
    simp only [List.mem_append, List.mem_singleton] at hr
    rcases hr with (((((hr | rfl) | rfl) | rfl) | rfl) | rfl)
    · exact rowMatches_false_of_fresh (hfresh r hr)
    · exact rowMatches_false_of_field (show ("irts.source" : String) ≠ "dc.title" by decide)
    · exact rowMatches_false_of_field (show ("irts.idInSource" : String) ≠ "dc.title" by decide)
    · exact rowMatches_false_of_field (show ("dc.type" : String) ≠ "dc.title" by decide)
    · exact rowMatches_false_of_field (show ("irts.status" : String) ≠ "dc.title" by decide)
    · exact rowMatches_false_of_field (hidf "dc.title" (by decide))
  have h7 : save_value "irts" idInIrts "dc.date.issued" 1 (optEVal dateIssued) none t
      ⟨((((((st.rows ++ [newRow "irts" idInIrts none "irts.source" 1 (normVal (.vstr selfSource)) t st.nextRowID]) ++ [newRow "irts" idInIrts (some st.nextRowID) "irts.idInSource" 1 (normVal (.vstr idInSource)) t (st.nextRowID + 1)]) ++ [newRow "irts" idInIrts none "dc.type" 1 (normVal (optEVal typeValue)) t (st.nextRowID + 2)]) ++ [newRow "irts" idInIrts none "irts.status" 1 (normVal (.vstr "inProcess")) t (st.nextRowID + 3)]) ++ [newRow "irts" idInIrts none idField 1 (normVal (.vstr idInSource)) t (st.nextRowID + 4)]) ++ [newRow "irts" idInIrts none "dc.title" 1 (normVal (optEVal title)) t (st.nextRowID + 5)]), st.nextRowID + 6, st.srows, st.nextSRowID⟩ =
      (⟨st.nextRowID + 6, .new⟩,
       ⟨(((((((st.rows ++ [newRow "irts" idInIrts none "irts.source" 1 (normVal (.vstr selfSource)) t st.nextRowID]) ++ [newRow "irts" idInIrts (some st.nextRowID) "irts.idInSource" 1 (normVal (.vstr idInSource)) t (st.nextRowID + 1)]) ++ [newRow "irts" idInIrts none "dc.type" 1 (normVal (optEVal typeValue)) t (st.nextRowID + 2)]) ++ [newRow "irts" idInIrts none "irts.status" 1 (normVal (.vstr "inProcess")) t (st.nextRowID + 3)]) ++ [newRow "irts" idInIrts none idField 1 (normVal (.vstr idInSource)) t (st.nextRowID + 4)]) ++ [newRow "irts" idInIrts none "dc.title" 1 (normVal (optEVal title)) t (st.nextRowID + 5)]) ++ [newRow "irts" idInIrts none "dc.date.issued" 1 (normVal (optEVal dateIssued)) t (st.nextRowID + 6)]), st.nextRowID + 7, st.srows, st.nextSRowID⟩) := by
    refine save_value_eq_new (findCurrent_none_of ?_)
    intro r hr
    simp only [List.mem_append, List.mem_singleton] at hr
    rcases hr with ((((((hr | rfl) | rfl) | rfl) | rfl) | rfl) | rfl)
    · exact rowMatches_false_of_fresh (hfresh r hr)
    · exact rowMatches_false_of_field (show ("irts.source" : String) ≠ "dc.date.issued" by decide)
    · exact rowMatches_false_of_field (show ("irts.idInSource" : String) ≠ "dc.date.issued" by decide)
    · exact rowMatches_false_of_field (show ("dc.type" : String) ≠ "dc.date.issued" by decide)
    · exact rowMatches_false_of_field (show ("irts.status" : String) ≠ "dc.date.issued" by decide)
    · exact rowMatches_false_of_field (hidf "dc.date.issued" (by decide))
    · exact rowMatches_false_of_field (show ("dc.title" : String) ≠ "dc.date.issued" by decide)
  by_cases hdoi : (truthy doi && decide (idField ≠ "dc.identifier.doi")) = true
  · have hdoine : idField ≠ "dc.identifier.doi" := by
      simp only [Bool.and_eq_true, decide_eq_true_eq] at hdoi
      exact hdoi.2
    have h8 : save_value "irts" idInIrts "dc.identifier.doi" 1 (optEVal doi) none t
        ⟨(((((((st.rows ++ [newRow "irts" idInIrts none "irts.source" 1 (normVal (.vstr selfSource)) t st.nextRowID]) ++ [newRow "irts" idInIrts (some st.nextRowID) "irts.idInSource" 1 (normVal (.vstr idInSource)) t (st.nextRowID + 1)]) ++ [newRow "irts" idInIrts none "dc.type" 1 (normVal (optEVal typeValue)) t (st.nextRowID + 2)]) ++ [newRow "irts" idInIrts none "irts.status" 1 (normVal (.vstr "inProcess")) t (st.nextRowID + 3)]) ++ [newRow "irts" idInIrts none idField 1 (normVal (.vstr idInSource)) t (st.nextRowID + 4)]) ++ [newRow "irts" idInIrts none "dc.title" 1 (normVal (optEVal title)) t (st.nextRowID + 5)]) ++ [newRow "irts" idInIrts none "dc.date.issued" 1 (normVal (optEVal dateIssued)) t (st.nextRowID + 6)]), st.nextRowID + 7, st.srows, st.nextSRowID⟩ =
        (⟨st.nextRowID + 7, .new⟩,
         ⟨((((((((st.rows ++ [newRow "irts" idInIrts none "irts.source" 1 (normVal (.vstr selfSource)) t st.nextRowID]) ++ [newRow "irts" idInIrts (some st.nextRowID) "irts.idInSource" 1 (normVal (.vstr idInSource)) t (st.nextRowID + 1)]) ++ [newRow "irts" idInIrts none "dc.type" 1 (normVal (optEVal typeValue)) t (st.nextRowID + 2)]) ++ [newRow "irts" idInIrts none "irts.status" 1 (normVal (.vstr "inProcess")) t (st.nextRowID + 3)]) ++ [newRow "irts" idInIrts none idField 1 (normVal (.vstr idInSource)) t (st.nextRowID + 4)]) ++ [newRow "irts" idInIrts none "dc.title" 1 (normVal (optEVal title)) t (st.nextRowID + 5)]) ++ [newRow "irts" idInIrts none "dc.date.issued" 1 (normVal (optEVal dateIssued)) t (st.nextRowID + 6)]) ++ [newRow "irts" idInIrts none "dc.identifier.doi" 1 (normVal (optEVal doi)) t (st.nextRowID + 7)]), st.nextRowID + 8, st.srows, st.nextSRowID⟩) := by
      refine save_value_eq_new (findCurrent_none_of ?_)
      intro r hr
      simp only [List.mem_append, List.mem_singleton] at hr
      rcases hr with (((((((hr | rfl) | rfl) | rfl) | rfl) | rfl) | rfl) | rfl)
      · exact rowMatches_false_of_fresh (hfresh r hr)
      · exact rowMatches_false_of_field (show ("irts.source" : String) ≠ "dc.identifier.doi" by decide)
      · exact rowMatches_false_of_field (show ("irts.idInSource" : String) ≠ "dc.identifier.doi" by decide)
      · exact rowMatches_false_of_field (show ("dc.type" : String) ≠ "dc.identifier.doi" by decide)
      · exact rowMatches_false_of_field (show ("irts.status" : String) ≠ "dc.identifier.doi" by decide)
      · exact rowMatches_false_of_field hdoine
      · exact rowMatches_false_of_field (show ("dc.title" : String) ≠ "dc.identifier.doi" by decide)
      · exact rowMatches_false_of_field (show ("dc.date.issued" : String) ≠ "dc.identifier.doi" by decide)
    by_cases hbasis : truthy harvestBasis = true
    · -- doi and basis both written
      have h9a : save_value "irts" idInIrts "irts.harvest.basis" 1 (optEVal harvestBasis) none t
          ⟨((((((((st.rows ++ [newRow "irts" idInIrts none "irts.source" 1 (normVal (.vstr selfSource)) t st.nextRowID]) ++ [newRow "irts" idInIrts (some st.nextRowID) "irts.idInSource" 1 (normVal (.vstr idInSource)) t (st.nextRowID + 1)]) ++ [newRow "irts" idInIrts none "dc.type" 1 (normVal (optEVal typeValue)) t (st.nextRowID + 2)]) ++ [newRow "irts" idInIrts none "irts.status" 1 (normVal (.vstr "inProcess")) t (st.nextRowID + 3)]) ++ [newRow "irts" idInIrts none idField 1 (normVal (.vstr idInSource)) t (st.nextRowID + 4)]) ++ [newRow "irts" idInIrts none "dc.title" 1 (normVal (optEVal title)) t (st.nextRowID + 5)]) ++ [newRow "irts" idInIrts none "dc.date.issued" 1 (normVal (optEVal dateIssued)) t (st.nextRowID + 6)]) ++ [newRow "irts" idInIrts none "dc.identifier.doi" 1 (normVal (optEVal doi)) t (st.nextRowID + 7)]), st.nextRowID + 8, st.srows, st.nextSRowID⟩ =
          (⟨st.nextRowID + 8, .new⟩,
           ⟨(((((((((st.rows ++ [newRow "irts" idInIrts none "irts.source" 1 (normVal (.vstr selfSource)) t st.nextRowID]) ++ [newRow "irts" idInIrts (some st.nextRowID) "irts.idInSource" 1 (normVal (.vstr idInSource)) t (st.nextRowID + 1)]) ++ [newRow "irts" idInIrts none "dc.type" 1 (normVal (optEVal typeValue)) t (st.nextRowID + 2)]) ++ [newRow "irts" idInIrts none "irts.status" 1 (normVal (.vstr "inProcess")) t (st.nextRowID + 3)]) ++ [newRow "irts" idInIrts none idField 1 (normVal (.vstr idInSource)) t (st.nextRowID + 4)]) ++ [newRow "irts" idInIrts none "dc.title" 1 (normVal (optEVal title)) t (st.nextRowID + 5)]) ++ [newRow "irts" idInIrts none "dc.date.issued" 1 (normVal (optEVal dateIssued)) t (st.nextRowID + 6)]) ++ [newRow "irts" idInIrts none "dc.identifier.doi" 1 (normVal (optEVal doi)) t (st.nextRowID + 7)]) ++ [newRow "irts" idInIrts none "irts.harvest.basis" 1 (normVal (optEVal harvestBasis)) t (st.nextRowID + 8)]), st.nextRowID + 9, st.srows, st.nextSRowID⟩) := by
        refine save_value_eq_new (findCurrent_none_of ?_)
        intro r hr
        simp only [List.mem_append, List.mem_singleton] at hr
        rcases hr with ((((((((hr | rfl) | rfl) | rfl) | rfl) | rfl) | rfl) | rfl) | rfl)
        · exact rowMatches_false_of_fresh (hfresh r hr)
        · exact rowMatches_false_of_field (show ("irts.source" : String) ≠ "irts.harvest.basis" by decide)
        · exact rowMatches_false_of_field (show ("irts.idInSource" : String) ≠ "irts.harvest.basis" by decide)
        · exact rowMatches_false_of_field (show ("dc.type" : String) ≠ "irts.harvest.basis" by decide)
        · exact rowMatches_false_of_field (show ("irts.status" : String) ≠ "irts.harvest.basis" by decide)
        · exact rowMatches_false_of_field (hidf "irts.harvest.basis" (by decide))
        · exact rowMatches_false_of_field (show ("dc.title" : String) ≠ "irts.harvest.basis" by decide)
        · exact rowMatches_false_of_field (show ("dc.date.issued" : String) ≠ "irts.harvest.basis" by decide)
        · exact rowMatches_false_of_field (show ("dc.identifier.doi" : String) ≠ "irts.harvest.basis" by decide)
      refine ⟨[newRow "irts" idInIrts none "dc.identifier.doi" 1 (normVal (optEVal doi)) t (st.nextRowID + 7), newRow "irts" idInIrts none "irts.harvest.basis" 1 (normVal (optEVal harvestBasis)) t (st.nextRowID + 8)], ?_, ?_⟩
      · simp only [admissionWrites]
        rw [h1]
        dsimp only
        rw [h2]
        dsimp only
        rw [h3]
        dsimp only
        rw [h4]
        dsimp only
        rw [h5]
        dsimp only
        rw [h6]
        dsimp only
        rw [h7]
        dsimp only
        rw [if_pos hdoi, h8]
        dsimp only
        rw [if_pos hbasis, h9a]
        simp [List.append_assoc]
      · intro y hy
        simp only [List.mem_cons, List.not_mem_nil, or_false] at hy
        rcases hy with rfl | rfl
        · exact ⟨rfl, rfl, rfl, rfl, rfl, rfl, Or.inl rfl⟩
        · exact ⟨rfl, rfl, rfl, rfl, rfl, rfl, Or.inr rfl⟩
    · -- doi written, basis not
      refine ⟨[newRow "irts" idInIrts none "dc.identifier.doi" 1 (normVal (optEVal doi)) t (st.nextRowID + 7)], ?_, ?_⟩
      · simp only [admissionWrites]
        rw [h1]
        dsimp only
        rw [h2]
        dsimp only
        rw [h3]
        dsimp only
        rw [h4]
        dsimp only
        rw [h5]
        dsimp only
        rw [h6]
        dsimp only
        rw [h7]
        dsimp only
        rw [if_pos hdoi, h8]
        dsimp only
        rw [if_neg hbasis]
        simp [List.append_assoc]
      · intro y hy
        simp only [List.mem_singleton] at hy
        subst hy
        exact ⟨rfl, rfl, rfl, rfl, rfl, rfl, Or.inl rfl⟩
  · by_cases hbasis : truthy harvestBasis = true
    · -- basis written, doi not
      have h9b : save_value "irts" idInIrts "irts.harvest.basis" 1 (optEVal harvestBasis) none t
          ⟨(((((((st.rows ++ [newRow "irts" idInIrts none "irts.source" 1 (normVal (.vstr selfSource)) t st.nextRowID]) ++ [newRow "irts" idInIrts (some st.nextRowID) "irts.idInSource" 1 (normVal (.vstr idInSource)) t (st.nextRowID + 1)]) ++ [newRow "irts" idInIrts none "dc.type" 1 (normVal (optEVal typeValue)) t (st.nextRowID + 2)]) ++ [newRow "irts" idInIrts none "irts.status" 1 (normVal (.vstr "inProcess")) t (st.nextRowID + 3)]) ++ [newRow "irts" idInIrts none idField 1 (normVal (.vstr idInSource)) t (st.nextRowID + 4)]) ++ [newRow "irts" idInIrts none "dc.title" 1 (normVal (optEVal title)) t (st.nextRowID + 5)]) ++ [newRow "irts" idInIrts none "dc.date.issued" 1 (normVal (optEVal dateIssued)) t (st.nextRowID + 6)]), st.nextRowID + 7, st.srows, st.nextSRowID⟩ =
          (⟨st.nextRowID + 7, .new⟩,
           ⟨((((((((st.rows ++ [newRow "irts" idInIrts none "irts.source" 1 (normVal (.vstr selfSource)) t st.nextRowID]) ++ [newRow "irts" idInIrts (some st.nextRowID) "irts.idInSource" 1 (normVal (.vstr idInSource)) t (st.nextRowID + 1)]) ++ [newRow "irts" idInIrts none "dc.type" 1 (normVal (optEVal typeValue)) t (st.nextRowID + 2)]) ++ [newRow "irts" idInIrts none "irts.status" 1 (normVal (.vstr "inProcess")) t (st.nextRowID + 3)]) ++ [newRow "irts" idInIrts none idField 1 (normVal (.vstr idInSource)) t (st.nextRowID + 4)]) ++ [newRow "irts" idInIrts none "dc.title" 1 (normVal (optEVal title)) t (st.nextRowID + 5)]) ++ [newRow "irts" idInIrts none "dc.date.issued" 1 (normVal (optEVal dateIssued)) t (st.nextRowID + 6)]) ++ [newRow "irts" idInIrts none "irts.harvest.basis" 1 (normVal (optEVal harvestBasis)) t (st.nextRowID + 7)]), st.nextRowID + 8, st.srows, st.nextSRowID⟩) := by
        refine save_value_eq_new (findCurrent_none_of ?_)
        intro r hr
        simp only [List.mem_append, List.mem_singleton] at hr
        rcases hr with (((((((hr | rfl) | rfl) | rfl) | rfl) | rfl) | rfl) | rfl)
        · exact rowMatches_false_of_fresh (hfresh r hr)
        · exact rowMatches_false_of_field (show ("irts.source" : String) ≠ "irts.harvest.basis" by decide)
        · exact rowMatches_false_of_field (show ("irts.idInSource" : String) ≠ "irts.harvest.basis" by decide)
        · exact rowMatches_false_of_field (show ("dc.type" : String) ≠ "irts.harvest.basis" by decide)
        · exact rowMatches_false_of_field (show ("irts.status" : String) ≠ "irts.harvest.basis" by decide)
        · exact rowMatches_false_of_field (hidf "irts.harvest.basis" (by decide))
        · exact rowMatches_false_of_field (show ("dc.title" : String) ≠ "irts.harvest.basis" by decide)
        · exact rowMatches_false_of_field (show ("dc.date.issued" : String) ≠ "irts.harvest.basis" by decide)
      refine ⟨[newRow "irts" idInIrts none "irts.harvest.basis" 1 (normVal (optEVal harvestBasis)) t (st.nextRowID + 7)], ?_, ?_⟩
      · simp only [admissionWrites]
        rw [h1]
        dsimp only
        rw [h2]
        dsimp only
        rw [h3]
        dsimp only
        rw [h4]
        dsimp only
        rw [h5]
        dsimp only
        rw [h6]
        dsimp only
        rw [h7]
        dsimp only
        rw [if_neg hdoi]
        rw [if_pos hbasis, h9b]
        simp [List.append_assoc]
      · intro y hy
        simp only [List.mem_singleton] at hy
        subst hy
        exact ⟨rfl, rfl, rfl, rfl, rfl, rfl, Or.inr rfl⟩
    · -- neither supplementary field written
      refine ⟨[], ?_, ?_⟩
      · simp only [admissionWrites]
        rw [h1]
        dsimp only
        rw [h2]
        dsimp only
        rw [h3]
        dsimp only
        rw [h4]
        dsimp only
        rw [h5]
        dsimp only
        rw [h6]
        dsimp only
        rw [h7]
        dsimp only
        rw [if_neg hdoi, if_neg hbasis]
        simp [List.append_assoc]
      · intro y hy
        exact absurd hy (List.not_mem_nil _)

/-!
C6 — admission writes: individual single-valued writes, pure append, place 1.
-/

/-- C6 (corrected): on admission under a fresh tracking identity, each
    written field — the origin pointer pair, mirrored type, the inProcess
    status, the id-field/value pair, mirrored title and issue date, the DOI
    when distinct from the id-field, and the admission reason when supplied —
    goes through an individual `save_value` call rather than one
    complete-record call, and the whole block is a pure append: every
    pre-existing row is carried over untouched, so admission soft-deletes
    nothing it did not set.  However the writes are at place = 1, not
    place = 0 as the spec claims (base.py:180-196 passes 1 throughout); the
    counterexample theorem shows an admission with every irts row at place 1
    and none at place 0. -/
theorem admissionWrites_pure_append_place_one
    (selfSource idInIrts idInSource idField : String)
    (typeValue title dateIssued doi harvestBasis : Option String) (t : Nat) (st : Store)
    (hfresh : ∀ r ∈ st.rows, r.source = "irts" → r.idInSource = idInIrts →
      r.deleted ≠ none)
    (hid : idField ∉ ["irts.source", "irts.idInSource", "dc.type", "irts.status",
      "dc.title", "dc.date.issued", "irts.harvest.basis"]) :
    ∃ tail, tail ≠ [] ∧
      (admissionWrites selfSource idInIrts idInSource idField typeValue title dateIssued
        doi harvestBasis t st).rows = st.rows ++ tail ∧
      ∀ y ∈ tail, y.source = "irts" ∧ y.idInSource = idInIrts ∧ y.place = 1 ∧
        y.deleted = none ∧
        (y.field ∈ ["irts.source", "irts.idInSource", "dc.type", "irts.status",
          "dc.title", "dc.date.issued", "dc.identifier.doi", "irts.harvest.basis"] ∨
         y.field = idField) := by
  obtain ⟨tail, heq, hprops⟩ := admissionWrites_shape selfSource idInIrts idInSource
    idField typeValue title dateIssued doi harvestBasis t st hfresh hid
  refine ⟨_, by simp, heq, ?_⟩
  intro y hy
  simp only [List.mem_cons] at hy
  rcases hy with rfl | rfl | rfl | rfl | rfl | rfl | rfl | hy
  · exact ⟨rfl, rfl, rfl, rfl,
      Or.inl (show ("irts.source" : String) ∈ _ by decide)⟩
  · exact ⟨rfl, rfl, rfl, rfl,
      Or.inl (show ("irts.idInSource" : String) ∈ _ by decide)⟩
  · exact ⟨rfl, rfl, rfl, rfl,
      Or.inl (show ("dc.type" : String) ∈ _ by decide)⟩
  · exact ⟨rfl, rfl, rfl, rfl,
      Or.inl (show ("irts.status" : String) ∈ _ by decide)⟩
  · exact ⟨rfl, rfl, rfl, rfl, Or.inr rfl⟩
  · exact ⟨rfl, rfl, rfl, rfl,
      Or.inl (show ("dc.title" : String) ∈ _ by decide)⟩
  · exact ⟨rfl, rfl, rfl, rfl,
      Or.inl (show ("dc.date.issued" : String) ∈ _ by decide)⟩
  · obtain ⟨hs2, hi3, -, hp2, hd2, -, hf2⟩ := hprops y hy
    refine ⟨hs2, hi3, hp2, hd2, Or.inl ?_⟩
    rcases hf2 with h | h <;> rw [h] <;> decide

/-- C6 counterexample: a concrete first admission; every tracking row it
    writes carries place 1 and no tracking row sits at the claimed place 0. -/
theorem admission_place_one_cex :
    add_to_process "src1" "i1" "dc.identifier.arxivid" none 0
      ⟨[⟨0, "src1", "i1", none, "dc.identifier.doi", 0, some "10.1/x", 0, none, none⟩],
        1, [], 0⟩ =
      .ok (⟨"inProcess", "src1_1"⟩,
       ⟨[⟨0, "src1", "i1", none, "dc.identifier.doi", 0, some "10.1/x", 0, none, none⟩,
         ⟨1, "irts", "src1_1", none, "irts.source", 1, some "src1", 0, none, none⟩,
         ⟨2, "irts", "src1_1", some 1, "irts.idInSource", 1, some "i1", 0, none, none⟩,
         ⟨3, "irts", "src1_1", none, "dc.type", 1, none, 0, none, none⟩,
         ⟨4, "irts", "src1_1", none, "irts.status", 1, some "inProcess", 0, none, none⟩,
         ⟨5, "irts", "src1_1", none, "dc.identifier.arxivid", 1, some "i1", 0, none, none⟩,
         ⟨6, "irts", "src1_1", none, "dc.title", 1, none, 0, none, none⟩,
         ⟨7, "irts", "src1_1", none, "dc.date.issued", 1, none, 0, none, none⟩,
         ⟨8, "irts", "src1_1", none, "dc.identifier.doi", 1, some "10.1/x", 0, none, none⟩],
        9, [], 0⟩) ∧
    (∀ r ∈ (⟨[⟨0, "src1", "i1", none, "dc.identifier.doi", 0, some "10.1/x", 0, none, none⟩,
         ⟨1, "irts", "src1_1", none, "irts.source", 1, some "src1", 0, none, none⟩,
         ⟨2, "irts", "src1_1", some 1, "irts.idInSource", 1, some "i1", 0, none, none⟩,
         ⟨3, "irts", "src1_1", none, "dc.type", 1, none, 0, none, none⟩,
         ⟨4, "irts", "src1_1", none, "irts.status", 1, some "inProcess", 0, none, none⟩,
         ⟨5, "irts", "src1_1", none, "dc.identifier.arxivid", 1, some "i1", 0, none, none⟩,
         ⟨6, "irts", "src1_1", none, "dc.title", 1, none, 0, none, none⟩,
         ⟨7, "irts", "src1_1", none, "dc.date.issued", 1, none, 0, none, none⟩,
         ⟨8, "irts", "src1_1", none, "dc.identifier.doi", 1, some "10.1/x", 0, none, none⟩],
        9, [], 0⟩ : Store).rows, r.source = "irts" → r.place = 1) ∧
    ¬ (∃ r ∈ (⟨[⟨0, "src1", "i1", none, "dc.identifier.doi", 0, some "10.1/x", 0, none, none⟩,
         ⟨1, "irts", "src1_1", none, "irts.source", 1, some "src1", 0, none, none⟩,
         ⟨2, "irts", "src1_1", some 1, "irts.idInSource", 1, some "i1", 0, none, none⟩,
         ⟨3, "irts", "src1_1", none, "dc.type", 1, none, 0, none, none⟩,
         ⟨4, "irts", "src1_1", none, "irts.status", 1, some "inProcess", 0, none, none⟩,
         ⟨5, "irts", "src1_1", none, "dc.identifier.arxivid", 1, some "i1", 0, none, none⟩,
         ⟨6, "irts", "src1_1", none, "dc.title", 1, none, 0, none, none⟩,
         ⟨7, "irts", "src1_1", none, "dc.date.issued", 1, none, 0, none, none⟩,
         ⟨8, "irts", "src1_1", none, "dc.identifier.doi", 1, some "10.1/x", 0, none, none⟩],
        9, [], 0⟩ : Store).rows, r.source = "irts" ∧ r.place = 0) :=
  ⟨rfl, by decide, by decide⟩

theorem admissionWrites_pure_append_place_one_witness :
    ∃ tail, tail ≠ [] ∧
      (admissionWrites "src1" "x_1" "i1" "dc.identifier.arxivid" none none none
        (some "10.1/x") none 0 ⟨[], 0, [], 0⟩).rows = ([] : List Row) ++ tail ∧
      ∀ y ∈ tail, y.source = "irts" ∧ y.idInSource = "x_1" ∧ y.place = 1 ∧
        y.deleted = none ∧
        (y.field ∈ ["irts.source", "irts.idInSource", "dc.type", "irts.status",
          "dc.title", "dc.date.issued", "dc.identifier.doi", "irts.harvest.basis"] ∨
         y.field = "dc.identifier.arxivid") :=
  admissionWrites_pure_append_place_one "src1" "x_1" "i1" "dc.identifier.arxivid"
    none none none (some "10.1/x") none 0 ⟨[], 0, [], 0⟩
    (by intro r hr; exact absurd hr (List.not_mem_nil _)) (by decide)

/-!
C10 — the irts.idInSource child nesting and the pointer lookup.
-/

/-- C10: on admission under a fresh tracking identity, the irts.idInSource
    row is stored as a child of the irts.source row written by the same
    admission (its parentRowID is that row's rowID) while every other
    admission row is top-level (parentRowID null), and the already-tracked
    origin-pointer lookup (`irtsPointerMatch`, the first disjunct of the
    existing-entry query) succeeds on the resulting store through exactly
    this parent-child nesting. -/
theorem admission_idInSource_nesting (selfSource idInIrts idInSource idField : String)
    (typeValue title dateIssued doi harvestBasis : Option String) (t : Nat) (st : Store)
    (hfresh : ∀ r ∈ st.rows, r.source = "irts" → r.idInSource = idInIrts →
      r.deleted ≠ none)
    (hid : idField ∉ ["irts.source", "irts.idInSource", "dc.type", "irts.status",
      "dc.title", "dc.date.issued", "irts.harvest.basis"])
    (hs : pyStrip selfSource = selfSource) (hi2 : pyStrip idInSource = idInSource) :
    ∃ rs rc rest,
      (admissionWrites selfSource idInIrts idInSource idField typeValue title dateIssued
        doi harvestBasis t st).rows = st.rows ++ (rs :: rc :: rest) ∧
      rs.source = "irts" ∧ rs.field = "irts.source" ∧ rs.parentRowID = none ∧
      rs.value = some selfSource ∧ rs.deleted = none ∧
      rc.source = "irts" ∧ rc.field = "irts.idInSource" ∧
      rc.parentRowID = some rs.rowID ∧ rc.value = some idInSource ∧ rc.deleted = none ∧
      (∀ y ∈ rest, y.parentRowID = none) ∧
      irtsPointerMatch (admissionWrites selfSource idInIrts idInSource idField typeValue
        title dateIssued doi harvestBasis t st) selfSource idInSource = true := by
  obtain ⟨tail, heq, hprops⟩ := admissionWrites_shape selfSource idInIrts idInSource
    idField typeValue title dateIssued doi harvestBasis t st hfresh hid
  refine ⟨_, _, _, heq, rfl, rfl, rfl, ?_, rfl, rfl, rfl, rfl, ?_, rfl, ?_, ?_⟩
  · show some (pyStrip selfSource) = some selfSource
    rw [hs]
  · show some (pyStrip idInSource) = some idInSource
    rw [hi2]
  · intro y hy
    simp only [List.mem_cons] at hy
    rcases hy with rfl | rfl | rfl | rfl | rfl | hy
    · rfl
    · rfl
    · rfl
    · rfl
    · rfl
    · exact (hprops y hy).2.2.1
  · rw [irtsPointerMatch, List.any_eq_true]
    refine ⟨newRow "irts" idInIrts none "irts.source" 1 (normVal (.vstr selfSource)) t
      st.nextRowID, ?_, ?_⟩
    · rw [heq]
      exact List.mem_append_right _ (List.mem_cons_self _ _)
    · simp only [Bool.and_eq_true, beq_iff_eq]
      refine ⟨⟨⟨⟨rfl, rfl⟩, ?_⟩, rfl⟩, ?_⟩
      · show some (pyStrip selfSource) = some selfSource
        rw [hs]
      · rw [List.any_eq_true]
        refine ⟨newRow "irts" idInIrts (some st.nextRowID) "irts.idInSource" 1
          (normVal (.vstr idInSource)) t (st.nextRowID + 1), ?_, ?_⟩
        · rw [heq]
          exact List.mem_append_right _ (List.mem_cons_of_mem _ (List.mem_cons_self _ _))
        · simp only [Bool.and_eq_true, beq_iff_eq]
          refine ⟨⟨⟨⟨rfl, rfl⟩, ?_⟩, rfl⟩, rfl⟩
          show some (pyStrip idInSource) = some idInSource
          rw [hi2]

theorem admission_idInSource_nesting_witness :
    ∃ rs rc rest,
      (admissionWrites "src1" "x_1" "i1" "dc.identifier.arxivid" none none none
        none none 0 ⟨[], 0, [], 0⟩).rows = ([] : List Row) ++ (rs :: rc :: rest) ∧
      rs.source = "irts" ∧ rs.field = "irts.source" ∧ rs.parentRowID = none ∧
      rs.value = some "src1" ∧ rs.deleted = none ∧
      rc.source = "irts" ∧ rc.field = "irts.idInSource" ∧
      rc.parentRowID = some rs.rowID ∧ rc.value = some "i1" ∧ rc.deleted = none ∧
      (∀ y ∈ rest, y.parentRowID = none) ∧
      irtsPointerMatch (admissionWrites "src1" "x_1" "i1" "dc.identifier.arxivid" none
        none none none none 0 ⟨[], 0, [], 0⟩) "src1" "i1" = true :=
  admission_idInSource_nesting "src1" "x_1" "i1" "dc.identifier.arxivid"
    none none none none none 0 ⟨[], 0, [], 0⟩
    (by intro r hr; exact absurd hr (List.not_mem_nil _)) (by decide)
    (by decide) (by decide)

end Irts
